import Mathlib

/-!
# StorageSystemParts::read

A shallow embedding of `dbms/src/Storages/StorageSystemParts.cpp`: the virtual table
`system.parts`, which lists the data parts of every MergeTree table.

The embedding follows the body of `StorageSystemParts::read` from line 44 on, that is
after `check(column_names)` has accepted the requested column names.  Columns are lists
of cells, a block is a list of named columns, the two `std::map`s of the catalog are
association lists in iteration order, and exceptions are values of `Except`.
Lock acquisitions, part-set fetches and row insertions are recorded in a trace.
-/

namespace DB

/-! ## Columns and blocks -/

/-- A cell of a column: `Field` holding a `String` or an unsigned integer. -/
inductive Field where
  | str (s : String)
  | uint (n : Nat)
deriving DecidableEq, Repr

/-- Reading a cell as a string, `field.get<String>()`. -/
def Field.getString : Field → String
  | Field.str s => s
  | Field.uint _ => ""

/-- Reading a cell as an integer, `field.get<UInt64>()`. -/
def Field.getUInt64 : Field → Nat
  | Field.uint n => n
  | Field.str _ => 0

/-- The data types named in the source. -/
inductive DataType where
  | DataTypeString
  | DataTypeUInt8
  | DataTypeUInt32
  | DataTypeUInt64
  | DataTypeDateTime
deriving DecidableEq, Repr

/-- A column is the list of its cells, first row first. -/
abbrev IColumn := List Field

/-- The call `column[i]`; the default cell stands for an index out of range. -/
def IColumn.get (c : IColumn) (i : Nat) : Field := c.getD i (Field.uint 0)

/-- The call `ColumnString::insert`. -/
def ColumnString.insert (c : IColumn) (s : String) : IColumn := c ++ [Field.str s]

/-- The call `ColumnUInt8::insert`: the value is narrowed to 8 bits. -/
def ColumnUInt8.insert (c : IColumn) (x : Nat) : IColumn := c ++ [Field.uint (x % 2 ^ 8)]

/-- The call `ColumnUInt32::insert`: the (signed, 64 bit) value is narrowed to 32 bits. -/
def ColumnUInt32.insert (c : IColumn) (x : Int) : IColumn :=
  c ++ [Field.uint (x % 2 ^ 32).toNat]

/-- The call `ColumnUInt64::insert`: the value is kept modulo `2 ^ 64`. -/
def ColumnUInt64.insert (c : IColumn) (x : Nat) : IColumn := c ++ [Field.uint (x % 2 ^ 64)]

/-- One column of a block, `ColumnWithNameAndType`. -/
structure ColumnWithNameAndType where
  column : IColumn
  type : DataType
  name : String
deriving DecidableEq, Repr

/-- A block: its columns in position order. -/
abbrev Block := List ColumnWithNameAndType

/-- The call `Block::rows`: the size of the first column, zero for no column. -/
def Block.rows : Block → Nat
  | [] => 0
  | c :: _ => c.column.length

/-- The call `Block::insert`: the column is added at the end. -/
def Block.insert (b : Block) (c : ColumnWithNameAndType) : Block := b ++ [c]

/-- Exceptions the embedded code can raise. `fuel_exhausted` belongs to the embedding
only: it marks a loop that stopped on its iteration bound, and `read` never raises it. -/
inductive Exception where
  | out_of_range
  | NOT_FOUND_COLUMN_IN_BLOCK
  | TABLE_IS_DROPPED
  | fuel_exhausted
deriving DecidableEq, Repr

/-- The call `Block::getByName`, which throws when no column has that name. -/
def Block.getByName (b : Block) (name : String) : Except Exception ColumnWithNameAndType :=
  match b.find? (fun c => c.name == name) with
  | some c => Except.ok c
  | none => Except.error Exception.NOT_FOUND_COLUMN_IN_BLOCK

/-- A row of a block as seen by a predicate: the cells with their column names. -/
abbrev Row := List (String × Field)

/-- Row `j` of a block. -/
def Block.rowAt (b : Block) (j : Nat) : Row := b.map (fun c => (c.name, c.column.get j))

/-- All rows of a block, first row first. -/
def Block.rowList (b : Block) : List Row := (List.range b.rows).map b.rowAt

/-- Modelled from the spec: the query as the Predicate Evaluator sees it; the parser and
expression analyzer are not part of the source. A query decides a row from the columns
the row has, so one query serves the block with only `database` and the block with all
five candidate columns. -/
abbrev Query := Row → Bool

/-- The call `IColumn::filter` with a mask: the cells whose mask bit is set. -/
def IColumn.filter (c : IColumn) (mask : List Bool) : IColumn :=
  ((mask.zip c).filter (fun p => p.1)).map (fun p => p.2)

/-- Modelled from the spec: `VirtualColumnUtils::filterBlockWithQuery` is not part of the
source; the spec gives it as `filter(rowset, predicate)`, the row set restricted in place
to the matching rows. -/
def filterBlockWithQuery (query : Query) (block : Block) : Block :=
  let mask := block.rowList.map query
  block.map (fun c => { c with column := c.column.filter mask })

/-- Modelled from the spec: `IColumn::replicate` is not part of the source; row `i` is
repeated `offsets[i] - offsets[i-1]` times (`offsets[i]` times for the first row), which
is what the spec calls replicating the row. -/
def IColumn.replicateFrom : IColumn → List Nat → Nat → IColumn
  | x :: xs, o :: os, prev => List.replicate (o - prev) x ++ IColumn.replicateFrom xs os o
  | _, _, _ => []

/-- The call `column->replicate(offsets)`. -/
def IColumn.replicate (c : IColumn) (offsets : List Nat) : IColumn :=
  IColumn.replicateFrom c offsets 0

/-! ## Parts, datasets, storages, catalog -/

/-- A `MergeTreeData::DataPartPtr`: the fields of the part that `read` consumes and
`use_count`, what `part.use_count()` returns when the row of the part is written (every
owner of the part, the local sets of the enumeration included). -/
structure DataPartPtr where
  name : String
  size : Nat
  size_in_bytes : Nat
  modification_time : Nat
  remove_time : Nat
  use_count : Nat
deriving DecidableEq, Repr

/-- A `MergeTreeData::DataParts`, in iteration order. -/
abbrev DataParts := List DataPartPtr

/-- Modelled from the spec: `DataParts` is a `std::set` ordered by `DataPartPtrLess`,
declared outside the source; the spec says a part is identified by its name, so
`active_parts.count(part)` is 1 when a part of that name is in the set and 0 otherwise. -/
def DataParts.count (s : DataParts) (part : DataPartPtr) : Nat :=
  if s.any (fun p => p.name == part.name) then 1 else 0

/-- A `MergeTreeData`: the active parts and all parts of one backing dataset. -/
structure MergeTreeData where
  data_parts : DataParts
  all_data_parts : DataParts
deriving DecidableEq, Repr

/-- The call `getDataParts()`: a copy of the active set. -/
def MergeTreeData.getDataParts (d : MergeTreeData) : DataParts := d.data_parts

/-- The call `getAllDataParts()`: a copy of the set of all parts. -/
def MergeTreeData.getAllDataParts (d : MergeTreeData) : DataParts := d.all_data_parts

/-- The dynamic type of a storage, as the two `dynamic_cast`s tell it apart. -/
inductive StorageImpl where
  | StorageMergeTree (data : MergeTreeData)
  | StorageReplicatedMergeTree (data : MergeTreeData) (unreplicated_data : Option MergeTreeData)
  | Other
deriving DecidableEq, Repr

/-- A table, `IStorage`: engine name, dropped flag and dynamic type. -/
structure IStorage where
  name : String
  is_dropped : Bool
  impl : StorageImpl
deriving DecidableEq, Repr

/-- A `StoragePtr`. -/
abbrev StoragePtr := IStorage

/-- The call `storage->getName()`. -/
def IStorage.getName (s : IStorage) : String := s.name

/-- The test `dynamic_cast<StorageMergeTree *>(&*storage)`. -/
def IStorage.isStorageMergeTree (s : IStorage) : Bool :=
  match s.impl with
  | StorageImpl.StorageMergeTree _ => true
  | _ => false

/-- The test `dynamic_cast<StorageReplicatedMergeTree *>(&*storage)`. -/
def IStorage.isStorageReplicatedMergeTree (s : IStorage) : Bool :=
  match s.impl with
  | StorageImpl.StorageReplicatedMergeTree _ _ => true
  | _ => false

/-- Modelled from the spec: `IStorage::lockStructure` is not part of the source; the spec
says a handle that can no longer be locked, because the table was dropped, is an error
that aborts the read. -/
def IStorage.lockStructure (s : IStorage) : Except Exception Unit :=
  if s.is_dropped then Except.error Exception.TABLE_IS_DROPPED else Except.ok ()

/-- The type `Tables`, a `std::map` from table name to storage, in iteration order. -/
abbrev Tables := List (String × StoragePtr)

/-- The type `Databases`, a `std::map` from database name to tables, in iteration order. -/
abbrev Databases := List (String × Tables)

/-- The part of `Context` that `read` uses. -/
structure Context where
  databases : Databases
deriving DecidableEq, Repr

/-- The call `context.getDatabases()`. -/
def Context.getDatabases (context : Context) : Databases := context.databases

/-- The call `databases.at(database)`, which throws `std::out_of_range`. -/
def Databases.atKey (databases : Databases) (database : String) : Except Exception Tables :=
  match databases.lookup database with
  | some tables => Except.ok tables
  | none => Except.error Exception.out_of_range

/-- The local `std::map<std::pair<String, String>, StoragePtr> storages`; the newest
assignment of a key comes first and is the one a lookup finds. -/
abbrev Storages := List ((String × String) × StoragePtr)

/-- The assignment `storages[key] = storage`. -/
def Storages.assign (storages : Storages) (key : String × String) (storage : StoragePtr) :
    Storages :=
  (key, storage) :: storages

/-- The call `storages.at(key)`, which throws `std::out_of_range`. -/
def Storages.atKey (storages : Storages) (key : String × String) : Except Exception StoragePtr :=
  match storages.lookup key with
  | some storage => Except.ok storage
  | none => Except.error Exception.out_of_range

/-! ## Candidate expansion (lines 53 to 129) -/

/-- What the expansion loop of lines 80 to 117 has built so far. -/
structure Expansion where
  storages : Storages
  offsets : List Nat
  table_column : IColumn
  engine_column : IColumn
  replicated_column : IColumn
  active_column : IColumn
deriving DecidableEq, Repr

/-- The state before the loop of line 80: nothing recorded, empty columns. -/
def Expansion.empty : Expansion :=
  { storages := [], offsets := [], table_column := [], engine_column := [],
    replicated_column := [], active_column := [] }

/-- The body of the loop over `tables` (lines 86 to 115); the second component is the
value of `offsets[i]` under construction. -/
def expandTable (database : String) (st : Expansion × Nat) (table : String × StoragePtr) :
    Expansion × Nat :=
  let storage := table.2
  if !storage.isStorageMergeTree && !storage.isStorageReplicatedMergeTree then
    st
  else
    let e := st.1
    let storages := e.storages.assign (database, table.1) storage
    let table_column := ColumnString.insert e.table_column table.1
    let engine_column := ColumnString.insert e.engine_column storage.getName
    let replicated_column := ColumnUInt8.insert e.replicated_column 0
    let active_column := ColumnUInt8.insert e.active_column 0
    let table_column := ColumnString.insert table_column table.1
    let engine_column := ColumnString.insert engine_column storage.getName
    let replicated_column := ColumnUInt8.insert replicated_column 0
    let active_column := ColumnUInt8.insert active_column 1
    let table_column := ColumnString.insert table_column table.1
    let engine_column := ColumnString.insert engine_column storage.getName
    let replicated_column := ColumnUInt8.insert replicated_column 1
    let active_column := ColumnUInt8.insert active_column 0
    let table_column := ColumnString.insert table_column table.1
    let engine_column := ColumnString.insert engine_column storage.getName
    let replicated_column := ColumnUInt8.insert replicated_column 1
    let active_column := ColumnUInt8.insert active_column 1
    ({ storages := storages, offsets := e.offsets, table_column := table_column,
       engine_column := engine_column, replicated_column := replicated_column,
       active_column := active_column }, st.2 + 4)

/-- The body of the loop over the rows of the database column (lines 82 to 116):
`offsets[i]` starts from `offsets[i - 1]`, or from 0 in the first row. -/
def expandDatabase (databases : Databases) (e : Expansion) (cell : Field) :
    Except Exception Expansion := do
  let database := cell.getString
  let tables ← databases.atKey database
  let offset := match e.offsets.getLast? with
    | some o => o
    | none => 0
  let st := tables.foldl (expandTable database) (e, offset)
  pure { st.1 with offsets := st.1.offsets ++ [st.2] }

/-- The loop of lines 80 to 117 over the filtered database column. -/
def expand (databases : Databases) (database_column : IColumn) : Except Exception Expansion :=
  database_column.foldlM (expandDatabase databases) Expansion.empty

/-- Lines 59 to 65: the block with the single column `database`, one row per database of
the catalog, after the first filter. -/
def databaseBlock (context : Context) (query : Query) : Block :=
  let databases := context.getDatabases
  let database_column : IColumn := databases.foldl (fun c database => ColumnString.insert c database.1) []
  let block : Block := Block.insert [] ⟨database_column, DataType.DataTypeString, "database"⟩
  filterBlockWithQuery query block

/-- Lines 71 to 128 for a non-empty database block: the mapping `storages` and the block
of candidate rows handed to the second filter. -/
def candidates (context : Context) (block : Block) : Except Exception (Storages × Block) := do
  let databases := context.getDatabases
  let database_column := (← block.getByName "database").column
  let e ← expand databases database_column
  let block : Block := block.map (fun c => { c with column := c.column.replicate e.offsets })
  let block := block.insert ⟨e.table_column, DataType.DataTypeString, "table"⟩
  let block := block.insert ⟨e.engine_column, DataType.DataTypeString, "engine"⟩
  let block := block.insert ⟨e.replicated_column, DataType.DataTypeUInt8, "replicated"⟩
  let block := block.insert ⟨e.active_column, DataType.DataTypeUInt8, "active"⟩
  pure (e.storages, block)

/-! ## Part enumeration (lines 137 to 220) -/

/-- What `read` does that an observer outside can count. -/
inductive Event where
  | lockContext
  | unlockContext
  | lockStructure (database table : String)
  | unlockStructure (database table : String)
  | getDataParts (database table : String) (replicated : Nat)
  | getAllDataParts (database table : String) (replicated : Nat)
  | insertRow (database table : String) (replicated : Nat) (name : String)
deriving DecidableEq, Repr

/-- The matrix `bool need[2][2]`, indexed `[replicated][active]`. -/
structure Need where
  n00 : Bool
  n01 : Bool
  n10 : Bool
  n11 : Bool
deriving DecidableEq, Repr

/-- The initializer `need[2][2]{}`: all false. -/
def Need.empty : Need := ⟨false, false, false, false⟩

/-- The read `need[replicated][active]` with indices 0 or 1. -/
def Need.get (need : Need) (replicated active : Nat) : Bool :=
  match replicated, active with
  | 0, 0 => need.n00
  | 0, 1 => need.n01
  | 1, 0 => need.n10
  | 1, 1 => need.n11
  | _, _ => false

/-- The write `need[replicated][active] = true` with `bool` indices. -/
def Need.set (need : Need) (replicated active : Bool) : Need :=
  match replicated, active with
  | false, false => { need with n00 := true }
  | false, true => { need with n01 := true }
  | true, false => { need with n10 := true }
  | true, true => { need with n11 := true }

/-- Row `i` of the four filtered columns the grouping loop reads. -/
structure FilteredRow where
  database : String
  table : String
  replicated : Nat
  active : Nat
deriving DecidableEq, Repr

/-- The rows `0 .. size - 1` of the filtered columns, `size` being the size of the
filtered database column as in the loop conditions of lines 155 and 162. -/
def filteredRows (filtered_database_column filtered_table_column filtered_replicated_column
    filtered_active_column : IColumn) : List FilteredRow :=
  (List.range filtered_database_column.length).map (fun i =>
    { database := (filtered_database_column.get i).getString,
      table := (filtered_table_column.get i).getString,
      replicated := (filtered_replicated_column.get i).getUInt64,
      active := (filtered_active_column.get i).getUInt64 })

/-- The inner loop of lines 162 to 169 from row `i` on: it returns the matrix and the
rows from the first one that belongs to another database or table. -/
def needLoop (database table : String) : List FilteredRow → Need → Need × List FilteredRow
  | [], need => (need, [])
  | row :: rest, need =>
    if row.database = database ∧ row.table = table then
      let replicated := row.replicated != 0
      let active := row.active != 0
      needLoop database table rest (need.set replicated active)
    else
      (need, row :: rest)

/-- The eleven result columns of lines 143 to 153. -/
structure ResultColumns where
  database_column : IColumn
  table_column : IColumn
  engine_column : IColumn
  name_column : IColumn
  replicated_column : IColumn
  active_column : IColumn
  marks_column : IColumn
  bytes_column : IColumn
  modification_time_column : IColumn
  remove_time_column : IColumn
  refcount_column : IColumn
deriving DecidableEq, Repr

/-- The eleven columns as created: empty. -/
def ResultColumns.empty : ResultColumns := ⟨[], [], [], [], [], [], [], [], [], [], []⟩

/-- The state of the enumeration: the result columns and the trace. -/
structure EnumState where
  cols : ResultColumns
  trace : List Event
deriving DecidableEq, Repr

/-- Appending an event to the trace. -/
def EnumState.log (st : EnumState) (e : Event) : EnumState :=
  { st with trace := st.trace ++ [e] }

/-- The refcount expression of line 217, in the signed 64 bit type of `use_count()`. -/
def refcountValue (active_parts : DataParts) (part : DataPartPtr) : Int :=
  (part.use_count : Int) - (if active_parts.count part != 0 then 2 else 1)

/-- The active expression of line 210, `!need[replicated][0] || active_parts.count(part)`. -/
def activeValue (need0 : Bool) (active_parts : DataParts) (part : DataPartPtr) : Nat :=
  if !need0 || active_parts.count part != 0 then 1 else 0

/-- The body of the loop over `all_parts` (lines 205 to 217). -/
def insertPart (database table engine : String) (replicated : Nat) (need0 : Bool)
    (active_parts : DataParts) (st : EnumState) (part : DataPartPtr) : EnumState :=
  { cols :=
      { database_column := ColumnString.insert st.cols.database_column database,
        table_column := ColumnString.insert st.cols.table_column table,
        engine_column := ColumnString.insert st.cols.engine_column engine,
        name_column := ColumnString.insert st.cols.name_column part.name,
        replicated_column := ColumnUInt8.insert st.cols.replicated_column replicated,
        active_column :=
          ColumnUInt8.insert st.cols.active_column (activeValue need0 active_parts part),
        marks_column := ColumnUInt64.insert st.cols.marks_column part.size,
        bytes_column := ColumnUInt64.insert st.cols.bytes_column part.size_in_bytes,
        modification_time_column :=
          ColumnUInt32.insert st.cols.modification_time_column part.modification_time,
        remove_time_column := ColumnUInt32.insert st.cols.remove_time_column part.remove_time,
        refcount_column :=
          ColumnUInt32.insert st.cols.refcount_column (refcountValue active_parts part) },
    trace := st.trace ++ [Event.insertRow database table replicated part.name] }

/-- The array `MergeTreeData * data[2]` read at index `replicated`. -/
def dataAt (data : Option MergeTreeData × Option MergeTreeData) (replicated : Nat) :
    Option MergeTreeData :=
  match replicated with
  | 0 => data.1
  | 1 => data.2
  | _ => none

/-- The body of the loop over `replicated` (lines 190 to 218). -/
def enumerateFlag (database table engine : String)
    (data : Option MergeTreeData × Option MergeTreeData) (need : Need) (st : EnumState)
    (replicated : Nat) : EnumState :=
  if !need.get replicated 0 && !need.get replicated 1 then
    st
  else
    match dataAt data replicated with
    | none => st
    | some d =>
      let active_parts := d.getDataParts
      let st := st.log (Event.getDataParts database table replicated)
      let fetched : DataParts × EnumState :=
        if need.get replicated 0 then
          (d.getAllDataParts, st.log (Event.getAllDataParts database table replicated))
        else
          (active_parts, st)
      fetched.1.foldl
        (insertPart database table engine replicated (need.get replicated 0) active_parts)
        fetched.2

/-- The array `data` of lines 176 to 186: `[0]` unreplicated, `[1]` replicated. -/
def backingData (storage : StoragePtr) : Option MergeTreeData × Option MergeTreeData :=
  match storage.impl with
  | StorageImpl.StorageMergeTree data => (some data, none)
  | StorageImpl.StorageReplicatedMergeTree data unreplicated_data => (unreplicated_data, some data)
  | StorageImpl.Other => (none, none)

/-- Lines 171 to 219 for one group: look the storage up, lock it, enumerate both flags;
the lock is a local of the loop body and is released when the body ends. -/
def enumerateTable (storages : Storages) (database table : String) (need : Need)
    (st : EnumState) : Except Exception EnumState := do
  let storage ← storages.atKey (database, table)
  storage.lockStructure
  let st := st.log (Event.lockStructure database table)
  let engine := storage.getName
  let data := backingData storage
  let st := [0, 1].foldl (enumerateFlag database table engine data need) st
  pure (st.log (Event.unlockStructure database table))

/-- The loop of lines 155 to 220. Each turn consumes at least the row it starts at, so
the number of rows bounds the number of turns; `fuel` is that bound. -/
def tablesLoop (storages : Storages) :
    Nat → List FilteredRow → EnumState → Except Exception EnumState
  | _, [], st => Except.ok st
  | 0, _ :: _, _ => Except.error Exception.fuel_exhausted
  | fuel + 1, row :: rest, st => do
    let database := row.database
    let table := row.table
    let grouped := needLoop database table (row :: rest) Need.empty
    let st ← enumerateTable storages database table grouped.1 st
    tablesLoop storages fuel grouped.2 st

/-- Lines 137 to 220: the four filtered columns, then the grouping loop. -/
def enumerate (storages : Storages) (block : Block) (trace : List Event) :
    Except Exception EnumState := do
  let filtered_database_column := (← block.getByName "database").column
  let filtered_table_column := (← block.getByName "table").column
  let filtered_replicated_column := (← block.getByName "replicated").column
  let filtered_active_column := (← block.getByName "active").column
  let rows := filteredRows filtered_database_column filtered_table_column
    filtered_replicated_column filtered_active_column
  tablesLoop storages rows.length rows { cols := ResultColumns.empty, trace := trace }

/-! ## Result assembly and `read` -/

/-- The schema declared by the constructor (lines 19 to 30). -/
def StorageSystemParts.columns : List (String × DataType) :=
  [("name", DataType.DataTypeString),
   ("replicated", DataType.DataTypeUInt8),
   ("active", DataType.DataTypeUInt8),
   ("marks", DataType.DataTypeUInt64),
   ("bytes", DataType.DataTypeUInt64),
   ("modification_time", DataType.DataTypeDateTime),
   ("remove_time", DataType.DataTypeDateTime),
   ("refcount", DataType.DataTypeUInt32),
   ("database", DataType.DataTypeString),
   ("table", DataType.DataTypeString),
   ("engine", DataType.DataTypeString)]

/-- Lines 222 to 234: the block is cleared and the eleven result columns inserted. -/
def assemble (c : ResultColumns) : Block :=
  let block : Block := []
  let block := block.insert ⟨c.name_column, DataType.DataTypeString, "name"⟩
  let block := block.insert ⟨c.replicated_column, DataType.DataTypeUInt8, "replicated"⟩
  let block := block.insert ⟨c.active_column, DataType.DataTypeUInt8, "active"⟩
  let block := block.insert ⟨c.marks_column, DataType.DataTypeUInt64, "marks"⟩
  let block := block.insert ⟨c.bytes_column, DataType.DataTypeUInt64, "bytes"⟩
  let block :=
    block.insert ⟨c.modification_time_column, DataType.DataTypeDateTime, "modification_time"⟩
  let block := block.insert ⟨c.remove_time_column, DataType.DataTypeDateTime, "remove_time"⟩
  let block := block.insert ⟨c.refcount_column, DataType.DataTypeUInt32, "refcount"⟩
  let block := block.insert ⟨c.database_column, DataType.DataTypeString, "database"⟩
  let block := block.insert ⟨c.table_column, DataType.DataTypeString, "table"⟩
  let block := block.insert ⟨c.engine_column, DataType.DataTypeString, "engine"⟩
  block

/-- A `BlockInputStreams`: each `OneBlockInputStream` is the block it yields. -/
abbrev BlockInputStreams := List Block

/-- What a completed `read` leaves: the streams returned and the trace of events. -/
structure ReadResult where
  streams : BlockInputStreams
  trace : List Event
deriving DecidableEq, Repr

/-- The function `StorageSystemParts::read` (lines 44 to 236). The catalog mutex is held
for the scope of lines 53 to 129 and released on both ways out of it. -/
def StorageSystemParts.read (context : Context) (query : Query) : Except Exception ReadResult := do
  let block := databaseBlock context query
  if block.rows = 0 then
    pure { streams := [], trace := [Event.lockContext, Event.unlockContext] }
  else
    let expanded ← candidates context block
    let storages := expanded.1
    let trace := [Event.lockContext, Event.unlockContext]
    let block := filterBlockWithQuery query expanded.2
    if block.rows = 0 then
      pure { streams := [], trace := trace }
    else
      let st ← enumerate storages block trace
      pure { streams := [assemble st.cols], trace := st.trace }

/-! ## Closed forms used to state and prove the properties -/

/-- One row of the result: the cells in the order of the schema. -/
structure ResultRow where
  name : Field
  replicated : Field
  active : Field
  marks : Field
  bytes : Field
  modification_time : Field
  remove_time : Field
  refcount : Field
  database : Field
  table : Field
  engine : Field
deriving DecidableEq, Repr

/-- The row as a predicate or a client sees it: cells with their column names. -/
def ResultRow.toRow (r : ResultRow) : Row :=
  [("name", r.name), ("replicated", r.replicated), ("active", r.active), ("marks", r.marks),
   ("bytes", r.bytes), ("modification_time", r.modification_time),
   ("remove_time", r.remove_time), ("refcount", r.refcount), ("database", r.database),
   ("table", r.table), ("engine", r.engine)]

/-- The columns that hold the given rows. -/
def ResultColumns.ofRows (rs : List ResultRow) : ResultColumns :=
  { database_column := rs.map (fun r => r.database),
    table_column := rs.map (fun r => r.table),
    engine_column := rs.map (fun r => r.engine),
    name_column := rs.map (fun r => r.name),
    replicated_column := rs.map (fun r => r.replicated),
    active_column := rs.map (fun r => r.active),
    marks_column := rs.map (fun r => r.marks),
    bytes_column := rs.map (fun r => r.bytes),
    modification_time_column := rs.map (fun r => r.modification_time),
    remove_time_column := rs.map (fun r => r.remove_time),
    refcount_column := rs.map (fun r => r.refcount) }

/-- The cells that lines 205 to 217 insert for one part. -/
def partRow (database table engine : String) (replicated : Nat) (need0 : Bool)
    (active_parts : DataParts) (part : DataPartPtr) : ResultRow :=
  { name := Field.str part.name,
    replicated := Field.uint (replicated % 2 ^ 8),
    active := Field.uint (activeValue need0 active_parts part % 2 ^ 8),
    marks := Field.uint (part.size % 2 ^ 64),
    bytes := Field.uint (part.size_in_bytes % 2 ^ 64),
    modification_time := Field.uint (((part.modification_time : Nat) : Int) % 2 ^ 32).toNat,
    remove_time := Field.uint (((part.remove_time : Nat) : Int) % 2 ^ 32).toNat,
    refcount := Field.uint (refcountValue active_parts part % 2 ^ 32).toNat,
    database := Field.str database,
    table := Field.str table,
    engine := Field.str engine }

/-- The part set that the loop of line 203 walks for one dataset: all parts when
`need[replicated][0]` is set, the active parts otherwise. -/
def traversedParts (d : MergeTreeData) (need0 : Bool) : DataParts :=
  if need0 then d.all_data_parts else d.data_parts

/-- The rows that one turn of the loop over `replicated` adds. -/
def flagRows (database table engine : String)
    (data : Option MergeTreeData × Option MergeTreeData) (need : Need) (replicated : Nat) :
    List ResultRow :=
  if need.get replicated 0 || need.get replicated 1 then
    match dataAt data replicated with
    | none => []
    | some d =>
      (traversedParts d (need.get replicated 0)).map
        (partRow database table engine replicated (need.get replicated 0) d.data_parts)
  else []

/-- The events that one turn of the loop over `replicated` adds. -/
def flagEvents (database table : String)
    (data : Option MergeTreeData × Option MergeTreeData) (need : Need) (replicated : Nat) :
    List Event :=
  if need.get replicated 0 || need.get replicated 1 then
    match dataAt data replicated with
    | none => []
    | some d =>
      [Event.getDataParts database table replicated] ++
      (if need.get replicated 0 then [Event.getAllDataParts database table replicated] else []) ++
      (traversedParts d (need.get replicated 0)).map
        (fun part => Event.insertRow database table replicated part.name)
  else []

/-- A group of the loop of line 155: database, table and the matrix computed for them. -/
structure Group where
  database : String
  table : String
  need : Need
deriving DecidableEq, Repr

/-- The rows written for one group whose storage is `storage`. -/
def tableRows (storage : StoragePtr) (g : Group) : List ResultRow :=
  flagRows g.database g.table storage.getName (backingData storage) g.need 0 ++
  flagRows g.database g.table storage.getName (backingData storage) g.need 1

/-- The events of one group whose storage is `storage`. -/
def tableEvents (storage : StoragePtr) (g : Group) : List Event :=
  [Event.lockStructure g.database g.table] ++
  flagEvents g.database g.table (backingData storage) g.need 0 ++
  flagEvents g.database g.table (backingData storage) g.need 1 ++
  [Event.unlockStructure g.database g.table]

/-- The groups that the loop of line 155 forms, in order; `fuel` as in `tablesLoop`. -/
def groupsLoop : Nat → List FilteredRow → List Group
  | _, [] => []
  | 0, _ :: _ => []
  | fuel + 1, row :: rest =>
    let grouped := needLoop row.database row.table (row :: rest) Need.empty
    ⟨row.database, row.table, grouped.1⟩ :: groupsLoop fuel grouped.2

/-- The groups formed from the filtered rows. -/
def groupsOf (rows : List FilteredRow) : List Group := groupsLoop rows.length rows

/-- The outcome of the loop of line 155 in terms of its groups: the first group whose
storage is missing or dropped raises, otherwise rows and events accumulate. -/
def groupsOutcome (storages : Storages) :
    List Group → List ResultRow → List Event → Except Exception (List ResultRow × List Event)
  | [], rs, tr => Except.ok (rs, tr)
  | g :: gs, rs, tr =>
    match storages.lookup (g.database, g.table) with
    | none => Except.error Exception.out_of_range
    | some storage =>
      if storage.is_dropped then Except.error Exception.TABLE_IS_DROPPED
      else groupsOutcome storages gs (rs ++ tableRows storage g) (tr ++ tableEvents storage g)

/-- The block whose column `s` holds the cell `s.2.2 x` for each `x` of `xs`. -/
def Block.ofRows {X : Type} (schema : List (String × DataType × (X → Field))) (xs : List X) :
    Block :=
  schema.map (fun s => ⟨xs.map s.2.2, s.2.1, s.1⟩)

/-- The named cells of `x` under a schema. -/
def namedRow {X : Type} (schema : List (String × DataType × (X → Field))) (x : X) : Row :=
  schema.map (fun s => (s.1, s.2.2 x))

/-- One row of the block handed to the second filter. -/
structure CandidateRow where
  database : Field
  table : Field
  engine : Field
  replicated : Field
  active : Field
deriving DecidableEq, Repr

/-- The columns of the candidate block, in position order. -/
def CandidateRow.schema : List (String × DataType × (CandidateRow → Field)) :=
  [("database", DataType.DataTypeString, CandidateRow.database),
   ("table", DataType.DataTypeString, CandidateRow.table),
   ("engine", DataType.DataTypeString, CandidateRow.engine),
   ("replicated", DataType.DataTypeUInt8, CandidateRow.replicated),
   ("active", DataType.DataTypeUInt8, CandidateRow.active)]

/-- The candidate row as a predicate sees it. -/
def CandidateRow.toRow (c : CandidateRow) : Row := namedRow CandidateRow.schema c

/-- The engines `read` supports: the storage passes one of the two casts of line 88. -/
def IStorage.isSupported (s : IStorage) : Bool :=
  s.isStorageMergeTree || s.isStorageReplicatedMergeTree

/-- The four candidate rows of one table, flags in the order (0,0), (0,1), (1,0), (1,1). -/
def fourRows (database : String) (table : String × StoragePtr) : List CandidateRow :=
  [⟨Field.str database, Field.str table.1, Field.str table.2.getName, Field.uint 0, Field.uint 0⟩,
   ⟨Field.str database, Field.str table.1, Field.str table.2.getName, Field.uint 0, Field.uint 1⟩,
   ⟨Field.str database, Field.str table.1, Field.str table.2.getName, Field.uint 1, Field.uint 0⟩,
   ⟨Field.str database, Field.str table.1, Field.str table.2.getName, Field.uint 1, Field.uint 1⟩]

/-- The tables of a database that have a supported engine, in iteration order. -/
def supportedTables (tables : Tables) : Tables := tables.filter (fun t => t.2.isSupported)

/-- The tables found under a database name (none for an unknown name). -/
def Databases.tablesOf (databases : Databases) (database : String) : Tables :=
  (databases.lookup database).getD []

/-- The candidate rows of the named databases: four per supported table. -/
def candidateRows (databases : Databases) (names : List String) : List CandidateRow :=
  names.flatMap (fun n => (supportedTables (databases.tablesOf n)).flatMap (fourRows n))

/-- The entries of `storages` for the named databases, in order of assignment. -/
def recordedStorages (databases : Databases) (names : List String) :
    List ((String × String) × StoragePtr) :=
  names.flatMap (fun n => (supportedTables (databases.tablesOf n)).map (fun t => ((n, t.1), t.2)))

/-- Cumulative offsets: each entry adds its count to the entry before, from `prev`. -/
def offsetsFrom : Nat → List Nat → List Nat
  | _, [] => []
  | prev, c :: cs => (prev + c) :: offsetsFrom (prev + c) cs

/-- The value `offsets[i - 1]` that line 84 starts from, 0 in the first row. -/
def lastOffset (offsets : List Nat) : Nat :=
  match offsets.getLast? with
  | some o => o
  | none => 0

/-- The number of candidate rows of each named database. -/
def candidateCounts (databases : Databases) (names : List String) : List Nat :=
  names.map (fun n => 4 * (supportedTables (databases.tablesOf n)).length)

/-- The single column of the database block. -/
def databaseSchema : List (String × DataType × (String → Field)) :=
  [("database", DataType.DataTypeString, Field.str)]

/-- The database names that pass the first filter, in catalog order. -/
def survivingDatabases (context : Context) (query : Query) : List String :=
  (context.databases.map Prod.fst).filter (fun n => query [("database", Field.str n)])

/-- The candidate rows that pass the second filter, in block order. -/
def survivingCandidates (context : Context) (query : Query) : List CandidateRow :=
  (candidateRows context.databases (survivingDatabases context query)).filter
    (fun c => query c.toRow)

/-- The four cells of a candidate row that the grouping loop reads. -/
def CandidateRow.toFiltered (c : CandidateRow) : FilteredRow :=
  ⟨c.database.getString, c.table.getString, c.replicated.getUInt64, c.active.getUInt64⟩

/-- The mapping `storages` as `read` leaves the scope of the catalog lock. -/
def storagesOf (context : Context) (query : Query) : Storages :=
  (recordedStorages context.databases (survivingDatabases context query)).reverse

/-- One turn of the inner loop of lines 166 to 168 on the matrix. -/
def needStep (need : Need) (row : FilteredRow) : Need :=
  need.set (row.replicated != 0) (row.active != 0)

/-- The rows written for a group, its storage looked up in `storages`. -/
def rowsOfGroup (storages : Storages) (g : Group) : List ResultRow :=
  match storages.lookup (g.database, g.table) with
  | some storage => tableRows storage g
  | none => []

/-- The events of a group, its storage looked up in `storages`. -/
def eventsOfGroup (storages : Storages) (g : Group) : List Event :=
  match storages.lookup (g.database, g.table) with
  | some storage => tableEvents storage g
  | none => []

/-- The groups that `read` forms from the candidate rows that passed the second filter. -/
def groupsFormed (context : Context) (query : Query) : List Group :=
  groupsOf ((survivingCandidates context query).map CandidateRow.toFiltered)

/-- All rows of the blocks that a completed `read` returns. -/
def ReadResult.rows (res : ReadResult) : List Row := res.streams.flatMap Block.rowList

/-- The rows emitted for a group and one value of `replicated`: what the turn of the
loop of line 188 adds for the storage recorded under the group's pair. -/
def emittedFor (storages : Storages) (g : Group) (replicated : Nat) : List ResultRow :=
  match storages.lookup (g.database, g.table) with
  | some storage =>
    flagRows g.database g.table storage.getName (backingData storage) g.need replicated
  | none => []

/-- The part `p0` of the example of the spec: superseded, not yet removed. -/
def Example.p0 : DataPartPtr :=
  { name := "p0", size := 3, size_in_bytes := 100, modification_time := 1000,
    remove_time := 2000, use_count := 1 }

/-- The part `p1` of the example of the spec: active. -/
def Example.p1 : DataPartPtr :=
  { name := "p1", size := 5, size_in_bytes := 200, modification_time := 1500,
    remove_time := 0, use_count := 4 }

/-- The catalog of the example: database `default`, Plain table `t` with active set
`p1` and all parts `p0`, `p1`. -/
def Example.catalog : Context :=
  { databases :=
      [("default",
        [("t", { name := "MergeTree", is_dropped := false,
                 impl := StorageImpl.StorageMergeTree
                   { data_parts := [Example.p1],
                     all_data_parts := [Example.p0, Example.p1] } })])] }

/-- A condition `column = value` that holds for rows without that column. -/
def Example.columnIs (column : String) (value : Field) (row : Row) : Bool :=
  match row.lookup column with
  | some cell => cell == value
  | none => true

/-- The predicate `database = 'default' AND table = 't'`. -/
def Example.query : Query :=
  fun row => Example.columnIs "database" (Field.str "default") row &&
    Example.columnIs "table" (Field.str "t") row

/-- Whether an event is the acquisition of a table's structural lock. -/
def Event.isLockStructure : Event → Bool
  | Event.lockStructure _ _ => true
  | _ => false

/-- The number of structural locks acquired in a trace (calls of `lockStructure`). -/
def lockStructureCount (trace : List Event) : Nat := (trace.filter Event.isLockStructure).length

/-- The predicate `table = 'nowhere'`, which no table of the example satisfies. -/
def Example.queryNowhere : Query := Example.columnIs "table" (Field.str "nowhere")

/-- The catalog without the table `table` of the database `database`. -/
def Context.eraseTable (context : Context) (database table : String) : Context :=
  { databases := context.databases.map (fun d =>
      (d.1, if d.1 = database then d.2.filter (fun t => t.1 != table) else d.2)) }

/-- The keys of the two maps of the catalog are distinct, as in every `std::map`. -/
def Context.WellFormed (context : Context) : Prop :=
  (context.databases.map Prod.fst).Nodup ∧
    ∀ d ∈ context.databases, (d.2.map Prod.fst).Nodup

/-- The example catalog with one more table, `log`, of an engine that is neither Plain
nor Replicated, and dropped. -/
def Example.catalogWithLog : Context :=
  { databases :=
      [("default",
        [("log", { name := "Log", is_dropped := true, impl := StorageImpl.Other }),
         ("t", { name := "MergeTree", is_dropped := false,
                 impl := StorageImpl.StorageMergeTree
                   { data_parts := [Example.p1],
                     all_data_parts := [Example.p0, Example.p1] } })])] }

/-- The predicate that holds for every row. -/
def Example.queryAll : Query := fun _ => true

/-- The fetch and insertion events of a group and one value of `replicated`, for the
storage recorded under the group's pair. -/
def eventsFor (storages : Storages) (g : Group) (replicated : Nat) : List Event :=
  match storages.lookup (g.database, g.table) with
  | some storage => flagEvents g.database g.table (backingData storage) g.need replicated
  | none => []

/-- A catalog with one Plain table whose two parts are in both the active set and the
set of all parts, with raw ownership counts 2 and 3. -/
def Example.catalogRefcount : Context :=
  { databases :=
      [("default",
        [("t", { name := "MergeTree", is_dropped := false,
                 impl := StorageImpl.StorageMergeTree
                   { data_parts := [⟨"q2", 1, 10, 100, 0, 2⟩, ⟨"q3", 1, 10, 100, 0, 3⟩],
                     all_data_parts := [⟨"q2", 1, 10, 100, 0, 2⟩, ⟨"q3", 1, 10, 100, 0, 3⟩] } })])] }

/-- A catalog with one Replicated table that has no unreplicated dataset and whose
replicated dataset holds `p0` and `p1`. -/
def Example.catalogReplicated : Context :=
  { databases :=
      [("default",
        [("r", { name := "ReplicatedMergeTree", is_dropped := false,
                 impl := StorageImpl.StorageReplicatedMergeTree
                   { data_parts := [Example.p1], all_data_parts := [Example.p0, Example.p1] }
                   none })])] }

/-- A catalog with two Plain tables, the second of which was dropped. -/
def Example.catalogDropped : Context :=
  { databases :=
      [("default",
        [("a", { name := "MergeTree", is_dropped := false,
                 impl := StorageImpl.StorageMergeTree
                   { data_parts := [Example.p1], all_data_parts := [Example.p0, Example.p1] } }),
         ("b", { name := "MergeTree", is_dropped := true,
                 impl := StorageImpl.StorageMergeTree
                   { data_parts := [Example.p1], all_data_parts := [Example.p1] } })])] }

/-- The predicate `replicated = 0`. -/
def Example.queryUnreplicated : Query := Example.columnIs "replicated" (Field.uint 0)

/-- The predicate `active = 0`. -/
def Example.queryInactive : Query := Example.columnIs "active" (Field.uint 0)

/-- The predicate `active = 1`. -/
def Example.queryActive : Query := Example.columnIs "active" (Field.uint 1)

/-- The database and table of a filtered row. -/
def FilteredRow.key (x : FilteredRow) : String × String := (x.database, x.table)

/-- The group made of a run of rows of one database and table. -/
def groupOfRun (seg : (String × String) × List FilteredRow) : Group :=
  ⟨seg.1.1, seg.1.2, seg.2.foldl needStep Need.empty⟩

/-- The supported tables of the surviving databases, each with its database name, in
the order of the expansion. -/
def expandedTables (context : Context) (query : Query) : List (String × String × StoragePtr) :=
  (survivingDatabases context query).flatMap (fun n =>
    (supportedTables (context.databases.tablesOf n)).map (fun t => (n, t)))

/-- The run of filtered rows of one expanded table: those of its four candidate rows
that pass the second filter. -/
def runOf (query : Query) (e : String × String × StoragePtr) :
    (String × String) × List FilteredRow :=
  ((e.1, e.2.1), ((fourRows e.1 e.2).filter (fun c => query c.toRow)).map
    CandidateRow.toFiltered)

/-- Whether a returned row is a row of the given database, table and flag. -/
def Row.isFor (database table : String) (replicated : Nat) (row : Row) : Bool :=
  row.lookup "database" == some (Field.str database) &&
    row.lookup "table" == some (Field.str table) &&
    row.lookup "replicated" == some (Field.uint replicated)

/-- The pair of an event that acquires a table's structural lock. -/
def Event.lockedTable : Event → Option (String × String)
  | Event.lockStructure database table => some (database, table)
  | _ => none

/-- The pairs whose structural lock a trace acquires, in the order of acquisition. -/
def lockedTables (trace : List Event) : List (String × String) :=
  trace.filterMap Event.lockedTable

/-- The distinct elements of a list in the order of their first occurrence. -/
def firstOccurrences {α : Type} [DecidableEq α] : List α → List α
  | [] => []
  | x :: xs => x :: (firstOccurrences xs).filter (fun y => y ≠ x)

/-- Whether an event is the insertion of the row of a part. -/
def Event.isInsertRow : Event → Bool
  | Event.insertRow _ _ _ _ => true
  | _ => false

/-- The number of rows a trace inserts, one per emitted part. -/
def insertedRowCount (trace : List Event) : Nat := (trace.filter Event.isInsertRow).length

/-- The value `i ? offsets[i - 1] : 0` that line 84 stores in `offsets[i]` before the
tables of row `i` are counted. -/
def offsetBefore (offsets : List Nat) (i : Nat) : Nat :=
  if i = 0 then 0 else offsets.getD (i - 1) 0

/-- The number of tables with a supported engine in the database a cell names. -/
def supportedCount (databases : Databases) (cell : Field) : Nat :=
  (supportedTables (databases.tablesOf cell.getString)).length

/-- A part with its ownership count forgotten. -/
def DataPartPtr.eraseCount (p : DataPartPtr) : DataPartPtr := { p with use_count := 0 }

/-- A dataset with the ownership counts of its parts forgotten. -/
def MergeTreeData.eraseCounts (d : MergeTreeData) : MergeTreeData :=
  { data_parts := d.data_parts.map DataPartPtr.eraseCount,
    all_data_parts := d.all_data_parts.map DataPartPtr.eraseCount }

/-- A dynamic type with the ownership counts of its parts forgotten. -/
def StorageImpl.eraseCounts : StorageImpl → StorageImpl
  | StorageImpl.StorageMergeTree data => StorageImpl.StorageMergeTree data.eraseCounts
  | StorageImpl.StorageReplicatedMergeTree data unreplicated_data =>
    StorageImpl.StorageReplicatedMergeTree data.eraseCounts
      (unreplicated_data.map MergeTreeData.eraseCounts)
  | StorageImpl.Other => StorageImpl.Other

/-- A table with the ownership counts of its parts forgotten. -/
def IStorage.eraseCounts (s : IStorage) : IStorage := { s with impl := s.impl.eraseCounts }

/-- A catalog state with the ownership counts of all parts forgotten: two states with
the same image differ in nothing but those counts. -/
def Context.eraseCounts (context : Context) : Context :=
  { databases :=
      context.databases.map (fun d => (d.1, d.2.map (fun t => (t.1, t.2.eraseCounts)))) }

/-- A result row with its refcount cell blanked. -/
def ResultRow.eraseRefcount (r : ResultRow) : ResultRow := { r with refcount := Field.uint 0 }

/-- A row without the cell of one column. -/
def Row.withoutColumn (name : String) (row : Row) : Row := row.filter (fun c => c.1 != name)

/-- A block without the column of one name. -/
def Block.withoutColumn (name : String) (b : Block) : Block :=
  b.filter (fun c => c.name != name)

/-- What a completed read shows apart from the refcount column: the trace, the blocks
and the rows without that column, and the number of rows of each block. -/
def ReadResult.exceptRefcount (res : ReadResult) :
    List Event × List Block × List Row × List Nat :=
  (res.trace, res.streams.map (Block.withoutColumn "refcount"),
    res.rows.map (Row.withoutColumn "refcount"), res.streams.map Block.rows)

/-- The example catalog at another moment: the same parts, other ownership counts. -/
def Example.catalogRecounted : Context :=
  { databases :=
      [("default",
        [("t", { name := "MergeTree", is_dropped := false,
                 impl := StorageImpl.StorageMergeTree
                   { data_parts := [{ Example.p1 with use_count := 9 }],
                     all_data_parts :=
                       [{ Example.p0 with use_count := 2 },
                        { Example.p1 with use_count := 9 }] } })])] }

/-- A lock that `read` can hold: the catalog mutex or the structural lock of a table. -/
inductive HeldLock where
  | catalog
  | table (database table : String)
deriving DecidableEq, Repr

/-- The locks held after an event, from the locks held before it. -/
def heldAfter (held : List HeldLock) : Event → List HeldLock
  | Event.lockContext => held ++ [HeldLock.catalog]
  | Event.unlockContext => held.erase HeldLock.catalog
  | Event.lockStructure database table => held ++ [HeldLock.table database table]
  | Event.unlockStructure database table => held.erase (HeldLock.table database table)
  | _ => held

/-- The locks held after a sequence of events that starts with no lock held. -/
def heldLocks (trace : List Event) : List HeldLock := trace.foldl heldAfter []

/-- The table that a fetch of a part set or the emission of a row works on. -/
def Event.workedTable : Event → Option (String × String)
  | Event.getDataParts database table _ => some (database, table)
  | Event.getAllDataParts database table _ => some (database, table)
  | Event.insertRow database table _ _ => some (database, table)
  | _ => none

/-- Whether an event keeps the lock discipline when `held` are the locks held before it:
locks are taken with no lock held, released when they are the one lock held, and a table
is worked on while its lock is the one lock held. -/
def Event.allowed (held : List HeldLock) : Event → Bool
  | Event.lockContext => decide (held = [])
  | Event.unlockContext => decide (held = [HeldLock.catalog])
  | Event.lockStructure _ _ => decide (held = [])
  | Event.unlockStructure database table => decide (held = [HeldLock.table database table])
  | Event.getDataParts database table _ => decide (held = [HeldLock.table database table])
  | Event.getAllDataParts database table _ => decide (held = [HeldLock.table database table])
  | Event.insertRow database table _ _ => decide (held = [HeldLock.table database table])

/-- Whether every event of a sequence keeps the lock discipline, from the locks `held`. -/
def disciplined : List HeldLock → List Event → Bool
  | _, [] => true
  | held, e :: es => e.allowed held && disciplined (heldAfter held e) es

/-- The events of the loop of lines 155 to 220 up to the point where it ends or a turn
raises. A turn raises in `storages.at` or in `lockStructure`, before the lock of its
table is taken, so the events are then those of the turns before it. -/
def tablesLoopEvents (storages : Storages) : Nat → List FilteredRow → EnumState → List Event
  | _, [], st => st.trace
  | 0, _ :: _, st => st.trace
  | fuel + 1, row :: rest, st =>
    let database := row.database
    let table := row.table
    let grouped := needLoop database table (row :: rest) Need.empty
    match enumerateTable storages database table grouped.1 st with
    | Except.ok st => tablesLoopEvents storages fuel grouped.2 st
    | Except.error _ => st.trace

/-- The events of lines 137 to 220 up to the point where they end or raise. -/
def enumerateEvents (storages : Storages) (block : Block) (trace : List Event) : List Event :=
  let columns : Except Exception (List FilteredRow) := do
    let filtered_database_column := (← block.getByName "database").column
    let filtered_table_column := (← block.getByName "table").column
    let filtered_replicated_column := (← block.getByName "replicated").column
    let filtered_active_column := (← block.getByName "active").column
    pure (filteredRows filtered_database_column filtered_table_column
      filtered_replicated_column filtered_active_column)
  match columns with
  | Except.ok rows =>
    tablesLoopEvents storages rows.length rows { cols := ResultColumns.empty, trace := trace }
  | Except.error _ => trace

/-- The events of `StorageSystemParts::read` (lines 44 to 236) up to the point where it
returns or raises: the trace of `read` with the events of an aborted call kept. The
catalog mutex is released on both ways out of its scope, a return and an exception. -/
def StorageSystemParts.readEvents (context : Context) (query : Query) : List Event :=
  let block := databaseBlock context query
  let trace := [Event.lockContext, Event.unlockContext]
  if block.rows = 0 then
    trace
  else
    match candidates context block with
    | Except.error _ => trace
    | Except.ok expanded =>
      let block := filterBlockWithQuery query expanded.2
      if block.rows = 0 then trace else enumerateEvents expanded.1 block trace

/-- Whether the turn of the loop for a group completes: its storage is recorded and can
be locked. -/
def Group.completes (storages : Storages) (g : Group) : Bool :=
  match storages.lookup (g.database, g.table) with
  | some storage => !storage.is_dropped
  | none => false

/-- The groups whose turn completes before the first turn that raises. -/
def completedGroups (storages : Storages) (gs : List Group) : List Group :=
  gs.takeWhile (Group.completes storages)

/-! ## Lemmas -/

theorem insertPart_cols (database table engine : String) (replicated : Nat) (need0 : Bool)
    (active_parts : DataParts) (part : DataPartPtr) (rs : List ResultRow) (tr : List Event) :
    insertPart database table engine replicated need0 active_parts
        ⟨ResultColumns.ofRows rs, tr⟩ part =
      ⟨ResultColumns.ofRows (rs ++ [partRow database table engine replicated need0 active_parts part]),
        tr ++ [Event.insertRow database table replicated part.name]⟩ := by
  simp [insertPart, ResultColumns.ofRows, partRow, ColumnString.insert, ColumnUInt8.insert,
    ColumnUInt32.insert, ColumnUInt64.insert]

theorem foldl_insertPart (database table engine : String) (replicated : Nat) (need0 : Bool)
    (active_parts : DataParts) (parts : DataParts) (rs : List ResultRow) (tr : List Event) :
    parts.foldl (insertPart database table engine replicated need0 active_parts)
        ⟨ResultColumns.ofRows rs, tr⟩ =
      ⟨ResultColumns.ofRows
          (rs ++ parts.map (partRow database table engine replicated need0 active_parts)),
        tr ++ parts.map (fun part => Event.insertRow database table replicated part.name)⟩ := by
  induction parts generalizing rs tr with
  | nil => simp
  | cons p ps ih => simp [List.foldl_cons, insertPart_cols, ih]

theorem enumerateFlag_eq (database table engine : String)
    (data : Option MergeTreeData × Option MergeTreeData) (need : Need) (replicated : Nat)
    (rs : List ResultRow) (tr : List Event) :
    enumerateFlag database table engine data need ⟨ResultColumns.ofRows rs, tr⟩ replicated =
      ⟨ResultColumns.ofRows (rs ++ flagRows database table engine data need replicated),
        tr ++ flagEvents database table data need replicated⟩ := by
  unfold enumerateFlag flagRows flagEvents
  cases h0 : need.get replicated 0 <;> cases h1 : need.get replicated 1 <;>
    cases hd : dataAt data replicated <;>
    simp [EnumState.log, foldl_insertPart, traversedParts, MergeTreeData.getDataParts,
      MergeTreeData.getAllDataParts]

theorem enumerateTable_eq (storages : Storages) (g : Group) (rs : List ResultRow)
    (tr : List Event) :
    enumerateTable storages g.database g.table g.need ⟨ResultColumns.ofRows rs, tr⟩ =
      match storages.lookup (g.database, g.table) with
      | none => Except.error Exception.out_of_range
      | some storage =>
        if storage.is_dropped then Except.error Exception.TABLE_IS_DROPPED
        else Except.ok ⟨ResultColumns.ofRows (rs ++ tableRows storage g),
          tr ++ tableEvents storage g⟩ := by
  unfold enumerateTable Storages.atKey
  cases hl : storages.lookup (g.database, g.table) with
  | none => rfl
  | some storage =>
    cases hd : storage.is_dropped with
    | true => simp [IStorage.lockStructure, hd, bind, Except.bind]
    | false =>
      simp [IStorage.lockStructure, hd, bind, Except.bind, pure, Except.pure, EnumState.log,
        enumerateFlag_eq, tableRows, tableEvents]

theorem needLoop_length (database table : String) (rows : List FilteredRow) (need : Need) :
    (needLoop database table rows need).2.length ≤ rows.length := by
  induction rows generalizing need with
  | nil => simp [needLoop]
  | cons row rest ih =>
    unfold needLoop
    split
    · exact Nat.le_succ_of_le (ih _)
    · simp

theorem needLoop_length_lt (row : FilteredRow) (rest : List FilteredRow) (need : Need) :
    (needLoop row.database row.table (row :: rest) need).2.length ≤ rest.length := by
  simp [needLoop, needLoop_length]

theorem tablesLoop_eq (storages : Storages) (fuel : Nat) (rows : List FilteredRow)
    (hf : rows.length ≤ fuel) (rs : List ResultRow) (tr : List Event) :
    tablesLoop storages fuel rows ⟨ResultColumns.ofRows rs, tr⟩ =
      (groupsOutcome storages (groupsLoop fuel rows) rs tr).map
        (fun p => ⟨ResultColumns.ofRows p.1, p.2⟩) := by
  induction fuel generalizing rows rs tr with
  | zero =>
    cases rows with
    | nil => rfl
    | cons row rest => simp at hf
  | succ fuel ih =>
    cases rows with
    | nil => rfl
    | cons row rest =>
      have hlen := needLoop_length_lt row rest Need.empty
      have hf2 : (needLoop row.database row.table (row :: rest) Need.empty).2.length ≤ fuel := by
        simp at hf; omega
      simp only [tablesLoop, groupsLoop, groupsOutcome]
      have := enumerateTable_eq storages
        ⟨row.database, row.table, (needLoop row.database row.table (row :: rest) Need.empty).1⟩ rs tr
      simp only at this
      simp only [bind, Except.bind, this]
      cases hl : storages.lookup (row.database, row.table) with
      | none => rfl
      | some storage =>
        cases hd : storage.is_dropped with
        | true => simp [Except.map, hd]
        | false => simp [ih _ hf2, hd, Except.map]

theorem rows_ofRows {X : Type} (schema : List (String × DataType × (X → Field)))
    (hs : schema ≠ []) (xs : List X) : (Block.ofRows schema xs).rows = xs.length := by
  cases schema with
  | nil => exact absurd rfl hs
  | cons s ss => simp [Block.ofRows, Block.rows]

theorem rowAt_ofRows_zero {X : Type} (schema : List (String × DataType × (X → Field)))
    (x : X) (xs : List X) : (Block.ofRows schema (x :: xs)).rowAt 0 = namedRow schema x := by
  simp [Block.ofRows, Block.rowAt, namedRow, IColumn.get]

theorem rowAt_ofRows_succ {X : Type} (schema : List (String × DataType × (X → Field)))
    (x : X) (xs : List X) (j : Nat) :
    (Block.ofRows schema (x :: xs)).rowAt (j + 1) = (Block.ofRows schema xs).rowAt j := by
  simp [Block.ofRows, Block.rowAt, IColumn.get]

theorem rowList_ofRows {X : Type} (schema : List (String × DataType × (X → Field)))
    (hs : schema ≠ []) (xs : List X) :
    (Block.ofRows schema xs).rowList = xs.map (namedRow schema) := by
  induction xs with
  | nil => simp [Block.rowList, rows_ofRows schema hs]
  | cons x xs ih =>
    unfold Block.rowList at ih ⊢
    rw [rows_ofRows schema hs] at ih ⊢
    rw [List.length_cons, List.range_succ_eq_map, List.map_cons, List.map_map, List.map_cons,
      rowAt_ofRows_zero, ← ih]
    congr 1
    apply List.map_congr_left
    intro j _
    exact rowAt_ofRows_succ schema x xs j

theorem filter_map_mask {X : Type} (f : X → Field) (p : X → Bool) (xs : List X) :
    IColumn.filter (xs.map f) (xs.map p) = (xs.filter p).map f := by
  induction xs with
  | nil => rfl
  | cons x xs ih =>
    unfold IColumn.filter at ih ⊢
    cases hp : p x <;> simp [List.filter_cons, hp, ih]

theorem filterBlockWithQuery_ofRows {X : Type}
    (schema : List (String × DataType × (X → Field))) (hs : schema ≠ []) (query : Query)
    (xs : List X) :
    filterBlockWithQuery query (Block.ofRows schema xs) =
      Block.ofRows schema (xs.filter (fun x => query (namedRow schema x))) := by
  unfold filterBlockWithQuery
  rw [rowList_ofRows schema hs, List.map_map]
  simp only [Block.ofRows, List.map_map]
  apply List.map_congr_left
  intro s _
  simp only [Function.comp]
  rw [filter_map_mask]
  rfl

theorem getByName_ofRows {X : Type} (schema : List (String × DataType × (X → Field)))
    (xs : List X) (name : String) :
    (Block.ofRows schema xs).getByName name =
      match schema.find? (fun s => s.1 == name) with
      | some s => Except.ok ⟨xs.map s.2.2, s.2.1, s.1⟩
      | none => Except.error Exception.NOT_FOUND_COLUMN_IN_BLOCK := by
  unfold Block.getByName Block.ofRows
  induction schema with
  | nil => rfl
  | cons s ss ih =>
    simp only [List.map_cons, List.find?_cons]
    cases h : s.1 == name
    · simpa using ih
    · rfl

theorem assemble_ofRows (rs : List ResultRow) :
    assemble (ResultColumns.ofRows rs) =
      Block.ofRows
        [("name", DataType.DataTypeString, ResultRow.name),
         ("replicated", DataType.DataTypeUInt8, ResultRow.replicated),
         ("active", DataType.DataTypeUInt8, ResultRow.active),
         ("marks", DataType.DataTypeUInt64, ResultRow.marks),
         ("bytes", DataType.DataTypeUInt64, ResultRow.bytes),
         ("modification_time", DataType.DataTypeDateTime, ResultRow.modification_time),
         ("remove_time", DataType.DataTypeDateTime, ResultRow.remove_time),
         ("refcount", DataType.DataTypeUInt32, ResultRow.refcount),
         ("database", DataType.DataTypeString, ResultRow.database),
         ("table", DataType.DataTypeString, ResultRow.table),
         ("engine", DataType.DataTypeString, ResultRow.engine)] rs := rfl

theorem rowList_assemble (rs : List ResultRow) :
    (assemble (ResultColumns.ofRows rs)).rowList = rs.map ResultRow.toRow := by
  rw [assemble_ofRows, rowList_ofRows _ (by simp)]
  rfl

theorem filteredRows_map {X : Type} (f1 f2 f3 f4 : X → Field) (xs : List X) :
    filteredRows (xs.map f1) (xs.map f2) (xs.map f3) (xs.map f4) =
      xs.map (fun x => ⟨(f1 x).getString, (f2 x).getString, (f3 x).getUInt64,
        (f4 x).getUInt64⟩) := by
  induction xs with
  | nil => rfl
  | cons x xs ih =>
    unfold filteredRows at ih ⊢
    rw [List.length_map] at ih ⊢
    rw [List.length_cons, List.range_succ_eq_map, List.map_cons, List.map_map, List.map_cons
      (fun x => (⟨(f1 x).getString, (f2 x).getString, (f3 x).getUInt64,
        (f4 x).getUInt64⟩ : FilteredRow)), ← ih]
    simp [IColumn.get]

theorem foldl_expandTable (database : String) (tables : Tables) (e : Expansion) (off : Nat) :
    tables.foldl (expandTable database) (e, off) =
      ({ storages :=
           ((supportedTables tables).map (fun t => ((database, t.1), t.2))).reverse ++ e.storages,
         offsets := e.offsets,
         table_column :=
           e.table_column ++ ((supportedTables tables).flatMap (fourRows database)).map
             CandidateRow.table,
         engine_column :=
           e.engine_column ++ ((supportedTables tables).flatMap (fourRows database)).map
             CandidateRow.engine,
         replicated_column :=
           e.replicated_column ++ ((supportedTables tables).flatMap (fourRows database)).map
             CandidateRow.replicated,
         active_column :=
           e.active_column ++ ((supportedTables tables).flatMap (fourRows database)).map
             CandidateRow.active },
       off + 4 * (supportedTables tables).length) := by
  induction tables generalizing e off with
  | nil => simp [supportedTables]
  | cons t ts ih =>
    rw [List.foldl_cons]
    cases hs : t.2.isSupported with
    | false =>
      have h1 : expandTable database (e, off) t = (e, off) := by
        unfold expandTable
        simp only [IStorage.isSupported, Bool.or_eq_false_iff] at hs
        simp [hs.1, hs.2]
      rw [h1, ih]
      simp [supportedTables, List.filter_cons, hs]
    | true =>
      have h1 : expandTable database (e, off) t =
          ({ storages := ((database, t.1), t.2) :: e.storages, offsets := e.offsets,
             table_column := e.table_column ++ (fourRows database t).map CandidateRow.table,
             engine_column := e.engine_column ++ (fourRows database t).map CandidateRow.engine,
             replicated_column :=
               e.replicated_column ++ (fourRows database t).map CandidateRow.replicated,
             active_column := e.active_column ++ (fourRows database t).map CandidateRow.active },
           off + 4) := by
        unfold expandTable
        have hs2 : (!t.2.isStorageMergeTree && !t.2.isStorageReplicatedMergeTree) = false := by
          simp only [IStorage.isSupported] at hs
          cases h1 : t.2.isStorageMergeTree <;> cases h2 : t.2.isStorageReplicatedMergeTree <;>
            simp_all
        simp [hs2, fourRows, ColumnString.insert, ColumnUInt8.insert, Storages.assign]
      rw [h1, ih]
      simp [supportedTables, List.filter_cons, hs, List.flatMap_cons]
      omega

theorem lastOffset_concat (offsets : List Nat) (o : Nat) : lastOffset (offsets ++ [o]) = o := by
  simp [lastOffset]

theorem expandDatabase_eq (databases : Databases) (n : String)
    (hn : (databases.lookup n).isSome) (e : Expansion) :
    expandDatabase databases e (Field.str n) = Except.ok
      { storages :=
          ((supportedTables (databases.tablesOf n)).map (fun t => ((n, t.1), t.2))).reverse ++
            e.storages,
        offsets :=
          e.offsets ++ [lastOffset e.offsets + 4 * (supportedTables (databases.tablesOf n)).length],
        table_column :=
          e.table_column ++ ((supportedTables (databases.tablesOf n)).flatMap (fourRows n)).map
            CandidateRow.table,
        engine_column :=
          e.engine_column ++ ((supportedTables (databases.tablesOf n)).flatMap (fourRows n)).map
            CandidateRow.engine,
        replicated_column :=
          e.replicated_column ++ ((supportedTables (databases.tablesOf n)).flatMap (fourRows n)).map
            CandidateRow.replicated,
        active_column :=
          e.active_column ++ ((supportedTables (databases.tablesOf n)).flatMap (fourRows n)).map
            CandidateRow.active } := by
  unfold expandDatabase Databases.atKey Databases.tablesOf
  cases hl : databases.lookup n with
  | none => simp [hl] at hn
  | some tables =>
    simp only [Field.getString, hl, bind, Except.bind, pure, Except.pure, foldl_expandTable,
      Option.getD_some]
    rfl

theorem foldlM_expandDatabase (databases : Databases) (names : List String)
    (hn : ∀ n ∈ names, (databases.lookup n).isSome) (e : Expansion) :
    (names.map Field.str).foldlM (expandDatabase databases) e = Except.ok
      { storages := (recordedStorages databases names).reverse ++ e.storages,
        offsets := e.offsets ++ offsetsFrom (lastOffset e.offsets) (candidateCounts databases names),
        table_column := e.table_column ++ (candidateRows databases names).map CandidateRow.table,
        engine_column := e.engine_column ++ (candidateRows databases names).map CandidateRow.engine,
        replicated_column :=
          e.replicated_column ++ (candidateRows databases names).map CandidateRow.replicated,
        active_column :=
          e.active_column ++ (candidateRows databases names).map CandidateRow.active } := by
  induction names generalizing e with
  | nil => simp [recordedStorages, candidateRows, candidateCounts, offsetsFrom, pure, Except.pure]
  | cons n ns ih =>
    have h1 := expandDatabase_eq databases n (hn n (List.mem_cons_self _ _)) e
    have h2 := fun e => ih (fun m hm => hn m (List.mem_cons_of_mem _ hm)) e
    simp only [List.map_cons, List.foldlM_cons, h1, bind, Except.bind, h2, lastOffset_concat]
    simp [recordedStorages, candidateRows, candidateCounts, offsetsFrom, List.flatMap_cons]

theorem replicateFrom_offsetsFrom (names : List String) (counts : List Nat)
    (hlen : counts.length = names.length) (prev : Nat) :
    IColumn.replicateFrom (names.map Field.str) (offsetsFrom prev counts) prev =
      (names.zip counts).flatMap (fun p => List.replicate p.2 (Field.str p.1)) := by
  induction names generalizing counts prev with
  | nil => simp [IColumn.replicateFrom]
  | cons n ns ih =>
    cases counts with
    | nil => simp at hlen
    | cons c cs =>
      simp only [List.length_cons, Nat.add_right_cancel_iff] at hlen
      simp [IColumn.replicateFrom, offsetsFrom, ih cs hlen, List.flatMap_cons]

theorem fourRows_database (n : String) (tables : Tables) :
    (tables.flatMap (fourRows n)).map CandidateRow.database =
      List.replicate (4 * tables.length) (Field.str n) := by
  induction tables with
  | nil => rfl
  | cons t ts ih =>
    simp only [List.flatMap_cons, List.map_append, ih, List.length_cons]
    have : 4 * (ts.length + 1) = 4 + 4 * ts.length := by omega
    rw [this, List.replicate_add]
    rfl

theorem replicate_database_column (databases : Databases) (names : List String) :
    IColumn.replicate (names.map Field.str) (offsetsFrom 0 (candidateCounts databases names)) =
      (candidateRows databases names).map CandidateRow.database := by
  unfold IColumn.replicate
  rw [replicateFrom_offsetsFrom names _ (by simp [candidateCounts])]
  unfold candidateRows candidateCounts
  induction names with
  | nil => rfl
  | cons n ns ih =>
    simp only [List.map_cons, List.zip_cons_cons, List.flatMap_cons, List.map_append, ih,
      fourRows_database]

theorem foldl_insert_database (databases : Databases) (c : IColumn) :
    databases.foldl (fun c database => ColumnString.insert c database.1) c =
      c ++ (databases.map Prod.fst).map Field.str := by
  induction databases generalizing c with
  | nil => simp
  | cons d ds ih =>
    rw [List.foldl_cons, ih]
    simp [ColumnString.insert]

theorem databaseBlock_eq (context : Context) (query : Query) :
    databaseBlock context query =
      Block.ofRows databaseSchema (survivingDatabases context query) := by
  unfold databaseBlock
  simp only [Context.getDatabases, foldl_insert_database, List.nil_append, Block.insert]
  exact filterBlockWithQuery_ofRows databaseSchema (by simp [databaseSchema]) query _

theorem surviving_lookup (context : Context) (query : Query) :
    ∀ n ∈ survivingDatabases context query, (context.databases.lookup n).isSome := by
  intro n hn
  have hmem : n ∈ context.databases.map Prod.fst := (List.mem_filter.mp hn).1
  obtain ⟨p, hp, rfl⟩ := List.mem_map.mp hmem
  rw [List.lookup_isSome_iff]
  exact ⟨p, hp, by simp⟩

theorem candidates_eq (context : Context) (names : List String)
    (hn : ∀ n ∈ names, (context.databases.lookup n).isSome) :
    candidates context (Block.ofRows databaseSchema names) =
      Except.ok ((recordedStorages context.databases names).reverse,
        Block.ofRows CandidateRow.schema (candidateRows context.databases names)) := by
  unfold candidates
  have h := foldlM_expandDatabase context.databases names hn Expansion.empty
  simp only [getByName_ofRows, databaseSchema, List.find?_cons, beq_self_eq_true, bind,
    Except.bind, expand, Context.getDatabases, h, pure, Except.pure]
  simp only [Expansion.empty, List.append_nil, List.nil_append, lastOffset, List.getLast?_nil,
    Block.ofRows, List.map_cons, List.map_nil, Block.insert, List.cons_append,
    replicate_database_column, CandidateRow.schema]

theorem ok_bind {α β : Type} (a : α) (f : α → Except Exception β) :
    (Except.ok a >>= f) = f a := rfl

theorem enumerate_eq (storages : Storages) (kept : List CandidateRow) (trace : List Event) :
    enumerate storages (Block.ofRows CandidateRow.schema kept) trace =
      (groupsOutcome storages (groupsOf (kept.map CandidateRow.toFiltered)) [] trace).map
        (fun p => ⟨ResultColumns.ofRows p.1, p.2⟩) := by
  unfold enumerate
  simp only [getByName_ofRows, CandidateRow.schema, List.find?_cons, beq_self_eq_true, bind,
    Except.bind, String.reduceBEq, filteredRows_map]
  exact tablesLoop_eq storages _ _ (Nat.le_refl _) [] trace

/-- The function `read` in closed form: nothing when no candidate row passes the filters,
otherwise the outcome of the groups formed from the surviving candidate rows. -/
theorem read_eq (context : Context) (query : Query) :
    StorageSystemParts.read context query =
      if (survivingCandidates context query).length = 0 then
        Except.ok ⟨[], [Event.lockContext, Event.unlockContext]⟩
      else
        (groupsOutcome (storagesOf context query)
          (groupsOf ((survivingCandidates context query).map CandidateRow.toFiltered)) []
          [Event.lockContext, Event.unlockContext]).map
          (fun p => ⟨[assemble (ResultColumns.ofRows p.1)], p.2⟩) := by
  unfold StorageSystemParts.read
  rw [databaseBlock_eq]
  simp only [rows_ofRows databaseSchema (by simp [databaseSchema])]
  by_cases h1 : (survivingDatabases context query).length = 0
  · have h2 : (survivingCandidates context query).length = 0 := by
      have : survivingDatabases context query = [] := List.length_eq_zero.mp h1
      simp [survivingCandidates, this, candidateRows]
    rw [if_pos h1, if_pos h2]
    rfl
  · rw [candidates_eq context _ (surviving_lookup context query)]
    rw [if_neg h1, ok_bind]
    simp only [filterBlockWithQuery_ofRows CandidateRow.schema (by simp [CandidateRow.schema]),
      rows_ofRows CandidateRow.schema (by simp [CandidateRow.schema])]
    by_cases h2 : (survivingCandidates context query).length = 0
    · have h3 : (List.filter (fun x => query (namedRow CandidateRow.schema x))
          (candidateRows context.databases (survivingDatabases context query))).length = 0 := h2
      rw [if_pos h2, if_pos h3]
      rfl
    · have h3 : ¬ (List.filter (fun x => query (namedRow CandidateRow.schema x))
          (candidateRows context.databases (survivingDatabases context query))).length = 0 := h2
      rw [if_neg h2, if_neg h3]
      simp only [enumerate_eq]
      unfold survivingCandidates storagesOf CandidateRow.toRow
      cases groupsOutcome
          (recordedStorages context.databases (survivingDatabases context query)).reverse
          (groupsOf (List.map CandidateRow.toFiltered
            (List.filter (fun c => query (namedRow CandidateRow.schema c))
              (candidateRows context.databases (survivingDatabases context query))))) []
          [Event.lockContext, Event.unlockContext] <;> rfl

theorem Need.get_set (need : Need) (r a : Bool) (r2 a2 : Nat) :
    (need.set r a).get r2 a2 =
      (need.get r2 a2 || (r2 == r.toNat && a2 == a.toNat)) := by
  cases r <;> cases a <;>
    (rcases r2 with _ | _ | r2 <;> rcases a2 with _ | _ | a2 <;>
      simp [Need.set, Need.get])

theorem Need.get_empty (r a : Nat) : Need.empty.get r a = false := by
  rcases r with _ | _ | r <;> rcases a with _ | _ | a <;> simp [Need.empty, Need.get]

theorem Need.get_lt (need : Need) (r a : Nat) (h : need.get r a = true) : r < 2 ∧ a < 2 := by
  rcases r with _ | _ | r <;> rcases a with _ | _ | a <;> simp_all [Need.get]

theorem foldl_needStep_get (pre : List FilteredRow) (need : Need) (r a : Nat) :
    (pre.foldl needStep need).get r a = true ↔
      need.get r a = true ∨
        ∃ x ∈ pre, r = (x.replicated != 0).toNat ∧ a = (x.active != 0).toNat := by
  induction pre generalizing need with
  | nil => simp
  | cons x xs ih =>
    rw [List.foldl_cons, ih, needStep, Need.get_set]
    simp only [Bool.or_eq_true, Bool.and_eq_true, beq_iff_eq, List.mem_cons, exists_eq_or_imp]
    tauto

theorem needLoop_split (database table : String) (rows : List FilteredRow) (need : Need) :
    ∃ pre, rows = pre ++ (needLoop database table rows need).2 ∧
      (∀ x ∈ pre, x.database = database ∧ x.table = table) ∧
      (needLoop database table rows need).1 = pre.foldl needStep need := by
  induction rows generalizing need with
  | nil => exact ⟨[], by simp [needLoop]⟩
  | cons row rest ih =>
    unfold needLoop
    split
    · rename_i h
      obtain ⟨pre, h1, h2, h3⟩ := ih (need.set (row.replicated != 0) (row.active != 0))
      refine ⟨row :: pre, ?_, ?_, ?_⟩
      · simp only [List.cons_append]
        exact congrArg _ h1
      · intro x hx
        rcases List.mem_cons.mp hx with rfl | hx
        · exact h
        · exact h2 x hx
      · simpa [needStep] using h3
    · exact ⟨[], by simp⟩

/-- Every group of the loop is a non-empty run of rows of its database and table, and
its matrix is the fold of the flags of that run. -/
theorem groupsLoop_run (fuel : Nat) (rows : List FilteredRow) (g : Group)
    (hg : g ∈ groupsLoop fuel rows) :
    ∃ before pre after, rows = before ++ pre ++ after ∧ pre ≠ [] ∧
      (∀ x ∈ pre, x.database = g.database ∧ x.table = g.table) ∧
      g.need = pre.foldl needStep Need.empty := by
  induction fuel generalizing rows with
  | zero => cases rows <;> simp [groupsLoop] at hg
  | succ fuel ih =>
    cases rows with
    | nil => simp [groupsLoop] at hg
    | cons row rest =>
      obtain ⟨pre, h1, h2, h3⟩ := needLoop_split row.database row.table (row :: rest) Need.empty
      simp only [groupsLoop, List.mem_cons] at hg
      rcases hg with rfl | hg
      · refine ⟨[], pre, _, by simpa using h1, ?_, h2, h3⟩
        intro hpre
        rw [hpre, List.nil_append] at h1
        have := needLoop_length_lt row rest Need.empty
        rw [← h1] at this
        simp at this
      · obtain ⟨before, pre2, after, e1, e2, e3, e4⟩ := ih _ hg
        refine ⟨pre ++ before, pre2, after, ?_, e2, e3, e4⟩
        rw [h1]
        conv_lhs => rw [e1]
        simp

/-- Every row belongs to the run of some group. -/
theorem groupsLoop_cover (fuel : Nat) (rows : List FilteredRow) (hf : rows.length ≤ fuel)
    (x : FilteredRow) (hx : x ∈ rows) :
    ∃ g ∈ groupsLoop fuel rows, g.database = x.database ∧ g.table = x.table := by
  induction fuel generalizing rows with
  | zero =>
    cases rows with
    | nil => simp at hx
    | cons row rest => simp at hf
  | succ fuel ih =>
    cases rows with
    | nil => simp at hx
    | cons row rest =>
      obtain ⟨pre, h1, h2, _⟩ := needLoop_split row.database row.table (row :: rest) Need.empty
      have hlen := needLoop_length_lt row rest Need.empty
      have hf2 : (needLoop row.database row.table (row :: rest) Need.empty).2.length ≤ fuel := by
        simp at hf; omega
      rw [h1] at hx
      simp only [groupsLoop, List.mem_cons, exists_eq_or_imp]
      rcases List.mem_append.mp hx with hx | hx
      · left
        exact ⟨(h2 x hx).1.symm, (h2 x hx).2.symm⟩
      · right
        exact ih _ hf2 hx

theorem groupsOutcome_ok (storages : Storages) (gs : List Group) (rs : List ResultRow)
    (tr : List Event) (p : List ResultRow × List Event)
    (h : groupsOutcome storages gs rs tr = Except.ok p) :
    p = (rs ++ gs.flatMap (rowsOfGroup storages), tr ++ gs.flatMap (eventsOfGroup storages)) ∧
      ∀ g ∈ gs, ∃ storage, storages.lookup (g.database, g.table) = some storage ∧
        storage.is_dropped = false := by
  induction gs generalizing rs tr with
  | nil =>
    simp only [groupsOutcome, Except.ok.injEq] at h
    simp [← h]
  | cons g gs ih =>
    unfold groupsOutcome at h
    cases hl : storages.lookup (g.database, g.table) with
    | none => simp [hl] at h
    | some storage =>
      cases hd : storage.is_dropped with
      | true => simp [hl, hd] at h
      | false =>
        simp only [hl, hd, Bool.false_eq_true, if_false] at h
        obtain ⟨h1, h2⟩ := ih _ _ h
        refine ⟨?_, ?_⟩
        · rw [h1]
          simp [List.flatMap_cons, rowsOfGroup, eventsOfGroup, hl]
        · intro g2 hg2
          rcases List.mem_cons.mp hg2 with rfl | hg2
          · exact ⟨storage, hl, hd⟩
          · exact h2 g2 hg2

theorem groupsOutcome_of_ok (storages : Storages) (gs : List Group) (rs : List ResultRow)
    (tr : List Event)
    (h : ∀ g ∈ gs, ∃ storage, storages.lookup (g.database, g.table) = some storage ∧
      storage.is_dropped = false) :
    groupsOutcome storages gs rs tr =
      Except.ok (rs ++ gs.flatMap (rowsOfGroup storages),
        tr ++ gs.flatMap (eventsOfGroup storages)) := by
  induction gs generalizing rs tr with
  | nil => simp [groupsOutcome]
  | cons g gs ih =>
    obtain ⟨storage, hl, hd⟩ := h g (List.mem_cons_self _ _)
    unfold groupsOutcome
    simp only [hl, hd, Bool.false_eq_true, if_false]
    rw [ih _ _ (fun g2 hg2 => h g2 (List.mem_cons_of_mem _ hg2))]
    simp [List.flatMap_cons, rowsOfGroup, eventsOfGroup, hl]

theorem groupsOutcome_dropped (storages : Storages) (gs : List Group) (rs : List ResultRow)
    (tr : List Event)
    (hall : ∀ g ∈ gs, (storages.lookup (g.database, g.table)).isSome)
    (hd : ∃ g ∈ gs, ∃ storage, storages.lookup (g.database, g.table) = some storage ∧
      storage.is_dropped = true) :
    groupsOutcome storages gs rs tr = Except.error Exception.TABLE_IS_DROPPED := by
  induction gs generalizing rs tr with
  | nil => simp at hd
  | cons g gs ih =>
    unfold groupsOutcome
    have h0 := hall g (List.mem_cons_self _ _)
    cases hl : storages.lookup (g.database, g.table) with
    | none => simp [hl] at h0
    | some storage =>
      cases hdr : storage.is_dropped with
      | true => simp [hdr]
      | false =>
        simp only [hdr, Bool.false_eq_true, if_false]
        apply ih _ _ (fun g2 hg2 => hall g2 (List.mem_cons_of_mem _ hg2))
        obtain ⟨g2, hg2, s2, hl2, hd2⟩ := hd
        rcases List.mem_cons.mp hg2 with rfl | hg2
        · rw [hl] at hl2
          cases hl2
          simp [hdr] at hd2
        · exact ⟨g2, hg2, s2, hl2, hd2⟩

/-- A completed `read` in terms of its groups: every group found its storage undropped,
the rows are the rows of the groups in order, and so are the events. -/
theorem read_ok (context : Context) (query : Query) (res : ReadResult)
    (h : StorageSystemParts.read context query = Except.ok res) :
    res.rows =
        ((groupsFormed context query).flatMap (rowsOfGroup (storagesOf context query))).map
          ResultRow.toRow ∧
      res.trace = [Event.lockContext, Event.unlockContext] ++
        (groupsFormed context query).flatMap (eventsOfGroup (storagesOf context query)) ∧
      ∀ g ∈ groupsFormed context query, ∃ storage,
        (storagesOf context query).lookup (g.database, g.table) = some storage ∧
          storage.is_dropped = false := by
  rw [read_eq] at h
  by_cases h0 : (survivingCandidates context query).length = 0
  · rw [if_pos h0] at h
    have hk : survivingCandidates context query = [] := List.length_eq_zero.mp h0
    have hg : groupsFormed context query = [] := by
      simp [groupsFormed, hk, groupsOf, groupsLoop]
    cases h
    simp [hg, ReadResult.rows]
  · rw [if_neg h0] at h
    cases ho : groupsOutcome (storagesOf context query)
        (groupsOf ((survivingCandidates context query).map CandidateRow.toFiltered)) []
        [Event.lockContext, Event.unlockContext] with
    | error e => simp [ho, Except.map] at h
    | ok p =>
      rw [ho] at h
      simp only [Except.map, Except.ok.injEq] at h
      obtain ⟨h1, h2⟩ := groupsOutcome_ok _ _ _ _ _ ho
      subst h
      refine ⟨?_, ?_, h2⟩
      · simp [ReadResult.rows, rowList_assemble, h1, groupsFormed]
      · simp [h1, groupsFormed]

theorem mem_candidateRows (databases : Databases) (names : List String) (c : CandidateRow)
    (hc : c ∈ candidateRows databases names) :
    ∃ n ∈ names, ∃ t ∈ supportedTables (databases.tablesOf n), c ∈ fourRows n t := by
  simpa [candidateRows, List.mem_flatMap] using hc

theorem mem_fourRows (n : String) (t : String × StoragePtr) (c : CandidateRow)
    (hc : c ∈ fourRows n t) :
    c.database = Field.str n ∧ c.table = Field.str t.1 ∧ c.engine = Field.str t.2.getName ∧
      (c.replicated = Field.uint 0 ∨ c.replicated = Field.uint 1) ∧
      (c.active = Field.uint 0 ∨ c.active = Field.uint 1) := by
  simp only [fourRows, List.mem_cons, List.mem_singleton, List.not_mem_nil, or_false] at hc
  rcases hc with rfl | rfl | rfl | rfl <;> simp

theorem lookup_isSome_of_mem {α β : Type} [BEq α] [LawfulBEq α] (l : List (α × β)) (k : α)
    (v : β) (h : (k, v) ∈ l) : (l.lookup k).isSome := by
  rw [List.lookup_isSome_iff]
  exact ⟨(k, v), h, by simp⟩

theorem mem_of_lookup {α β : Type} [BEq α] [LawfulBEq α] (l : List (α × β)) (k : α)
    (v : β) (h : l.lookup k = some v) : (k, v) ∈ l := by
  induction l with
  | nil => simp at h
  | cons p ps ih =>
    obtain ⟨k2, v2⟩ := p
    rw [List.lookup_cons] at h
    cases hk : k == k2
    · rw [hk] at h
      exact List.mem_cons_of_mem _ (ih h)
    · rw [hk] at h
      have := eq_of_beq hk
      cases h
      rw [this]
      exact List.mem_cons_self _ _

/-- The storage recorded for a pair is a supported table of that database. -/
theorem storagesOf_lookup (context : Context) (query : Query) (d t : String)
    (storage : StoragePtr) (h : (storagesOf context query).lookup (d, t) = some storage) :
    d ∈ survivingDatabases context query ∧
      (t, storage) ∈ supportedTables (context.databases.tablesOf d) := by
  have hm := mem_of_lookup _ _ _ h
  simp only [storagesOf, List.mem_reverse, recordedStorages, List.mem_flatMap, List.mem_map,
    Prod.mk.injEq] at hm
  obtain ⟨n, hn, tb, htb, ⟨rfl, rfl⟩, rfl⟩ := hm
  exact ⟨hn, htb⟩

/-- Every candidate row that passed the filters has its pair recorded in `storages`. -/
theorem survivingCandidates_recorded (context : Context) (query : Query) (c : CandidateRow)
    (hc : c ∈ survivingCandidates context query) :
    ((storagesOf context query).lookup (c.toFiltered.database, c.toFiltered.table)).isSome := by
  have hc1 : c ∈ candidateRows context.databases (survivingDatabases context query) :=
    (List.mem_filter.mp hc).1
  obtain ⟨n, hn, t, ht, hct⟩ := mem_candidateRows _ _ _ hc1
  obtain ⟨h1, h2, _⟩ := mem_fourRows _ _ _ hct
  apply lookup_isSome_of_mem _ _ t.2
  simp only [storagesOf, List.mem_reverse, recordedStorages, List.mem_flatMap, List.mem_map]
  refine ⟨n, hn, t, ht, ?_⟩
  simp [CandidateRow.toFiltered, h1, h2, Field.getString]

/-- Every group of `read` has its pair recorded in `storages`. -/
theorem groupsFormed_recorded (context : Context) (query : Query) (g : Group)
    (hg : g ∈ groupsFormed context query) :
    ((storagesOf context query).lookup (g.database, g.table)).isSome := by
  obtain ⟨before, pre, after, h1, h2, h3, _⟩ := groupsLoop_run _ _ g hg
  obtain ⟨x, hx⟩ := List.exists_mem_of_ne_nil pre h2
  have hxm : x ∈ (survivingCandidates context query).map CandidateRow.toFiltered := by
    rw [h1]
    simp [hx]
  obtain ⟨c, hc, rfl⟩ := List.mem_map.mp hxm
  have := survivingCandidates_recorded context query c hc
  rw [(h3 _ hx).1, (h3 _ hx).2] at this
  exact this

theorem rowsOfGroup_eq (storages : Storages) (g : Group) :
    rowsOfGroup storages g = emittedFor storages g 0 ++ emittedFor storages g 1 := by
  unfold rowsOfGroup emittedFor
  cases storages.lookup (g.database, g.table) <;> simp [tableRows]

/-- Where a returned row comes from: a group, the storage recorded for it, a flag that
the matrix asks for, the dataset of that flag and a part of the traversed set. -/
theorem row_provenance (context : Context) (query : Query) (res : ReadResult)
    (h : StorageSystemParts.read context query = Except.ok res) (row : Row)
    (hrow : row ∈ res.rows) :
    ∃ g ∈ groupsFormed context query, ∃ storage r d part,
      (storagesOf context query).lookup (g.database, g.table) = some storage ∧
      (r = 0 ∨ r = 1) ∧ (g.need.get r 0 = true ∨ g.need.get r 1 = true) ∧
      dataAt (backingData storage) r = some d ∧
      part ∈ traversedParts d (g.need.get r 0) ∧
      row = (partRow g.database g.table storage.getName r (g.need.get r 0) d.data_parts
        part).toRow := by
  obtain ⟨h1, _, _⟩ := read_ok context query res h
  rw [h1] at hrow
  obtain ⟨rr, hrr, rfl⟩ := List.mem_map.mp hrow
  obtain ⟨g, hg, hrg⟩ := List.mem_flatMap.mp hrr
  refine ⟨g, hg, ?_⟩
  unfold rowsOfGroup at hrg
  cases hl : (storagesOf context query).lookup (g.database, g.table) with
  | none => simp [hl] at hrg
  | some storage =>
    simp only [hl, tableRows, List.mem_append] at hrg
    have key : ∀ r, (r = 0 ∨ r = 1) →
        rr ∈ flagRows g.database g.table storage.getName (backingData storage) g.need r →
        ∃ d part, (g.need.get r 0 = true ∨ g.need.get r 1 = true) ∧
          dataAt (backingData storage) r = some d ∧
          part ∈ traversedParts d (g.need.get r 0) ∧
          rr = partRow g.database g.table storage.getName r (g.need.get r 0) d.data_parts
            part := by
      intro r _ hr
      unfold flagRows at hr
      by_cases hn : (g.need.get r 0 || g.need.get r 1) = true
      · rw [if_pos hn] at hr
        cases hd : dataAt (backingData storage) r with
        | none => simp [hd] at hr
        | some d =>
          simp only [hd, List.mem_map] at hr
          obtain ⟨part, hp, rfl⟩ := hr
          exact ⟨d, part, by simpa using hn, rfl, hp, rfl⟩
      · rw [if_neg hn] at hr
        simp at hr
    rcases hrg with hr | hr
    · obtain ⟨d, part, hn, hd, hp, rfl⟩ := key 0 (Or.inl rfl) hr
      exact ⟨storage, 0, d, part, rfl, Or.inl rfl, hn, hd, hp, rfl⟩
    · obtain ⟨d, part, hn, hd, hp, rfl⟩ := key 1 (Or.inr rfl) hr
      exact ⟨storage, 1, d, part, rfl, Or.inr rfl, hn, hd, hp, rfl⟩

theorem lookup_of_mem_nodup {α β : Type} [BEq α] [LawfulBEq α] (l : List (α × β))
    (hl : (l.map Prod.fst).Nodup) (k : α) (v : β) (h : (k, v) ∈ l) : l.lookup k = some v := by
  induction l with
  | nil => simp at h
  | cons p ps ih =>
    obtain ⟨k2, v2⟩ := p
    simp only [List.map_cons, List.nodup_cons, List.mem_map, not_exists, not_and] at hl
    rcases List.mem_cons.mp h with heq | hmem
    · cases heq
      simp
    · have hne : (k == k2) = false := by
        apply beq_false_of_ne
        intro hk
        exact hl.1 (k, v) hmem hk
      rw [List.lookup_cons, hne]
      exact ih hl.2 hmem

theorem tablesOf_of_mem (databases : Databases) (hwf : (databases.map Prod.fst).Nodup)
    (d : String × Tables) (hd : d ∈ databases) : databases.tablesOf d.1 = d.2 := by
  unfold Databases.tablesOf
  rw [lookup_of_mem_nodup databases hwf d.1 d.2 hd]
  rfl

theorem candidateBlock_eq (context : Context) (query : Query) :
    candidates context (databaseBlock context query) =
      Except.ok (storagesOf context query,
        Block.ofRows CandidateRow.schema
          (candidateRows context.databases (survivingDatabases context query))) := by
  rw [databaseBlock_eq, candidates_eq context _ (surviving_lookup context query)]
  rfl

theorem survivingDatabases_eq (context : Context) (query : Query) :
    survivingDatabases context query =
      (context.databases.filter (fun d => query [("database", Field.str d.1)])).map Prod.fst := by
  unfold survivingDatabases
  rw [List.filter_map]
  rfl

theorem lookup_map_value {α β : Type} [BEq α] [LawfulBEq α] (l : List (α × β))
    (f : α → β → β) (k : α) :
    (l.map (fun e => (e.1, f e.1 e.2))).lookup k = (l.lookup k).map (f k) := by
  induction l with
  | nil => rfl
  | cons p ps ih =>
    obtain ⟨k2, v2⟩ := p
    simp only [List.map_cons, List.lookup_cons]
    cases hk : k == k2
    · simpa using ih
    · have := eq_of_beq hk
      subst this
      simp

theorem toRow_lookup_database (r : ResultRow) : r.toRow.lookup "database" = some r.database := by
  simp [ResultRow.toRow, List.lookup]

theorem toRow_lookup_table (r : ResultRow) : r.toRow.lookup "table" = some r.table := by
  simp [ResultRow.toRow, List.lookup]

theorem toRow_lookup_replicated (r : ResultRow) :
    r.toRow.lookup "replicated" = some r.replicated := by
  simp [ResultRow.toRow, List.lookup]

theorem toRow_lookup_active (r : ResultRow) : r.toRow.lookup "active" = some r.active := by
  simp [ResultRow.toRow, List.lookup]

theorem toRow_lookup_name (r : ResultRow) : r.toRow.lookup "name" = some r.name := by
  simp [ResultRow.toRow, List.lookup]

theorem toRow_lookup_refcount (r : ResultRow) : r.toRow.lookup "refcount" = some r.refcount := by
  simp [ResultRow.toRow, List.lookup]

theorem candidate_lookup_database (c : CandidateRow) :
    c.toRow.lookup "database" = some c.database := by
  simp [CandidateRow.toRow, namedRow, CandidateRow.schema, List.lookup]

theorem candidate_lookup_table (c : CandidateRow) : c.toRow.lookup "table" = some c.table := by
  simp [CandidateRow.toRow, namedRow, CandidateRow.schema, List.lookup]

theorem candidate_lookup_replicated (c : CandidateRow) :
    c.toRow.lookup "replicated" = some c.replicated := by
  simp [CandidateRow.toRow, namedRow, CandidateRow.schema, List.lookup]

theorem candidate_lookup_active (c : CandidateRow) :
    c.toRow.lookup "active" = some c.active := by
  simp [CandidateRow.toRow, namedRow, CandidateRow.schema, List.lookup]

theorem value_unique_of_nodup {α β : Type} [BEq α] [LawfulBEq α] (l : List (α × β))
    (hl : (l.map Prod.fst).Nodup) (k : α) (v w : β) (hv : (k, v) ∈ l) (hw : (k, w) ∈ l) :
    v = w := by
  have h1 := lookup_of_mem_nodup l hl k v hv
  have h2 := lookup_of_mem_nodup l hl k w hw
  rw [h1] at h2
  exact Option.some.inj h2

/-- In a well-formed catalog, a table with an unsupported engine is the only table of
its name, so no supported table of its database has that name. -/
theorem no_supported_of_unsupported (context : Context) (hwf : context.WellFormed)
    (d : String) (tables : Tables) (t : String) (storage : StoragePtr)
    (hd : (d, tables) ∈ context.databases) (ht : (t, storage) ∈ tables)
    (hs : storage.isSupported = false) :
    ∀ x ∈ context.databases.tablesOf d, x.1 = t → x.2.isSupported = false := by
  intro x hx hxt
  have htab : context.databases.tablesOf d = tables := tablesOf_of_mem _ hwf.1 (d, tables) hd
  rw [htab] at hx
  have hx2 : (t, x.2) ∈ tables := by
    rw [← hxt]
    exact hx
  rw [value_unique_of_nodup tables (hwf.2 _ hd) t x.2 storage hx2 ht]
  exact hs

theorem storagesOf_unsupported (context : Context) (query : Query) (d t : String)
    (hu : ∀ x ∈ context.databases.tablesOf d, x.1 = t → x.2.isSupported = false) :
    (storagesOf context query).lookup (d, t) = none := by
  cases hl : (storagesOf context query).lookup (d, t) with
  | none => rfl
  | some s =>
    have h2 := (storagesOf_lookup context query d t s hl).2
    have h3 := List.mem_filter.mp h2
    have := hu _ h3.1 rfl
    simp [this] at h3

theorem supportedTables_erase (tables : Tables) (t : String)
    (hu : ∀ x ∈ tables, x.1 = t → x.2.isSupported = false) :
    supportedTables (tables.filter (fun x => x.1 != t)) = supportedTables tables := by
  unfold supportedTables
  rw [List.filter_filter]
  apply List.filter_congr
  intro x hx
  cases hsup : x.2.isSupported with
  | false => simp
  | true =>
    have : x.1 ≠ t := fun h => by simp [hu x hx h] at hsup
    simp [this]

theorem tablesOf_eraseTable (context : Context) (d t n : String) :
    (context.eraseTable d t).databases.tablesOf n =
      if n = d then (context.databases.tablesOf n).filter (fun x => x.1 != t)
      else context.databases.tablesOf n := by
  unfold Context.eraseTable Databases.tablesOf
  simp only
  rw [lookup_map_value context.databases
    (fun k v => if k = d then v.filter (fun x => x.1 != t) else v) n]
  cases context.databases.lookup n <;> simp

theorem supportedTables_eraseTable (context : Context) (d t n : String)
    (hu : ∀ x ∈ context.databases.tablesOf d, x.1 = t → x.2.isSupported = false) :
    supportedTables ((context.eraseTable d t).databases.tablesOf n) =
      supportedTables (context.databases.tablesOf n) := by
  rw [tablesOf_eraseTable]
  by_cases h : n = d
  · subst h
    rw [if_pos rfl, supportedTables_erase _ _ hu]
  · rw [if_neg h]

/-- Erasing a table with an unsupported engine changes nothing that `read` does. -/
theorem read_eraseTable (context : Context) (query : Query) (d t : String)
    (hu : ∀ x ∈ context.databases.tablesOf d, x.1 = t → x.2.isSupported = false) :
    StorageSystemParts.read (context.eraseTable d t) query =
      StorageSystemParts.read context query := by
  have h1 : survivingDatabases (context.eraseTable d t) query =
      survivingDatabases context query := by
    have : (context.eraseTable d t).databases.map Prod.fst = context.databases.map Prod.fst := by
      simp only [Context.eraseTable, List.map_map]
      apply List.map_congr_left
      intro x _
      rfl
    simp only [survivingDatabases, this]
  have h2 : ∀ names, candidateRows (context.eraseTable d t).databases names =
      candidateRows context.databases names := by
    intro names
    unfold candidateRows
    apply List.flatMap_congr
    intro n _
    rw [supportedTables_eraseTable context d t n hu]
  have h3 : ∀ names, recordedStorages (context.eraseTable d t).databases names =
      recordedStorages context.databases names := by
    intro names
    unfold recordedStorages
    apply List.flatMap_congr
    intro n _
    rw [supportedTables_eraseTable context d t n hu]
  have h4 : survivingCandidates (context.eraseTable d t) query =
      survivingCandidates context query := by
    simp [survivingCandidates, h1, h2]
  have h5 : storagesOf (context.eraseTable d t) query = storagesOf context query := by
    simp [storagesOf, h1, h3]
  rw [read_eq, read_eq, h4, h5]

theorem mem_tableEvents_lock (storage : StoragePtr) (g : Group) (d t : String)
    (h : Event.lockStructure d t ∈ tableEvents storage g) : g.database = d ∧ g.table = t := by
  unfold tableEvents flagEvents at h
  simp only [List.mem_append, List.mem_singleton, Event.lockStructure.injEq] at h
  rcases h with ((h | h) | h) | h
  · exact ⟨h.1.symm, h.2.symm⟩
  · split at h
    · split at h
      · simp at h
      · split at h <;> simp at h
    · simp at h
  · split at h
    · split at h
      · simp at h
      · split at h <;> simp at h
    · simp at h
  · cases h

theorem eventsOfGroup_eq (storages : Storages) (g : Group) :
    eventsOfGroup storages g =
      match storages.lookup (g.database, g.table) with
      | some _ =>
        [Event.lockStructure g.database g.table] ++ eventsFor storages g 0 ++
          eventsFor storages g 1 ++ [Event.unlockStructure g.database g.table]
      | none => [] := by
  unfold eventsOfGroup eventsFor
  cases storages.lookup (g.database, g.table) <;> simp [tableEvents]

/-- A bit of a group's matrix is set only if a candidate row with the group's database
and table and with those flags passed the second filter. -/
theorem need_get_candidate (context : Context) (query : Query) (g : Group)
    (hg : g ∈ groupsFormed context query) (r a : Nat) (h : g.need.get r a = true) :
    ∃ c ∈ survivingCandidates context query,
      c.database = Field.str g.database ∧ c.table = Field.str g.table ∧
      c.replicated = Field.uint r ∧ c.active = Field.uint a := by
  obtain ⟨before, pre, after, h1, _, h3, h4⟩ := groupsLoop_run _ _ g hg
  rw [h4, foldl_needStep_get] at h
  rcases h with h | ⟨x, hx, hr, ha⟩
  · rw [Need.get_empty] at h
    cases h
  · have hxm : x ∈ (survivingCandidates context query).map CandidateRow.toFiltered := by
      rw [h1]
      simp [hx]
    obtain ⟨c, hc, rfl⟩ := List.mem_map.mp hxm
    have hc1 : c ∈ candidateRows context.databases (survivingDatabases context query) :=
      (List.mem_filter.mp hc).1
    obtain ⟨n, _, t, _, hct⟩ := mem_candidateRows _ _ _ hc1
    obtain ⟨e1, e2, _, e4, e5⟩ := mem_fourRows _ _ _ hct
    have k1 := (h3 _ hx).1
    have k2 := (h3 _ hx).2
    simp only [CandidateRow.toFiltered, e1, e2, Field.getString] at k1 k2
    refine ⟨c, hc, by rw [e1, k1], by rw [e2, k2], ?_, ?_⟩
    · rcases e4 with e | e <;>
        simp [CandidateRow.toFiltered, e, Field.getUInt64] at hr <;> rw [e, hr]
    · rcases e5 with e | e <;>
        simp [CandidateRow.toFiltered, e, Field.getUInt64] at ha <;> rw [e, ha]

theorem count_ne_zero_of_mem (s : DataParts) (part : DataPartPtr) (h : part ∈ s) :
    s.count part ≠ 0 := by
  unfold DataParts.count
  have : s.any (fun p => p.name == part.name) = true :=
    List.any_eq_true.mpr ⟨part, h, by simp⟩
  simp [this]

theorem count_ne_zero_iff (s : DataParts) (part : DataPartPtr) :
    s.count part ≠ 0 ↔ ∃ p ∈ s, p.name = part.name := by
  unfold DataParts.count
  cases h : s.any (fun p => p.name == part.name) with
  | true =>
    obtain ⟨p, hp, hpn⟩ := List.any_eq_true.mp h
    simp only [if_true, ne_eq, one_ne_zero, not_false_eq_true, true_iff]
    exact ⟨p, hp, by simpa using hpn⟩
  | false =>
    simp only [Bool.false_eq_true, if_false, ne_eq, not_true_eq_false, false_iff]
    rintro ⟨p, hp, hpn⟩
    have : s.any (fun p => p.name == part.name) = true :=
      List.any_eq_true.mpr ⟨p, hp, by simpa using hpn⟩
    rw [h] at this
    cases this

theorem toNat_emod_cast (n : Nat) : ((n : Int) % 2 ^ 32).toNat = n % 2 ^ 32 := by
  omega

theorem needLoop_append (database table : String) (run rest : List FilteredRow) (need : Need)
    (hrun : ∀ x ∈ run, x.key = (database, table))
    (hrest : ∀ y ∈ rest.head?, y.key ≠ (database, table)) :
    needLoop database table (run ++ rest) need = (run.foldl needStep need, rest) := by
  induction run generalizing need with
  | nil =>
    cases rest with
    | nil => rfl
    | cons y ys =>
      have hy := hrest y (by simp)
      simp only [List.nil_append, needLoop, List.foldl_nil]
      rw [if_neg]
      intro hk
      exact hy (by simp [FilteredRow.key, hk.1, hk.2])
  | cons x xs ih =>
    have hx := hrun x (List.mem_cons_self _ _)
    simp only [FilteredRow.key, Prod.mk.injEq] at hx
    simp only [List.cons_append, needLoop, List.foldl_cons]
    rw [if_pos hx]
    exact ih _ (fun z hz => hrun z (List.mem_cons_of_mem _ hz))

theorem groupsLoop_append (fuel : Nat) (key : String × String) (run rest : List FilteredRow)
    (hne : run ≠ []) (hrun : ∀ x ∈ run, x.key = key)
    (hrest : ∀ y ∈ rest.head?, y.key ≠ key) :
    groupsLoop (fuel + 1) (run ++ rest) = groupOfRun (key, run) :: groupsLoop fuel rest := by
  cases run with
  | nil => exact absurd rfl hne
  | cons x xs =>
    have hx := hrun x (List.mem_cons_self _ _)
    obtain ⟨d, t⟩ := key
    simp only [FilteredRow.key, Prod.mk.injEq] at hx
    simp only [List.cons_append, groupsLoop, groupOfRun]
    have := needLoop_append d t (x :: xs) rest Need.empty hrun hrest
    simp only [List.cons_append] at this
    rw [hx.1, hx.2]
    simp only [List.append_eq, this]

/-- The groups of a list made of runs with pairwise distinct keys are the non-empty
runs, in order. -/
theorem groupsLoop_runs (segs : List ((String × String) × List FilteredRow))
    (hkeys : (segs.map Prod.fst).Nodup) (hseg : ∀ s ∈ segs, ∀ x ∈ s.2, x.key = s.1)
    (fuel : Nat) (hf : (segs.flatMap Prod.snd).length ≤ fuel) :
    groupsLoop fuel (segs.flatMap Prod.snd) =
      (segs.filter (fun s => !s.2.isEmpty)).map groupOfRun := by
  induction segs generalizing fuel with
  | nil => cases fuel <;> rfl
  | cons s ss ih =>
    simp only [List.map_cons, List.nodup_cons] at hkeys
    have hseg2 : ∀ s2 ∈ ss, ∀ x ∈ s2.2, x.key = s2.1 :=
      fun s2 hs2 => hseg s2 (List.mem_cons_of_mem _ hs2)
    rw [List.flatMap_cons] at hf ⊢
    cases hrun : s.2 with
    | nil =>
      rw [hrun] at hf
      simp only [List.nil_append] at hf ⊢
      rw [ih hkeys.2 hseg2 fuel hf]
      simp [List.filter_cons, hrun]
    | cons x xs =>
      rw [hrun] at hf
      cases fuel with
      | zero => simp at hf
      | succ fuel =>
        have hf2 : (ss.flatMap Prod.snd).length ≤ fuel := by
          simp only [List.length_append, List.length_cons] at hf
          omega
        have hhead : ∀ y ∈ (ss.flatMap Prod.snd).head?, y.key ≠ s.1 := by
          intro y hy hk
          have hymem : y ∈ ss.flatMap Prod.snd := List.mem_of_mem_head? hy
          obtain ⟨s2, hs2, hy2⟩ := List.mem_flatMap.mp hymem
          have := hseg2 s2 hs2 y hy2
          rw [hk] at this
          exact hkeys.1 (List.mem_map.mpr ⟨s2, hs2, this.symm⟩)
        have hrun2 : ∀ z ∈ x :: xs, z.key = s.1 := by
          intro z hz
          rw [← hrun] at hz
          exact hseg s (List.mem_cons_self _ _) z hz
        rw [groupsLoop_append fuel s.1 (x :: xs) _ (by simp) hrun2 hhead,
          ih hkeys.2 hseg2 fuel hf2]
        simp [List.filter_cons, hrun, groupOfRun]

theorem nodup_expandedTables (context : Context) (query : Query) (hwf : context.WellFormed) :
    ((expandedTables context query).map (fun e => (e.1, e.2.1))).Nodup := by
  have hsurv : (survivingDatabases context query).Nodup := hwf.1.filter _
  have htab : ∀ n, ((supportedTables (context.databases.tablesOf n)).map Prod.fst).Nodup := by
    intro n
    have h1 : ((context.databases.tablesOf n).map Prod.fst).Nodup := by
      unfold Databases.tablesOf
      cases hl : context.databases.lookup n with
      | none => simp
      | some tables =>
        have := mem_of_lookup _ _ _ hl
        exact hwf.2 _ this
    exact (List.Nodup.sublist ((List.filter_sublist _).map Prod.fst) h1)
  unfold expandedTables
  generalize survivingDatabases context query = names at hsurv
  induction names with
  | nil => simp
  | cons n ns ih =>
    simp only [List.nodup_cons] at hsurv
    simp only [List.flatMap_cons, List.map_append, List.map_map]
    rw [List.nodup_append]
    refine ⟨?_, by simpa [List.map_map] using ih hsurv.2, ?_⟩
    · have := htab n
      rw [← List.map_map] at *
      exact (List.Nodup.map (fun a b hab => by simpa using hab) this :
        ((supportedTables (context.databases.tablesOf n)).map Prod.fst |>.map
          (fun t => (n, t))).Nodup) |> fun h => by simpa [List.map_map, Function.comp] using h
    · intro k hk1 hk2
      simp only [List.mem_map, Function.comp] at hk1
      obtain ⟨t, _, rfl⟩ := hk1
      simp only [List.mem_map, List.mem_flatMap] at hk2
      obtain ⟨e, ⟨m, hm, he⟩, hek⟩ := hk2
      obtain ⟨t2, _, rfl⟩ := he
      simp only [Prod.mk.injEq] at hek
      exact hsurv.1 (hek.1 ▸ hm)

theorem survivingRows_runs (context : Context) (query : Query) :
    (survivingCandidates context query).map CandidateRow.toFiltered =
      ((expandedTables context query).map (runOf query)).flatMap Prod.snd := by
  unfold survivingCandidates candidateRows expandedTables
  rw [List.filter_flatMap, List.map_flatMap, List.flatMap_map, List.flatMap_assoc]
  apply List.flatMap_congr
  intro n _
  rw [List.filter_flatMap, List.map_flatMap, List.flatMap_map]
  rfl

theorem runOf_key (query : Query) (e : String × String × StoragePtr) :
    ∀ x ∈ (runOf query e).2, x.key = (runOf query e).1 := by
  intro x hx
  simp only [runOf, List.mem_map, List.mem_filter] at hx
  obtain ⟨c, ⟨hc, _⟩, rfl⟩ := hx
  obtain ⟨h1, h2, _⟩ := mem_fourRows _ _ _ hc
  simp [FilteredRow.key, CandidateRow.toFiltered, h1, h2, Field.getString, runOf]

/-- In a well-formed catalog the groups of `read` are the expanded tables with at least
one candidate row left by the second filter, in the order of the expansion. -/
theorem groupsFormed_eq (context : Context) (query : Query) (hwf : context.WellFormed) :
    groupsFormed context query =
      (((expandedTables context query).map (runOf query)).filter
        (fun s => !s.2.isEmpty)).map groupOfRun := by
  unfold groupsFormed groupsOf
  rw [survivingRows_runs]
  apply groupsLoop_runs _ _ _ _ (Nat.le_refl _)
  · rw [List.map_map]
    exact nodup_expandedTables context query hwf
  · intro s hs
    obtain ⟨e, _, rfl⟩ := List.mem_map.mp hs
    exact runOf_key query e

/-- In a well-formed catalog no two groups of `read` have the same database and table. -/
theorem groupsFormed_nodup (context : Context) (query : Query) (hwf : context.WellFormed) :
    ((groupsFormed context query).map (fun g => (g.database, g.table))).Nodup := by
  rw [groupsFormed_eq context query hwf, List.map_map]
  have h1 : (((expandedTables context query).map (runOf query)).map Prod.fst).Nodup := by
    rw [List.map_map]
    exact nodup_expandedTables context query hwf
  have h2 := List.Nodup.sublist
    ((List.filter_sublist ((expandedTables context query).map (runOf query))
      (p := fun s => !s.2.isEmpty)).map Prod.fst) h1
  exact h2

theorem filter_flatMap_unique {α β : Type} (l : List α) (f : α → List β) (p : β → Bool)
    (a : α) (ha : a ∈ l) (hl : l.Nodup)
    (hother : ∀ b ∈ l, b ≠ a → (f b).filter p = []) :
    (l.flatMap f).filter p = (f a).filter p := by
  induction l with
  | nil => cases ha
  | cons x xs ih =>
    simp only [List.nodup_cons] at hl
    rw [List.flatMap_cons, List.filter_append]
    rcases List.mem_cons.mp ha with rfl | hmem
    · have : (xs.flatMap f).filter p = [] := by
        rw [List.filter_eq_nil_iff]
        intro y hy
        obtain ⟨b, hb, hyb⟩ := List.mem_flatMap.mp hy
        have hne : b ≠ a := fun h => hl.1 (h ▸ hb)
        have := hother b (List.mem_cons_of_mem _ hb) hne
        rw [List.filter_eq_nil_iff] at this
        exact this y hyb
      rw [this, List.append_nil]
    · have hne : x ≠ a := fun h => hl.1 (h ▸ hmem)
      rw [hother x (List.mem_cons_self _ _) hne, List.nil_append]
      exact ih hmem hl.2 (fun b hb hba => hother b (List.mem_cons_of_mem _ hb) hba)

theorem emittedFor_cells (storages : Storages) (g : Group) (r : Nat) (hr : r = 0 ∨ r = 1) :
    ∀ row ∈ emittedFor storages g r,
      row.database = Field.str g.database ∧ row.table = Field.str g.table ∧
        row.replicated = Field.uint r := by
  intro row hrow
  have hr8 : r % 2 ^ 8 = r := by rcases hr with rfl | rfl <;> rfl
  unfold emittedFor at hrow
  cases hl : storages.lookup (g.database, g.table) with
  | none => simp [hl] at hrow
  | some storage =>
    simp only [hl, flagRows] at hrow
    split at hrow
    · cases hd : dataAt (backingData storage) r with
      | none => simp [hd] at hrow
      | some d =>
        simp only [hd, List.mem_map] at hrow
        obtain ⟨part, _, rfl⟩ := hrow
        refine ⟨rfl, rfl, ?_⟩
        show Field.uint (r % 2 ^ 8) = _
        rw [hr8]
    · cases hrow

theorem isFor_toRow (row : ResultRow) (database table : String) (r : Nat) :
    Row.isFor database table r row.toRow =
      (row.database == Field.str database && row.table == Field.str table &&
        row.replicated == Field.uint r) := by
  unfold Row.isFor
  rw [toRow_lookup_database, toRow_lookup_table, toRow_lookup_replicated]
  simp

/-- In a well-formed catalog the returned rows of one group and flag are exactly the
rows emitted for that group and flag. -/
theorem rows_filter_isFor (context : Context) (query : Query) (hwf : context.WellFormed)
    (res : ReadResult) (h : StorageSystemParts.read context query = Except.ok res)
    (g : Group) (hg : g ∈ groupsFormed context query) (r : Nat) (hr : r = 0 ∨ r = 1) :
    res.rows.filter (Row.isFor g.database g.table r) =
      (emittedFor (storagesOf context query) g r).map ResultRow.toRow := by
  have hnd := groupsFormed_nodup context query hwf
  have hnd2 : (groupsFormed context query).Nodup := List.Nodup.of_map _ hnd
  rw [(read_ok context query res h).1, List.filter_map]
  congr 1
  have hkeep : ∀ (g2 : Group) (r2 : Nat), (r2 = 0 ∨ r2 = 1) →
      (emittedFor (storagesOf context query) g2 r2).filter
        (Row.isFor g.database g.table r ∘ ResultRow.toRow) =
        if g2.database = g.database ∧ g2.table = g.table ∧ r2 = r then
          emittedFor (storagesOf context query) g2 r2 else [] := by
    intro g2 r2 hr2
    have hc := emittedFor_cells (storagesOf context query) g2 r2 hr2
    split
    · rename_i heq
      rw [List.filter_eq_self]
      intro row hrow
      obtain ⟨e1, e2, e3⟩ := hc row hrow
      simp [isFor_toRow, e1, e2, e3, heq.1, heq.2.1, heq.2.2]
    · rename_i hne
      rw [List.filter_eq_nil_iff]
      intro row hrow
      obtain ⟨e1, e2, e3⟩ := hc row hrow
      simp only [Function.comp, isFor_toRow, e1, e2, e3, Bool.and_eq_true, beq_iff_eq,
        Field.str.injEq, Field.uint.injEq]
      exact fun hh => hne ⟨hh.1.1, hh.1.2, hh.2⟩
  rw [filter_flatMap_unique _ _ _ g hg hnd2]
  · simp only [rowsOfGroup_eq, List.filter_append, hkeep g 0 (Or.inl rfl),
      hkeep g 1 (Or.inr rfl), true_and]
    rcases hr with rfl | rfl <;> simp
  · intro g2 hg2 hne
    have hkey : ¬ (g2.database = g.database ∧ g2.table = g.table) := by
      intro hk
      apply hne
      have := List.inj_on_of_nodup_map hnd hg2 hg (by simp [hk.1, hk.2])
      exact this
    simp only [rowsOfGroup_eq, List.filter_append, hkeep g2 0 (Or.inl rfl),
      hkeep g2 1 (Or.inr rfl)]
    have h0 : ¬ (g2.database = g.database ∧ g2.table = g.table ∧ 0 = r) :=
      fun hh => hkey ⟨hh.1, hh.2.1⟩
    have h1 : ¬ (g2.database = g.database ∧ g2.table = g.table ∧ 1 = r) :=
      fun hh => hkey ⟨hh.1, hh.2.1⟩
    rw [if_neg h0, if_neg h1]
    rfl

theorem count_flatMap_unique {α β : Type} [BEq β] [LawfulBEq β] (l : List α)
    (f : α → List β) (e : β) (a : α) (ha : a ∈ l) (hl : l.Nodup)
    (hother : ∀ b ∈ l, b ≠ a → (f b).count e = 0) :
    (l.flatMap f).count e = (f a).count e := by
  induction l with
  | nil => cases ha
  | cons x xs ih =>
    simp only [List.nodup_cons] at hl
    rw [List.flatMap_cons, List.count_append]
    rcases List.mem_cons.mp ha with rfl | hmem
    · have : (xs.flatMap f).count e = 0 := by
        rw [List.count_eq_zero]
        intro hy
        obtain ⟨b, hb, hyb⟩ := List.mem_flatMap.mp hy
        have hne : b ≠ a := fun h => hl.1 (h ▸ hb)
        have := hother b (List.mem_cons_of_mem _ hb) hne
        rw [List.count_eq_zero] at this
        exact this hyb
      rw [this, Nat.add_zero]
    · have hne : x ≠ a := fun h => hl.1 (h ▸ hmem)
      rw [hother x (List.mem_cons_self _ _) hne, Nat.zero_add]
      exact ih hmem hl.2 (fun b hb hba => hother b (List.mem_cons_of_mem _ hb) hba)

theorem mem_eventsFor (storages : Storages) (g : Group) (r : Nat) (e : Event)
    (he : e ∈ eventsFor storages g r) :
    e = Event.getDataParts g.database g.table r ∨
      e = Event.getAllDataParts g.database g.table r ∨
      ∃ name, e = Event.insertRow g.database g.table r name := by
  unfold eventsFor at he
  cases hl : storages.lookup (g.database, g.table) with
  | none => simp [hl] at he
  | some storage =>
    simp only [hl, flagEvents] at he
    split at he
    · cases hd : dataAt (backingData storage) r with
      | none => simp [hd] at he
      | some d =>
        simp only [hd, List.mem_append, List.mem_singleton, List.mem_map] at he
        rcases he with (he | he) | ⟨p, _, he⟩
        · exact Or.inl he
        · split at he
          · simp only [List.mem_singleton] at he
            exact Or.inr (Or.inl he)
          · cases he
        · exact Or.inr (Or.inr ⟨p.name, he.symm⟩)
    · cases he

/-- In a well-formed catalog the fetches of a dataset of a group in the whole trace are
those of the group's turn for that flag. -/
theorem trace_count_fetch (context : Context) (query : Query) (hwf : context.WellFormed)
    (res : ReadResult) (h : StorageSystemParts.read context query = Except.ok res)
    (g : Group) (hg : g ∈ groupsFormed context query) (r : Nat) (hr : r = 0 ∨ r = 1)
    (e : Event)
    (he : e = Event.getDataParts g.database g.table r ∨
      e = Event.getAllDataParts g.database g.table r) :
    res.trace.count e = (eventsFor (storagesOf context query) g r).count e := by
  have hnd := groupsFormed_nodup context query hwf
  have hnd2 : (groupsFormed context query).Nodup := List.Nodup.of_map _ hnd
  obtain ⟨_, h2, h3⟩ := read_ok context query res h
  have hzero : ∀ (g2 : Group) (r2 : Nat),
      ¬ (g2.database = g.database ∧ g2.table = g.table ∧ r2 = r) →
      (eventsFor (storagesOf context query) g2 r2).count e = 0 := by
    intro g2 r2 hne
    rw [List.count_eq_zero]
    intro hmem
    rcases mem_eventsFor _ _ _ _ hmem with h1 | h1 | ⟨name, h1⟩
    · rcases he with he | he
      · rw [he] at h1
        simp only [Event.getDataParts.injEq] at h1
        exact hne ⟨h1.1.symm, h1.2.1.symm, h1.2.2.symm⟩
      · rw [he] at h1
        cases h1
    · rcases he with he | he
      · rw [he] at h1
        cases h1
      · rw [he] at h1
        simp only [Event.getAllDataParts.injEq] at h1
        exact hne ⟨h1.1.symm, h1.2.1.symm, h1.2.2.symm⟩
    · rcases he with he | he <;> rw [he] at h1 <;> cases h1
  have hgroup : ∀ g2 ∈ groupsFormed context query,
      (eventsOfGroup (storagesOf context query) g2).count e =
        (eventsFor (storagesOf context query) g2 0).count e +
          (eventsFor (storagesOf context query) g2 1).count e := by
    intro g2 hg2
    obtain ⟨s, hs, _⟩ := h3 g2 hg2
    rw [eventsOfGroup_eq, hs]
    simp only [List.count_append]
    have e1 : [Event.lockStructure g2.database g2.table].count e = 0 := by
      rw [List.count_eq_zero]
      intro hm
      simp only [List.mem_singleton] at hm
      rcases he with he | he <;> rw [he] at hm <;> cases hm
    have e2 : [Event.unlockStructure g2.database g2.table].count e = 0 := by
      rw [List.count_eq_zero]
      intro hm
      simp only [List.mem_singleton] at hm
      rcases he with he | he <;> rw [he] at hm <;> cases hm
    rw [e1, e2]
    omega
  rw [h2, List.count_append]
  have e0 : [Event.lockContext, Event.unlockContext].count e = 0 := by
    rw [List.count_eq_zero]
    intro hm
    simp only [List.mem_cons, List.mem_singleton, List.not_mem_nil, or_false] at hm
    rcases he with he | he <;> rw [he] at hm <;> rcases hm with hm | hm <;> cases hm
  rw [e0, Nat.zero_add, count_flatMap_unique _ _ _ g hg hnd2]
  · rw [hgroup g hg]
    rcases hr with rfl | rfl
    · rw [hzero g 1 (by simp), Nat.add_zero]
    · rw [hzero g 0 (by simp), Nat.zero_add]
  · intro g2 hg2 hne
    have hkey : ¬ (g2.database = g.database ∧ g2.table = g.table) := by
      intro hk
      exact hne (List.inj_on_of_nodup_map hnd hg2 hg (by simp [hk.1, hk.2]))
    rw [hgroup g2 hg2, hzero g2 0 (fun hh => hkey ⟨hh.1, hh.2.1⟩),
      hzero g2 1 (fun hh => hkey ⟨hh.1, hh.2.1⟩)]

theorem groupsOutcome_error (storages : Storages) (gs : List Group) (rs : List ResultRow)
    (tr : List Event) (e : Exception)
    (hall : ∀ g ∈ gs, (storages.lookup (g.database, g.table)).isSome)
    (h : groupsOutcome storages gs rs tr = Except.error e) :
    e = Exception.TABLE_IS_DROPPED := by
  induction gs generalizing rs tr with
  | nil => simp [groupsOutcome] at h
  | cons g gs ih =>
    unfold groupsOutcome at h
    have h0 := hall g (List.mem_cons_self _ _)
    cases hl : storages.lookup (g.database, g.table) with
    | none => simp [hl] at h0
    | some storage =>
      cases hdr : storage.is_dropped with
      | true =>
        simp only [hl, hdr, if_true, Except.error.injEq] at h
        exact h.symm
      | false =>
        simp only [hl, hdr, Bool.false_eq_true, if_false] at h
        exact ih _ _ (fun g2 hg2 => hall g2 (List.mem_cons_of_mem _ hg2)) h

/-- The only way `read` fails is a dropped table: the lookups in the catalog and in
`storages` always succeed and the bound of the grouping loop is never reached. -/
theorem read_error (context : Context) (query : Query) (e : Exception)
    (h : StorageSystemParts.read context query = Except.error e) :
    e = Exception.TABLE_IS_DROPPED := by
  rw [read_eq] at h
  split at h
  · cases h
  · cases ho : groupsOutcome (storagesOf context query)
        (groupsOf ((survivingCandidates context query).map CandidateRow.toFiltered)) []
        [Event.lockContext, Event.unlockContext] with
    | ok p => simp [ho, Except.map] at h
    | error e2 =>
      rw [ho] at h
      simp only [Except.map, Except.error.injEq] at h
      rw [← h]
      exact groupsOutcome_error _ _ _ _ _
        (fun g hg => groupsFormed_recorded context query g hg) ho

theorem mem_survivingCandidates (context : Context) (query : Query) (c : CandidateRow) :
    c ∈ survivingCandidates context query ↔
      ∃ e ∈ expandedTables context query, c ∈ fourRows e.1 e.2 ∧ query c.toRow = true := by
  unfold survivingCandidates candidateRows expandedTables
  simp only [List.mem_filter, List.mem_flatMap, List.mem_map]
  constructor
  · rintro ⟨⟨n, hn, t, ht, hc⟩, hq⟩
    exact ⟨(n, t), ⟨n, hn, t, ht, rfl⟩, hc, hq⟩
  · rintro ⟨e, ⟨n, hn, t, ht, rfl⟩, hc, hq⟩
    exact ⟨⟨n, hn, t, ht, hc⟩, hq⟩

/-- In a well-formed catalog every group of `read` is the run of one expanded table:
its database and table are those of the table, the run is not empty, and its matrix is
the fold, from the empty matrix, of the flags of the table's candidate rows that passed
the second filter. -/
theorem groupsFormed_table (context : Context) (query : Query) (hwf : context.WellFormed)
    (g : Group) (hg : g ∈ groupsFormed context query) :
    ∃ e ∈ expandedTables context query,
      g.database = e.1 ∧ g.table = e.2.1 ∧ (runOf query e).2 ≠ [] ∧
      g.need = (runOf query e).2.foldl needStep Need.empty := by
  rw [groupsFormed_eq context query hwf] at hg
  simp only [List.mem_map, List.mem_filter] at hg
  obtain ⟨s, ⟨⟨e, he, rfl⟩, hne⟩, rfl⟩ := hg
  refine ⟨e, he, rfl, rfl, ?_, rfl⟩
  intro hnil
  rw [hnil] at hne
  simp at hne

/-- In a well-formed catalog every expanded table with a candidate row left by the
second filter is a group. -/
theorem groupsFormed_of_table (context : Context) (query : Query) (hwf : context.WellFormed)
    (e : String × String × StoragePtr) (he : e ∈ expandedTables context query)
    (hne : (runOf query e).2 ≠ []) :
    groupOfRun (runOf query e) ∈ groupsFormed context query := by
  rw [groupsFormed_eq context query hwf]
  refine List.mem_map.mpr ⟨runOf query e, List.mem_filter.mpr ⟨List.mem_map.mpr ⟨e, he, rfl⟩, ?_⟩,
    rfl⟩
  cases h : (runOf query e).2 with
  | nil => exact absurd h hne
  | cons x xs => rfl

theorem expandedTables_key_inj (context : Context) (query : Query) (hwf : context.WellFormed)
    (e1 e2 : String × String × StoragePtr) (h1 : e1 ∈ expandedTables context query)
    (h2 : e2 ∈ expandedTables context query) (hk1 : e1.1 = e2.1) (hk2 : e1.2.1 = e2.2.1) :
    e1 = e2 :=
  List.inj_on_of_nodup_map (nodup_expandedTables context query hwf) h1 h2
    (by simp [hk1, hk2])

theorem flag_toNat (r : Nat) (hr : r = 0 ∨ r = 1) : (r != 0).toNat = r := by
  rcases hr with rfl | rfl <;> rfl

theorem lockedTables_eventsFor (storages : Storages) (g : Group) (r : Nat) :
    lockedTables (eventsFor storages g r) = [] := by
  unfold lockedTables
  rw [List.filterMap_eq_nil_iff]
  intro e he
  rcases mem_eventsFor storages g r e he with h | h | ⟨name, h⟩ <;> rw [h] <;> rfl

theorem lockedTables_eventsOfGroup (storages : Storages) (g : Group) (storage : StoragePtr)
    (hl : storages.lookup (g.database, g.table) = some storage) :
    lockedTables (eventsOfGroup storages g) = [(g.database, g.table)] := by
  rw [eventsOfGroup_eq, hl]
  have h0 := lockedTables_eventsFor storages g 0
  have h1 := lockedTables_eventsFor storages g 1
  unfold lockedTables at h0 h1 ⊢
  simp only [List.filterMap_append, h0, h1]
  rfl

/-- The structural locks a completed `read` acquires are those of its groups, one per
group and in the order of the groups. -/
theorem lockedTables_read (context : Context) (query : Query) (res : ReadResult)
    (h : StorageSystemParts.read context query = Except.ok res) :
    lockedTables res.trace = (groupsFormed context query).map (fun g => (g.database, g.table)) := by
  obtain ⟨_, h2, h3⟩ := read_ok context query res h
  rw [h2]
  unfold lockedTables
  rw [List.filterMap_append]
  have e0 : List.filterMap Event.lockedTable [Event.lockContext, Event.unlockContext] = [] := rfl
  rw [e0, List.nil_append]
  generalize groupsFormed context query = gs at h3
  induction gs with
  | nil => rfl
  | cons g gs ih =>
    obtain ⟨s, hs, _⟩ := h3 g (List.mem_cons_self _ _)
    rw [List.flatMap_cons, List.filterMap_append, List.map_cons,
      ih (fun g2 hg2 => h3 g2 (List.mem_cons_of_mem _ hg2))]
    have := lockedTables_eventsOfGroup (storagesOf context query) g s hs
    unfold lockedTables at this
    rw [this]
    rfl

/-- The database and table of a group are those of a candidate row that passed the
second filter, and every such candidate row has a group. -/
theorem groupsFormed_key_iff (context : Context) (query : Query) (d t : String) :
    (∃ g ∈ groupsFormed context query, g.database = d ∧ g.table = t) ↔
      ∃ c ∈ survivingCandidates context query,
        c.database = Field.str d ∧ c.table = Field.str t := by
  have hcand : ∀ c ∈ survivingCandidates context query,
      c.database = Field.str c.toFiltered.database ∧
        c.table = Field.str c.toFiltered.table := by
    intro c hc
    have hc1 : c ∈ candidateRows context.databases (survivingDatabases context query) :=
      (List.mem_filter.mp hc).1
    obtain ⟨n, _, tb, _, hct⟩ := mem_candidateRows _ _ _ hc1
    obtain ⟨k1, k2, _⟩ := mem_fourRows _ _ _ hct
    simp [CandidateRow.toFiltered, k1, k2, Field.getString]
  constructor
  · rintro ⟨g, hg, rfl, rfl⟩
    obtain ⟨before, pre, after, h1, h2, h3, _⟩ := groupsLoop_run _ _ g hg
    obtain ⟨x, hx⟩ := List.exists_mem_of_ne_nil pre h2
    have hxm : x ∈ (survivingCandidates context query).map CandidateRow.toFiltered := by
      rw [h1]
      simp [hx]
    obtain ⟨c, hc, rfl⟩ := List.mem_map.mp hxm
    obtain ⟨k1, k2⟩ := hcand c hc
    exact ⟨c, hc, by rw [k1, (h3 _ hx).1], by rw [k2, (h3 _ hx).2]⟩
  · rintro ⟨c, hc, e1, e2⟩
    have hx : c.toFiltered ∈ (survivingCandidates context query).map CandidateRow.toFiltered :=
      List.mem_map.mpr ⟨c, hc, rfl⟩
    obtain ⟨g, hg, g1, g2⟩ := groupsLoop_cover _ _ (Nat.le_refl _) _ hx
    obtain ⟨k1, k2⟩ := hcand c hc
    rw [k1] at e1
    rw [k2] at e2
    exact ⟨g, hg, by rw [g1]; exact Field.str.inj e1, by rw [g2]; exact Field.str.inj e2⟩

theorem count_lockStructure (trace : List Event) (d t : String) :
    trace.count (Event.lockStructure d t) = (lockedTables trace).count (d, t) := by
  unfold lockedTables
  induction trace with
  | nil => rfl
  | cons e es ih =>
    rw [List.filterMap_cons]
    cases e with
    | lockStructure d2 t2 =>
      simp only [Event.lockedTable, List.count_cons, ih]
      congr 1
      by_cases hk : d2 = d ∧ t2 = t
      · simp [hk.1, hk.2]
      · have h1 : ¬ (Event.lockStructure d2 t2 = Event.lockStructure d t) := by
          intro hh
          cases hh
          exact hk ⟨rfl, rfl⟩
        have h2 : ¬ ((d2, t2) = (d, t)) := by
          intro hh
          cases hh
          exact hk ⟨rfl, rfl⟩
        simp [h1, h2]
    | _ => simp [Event.lockedTable, List.count_cons, ih]

theorem count_eq_one_of_nodup (l : List (String × String)) (a : String × String)
    (hl : l.Nodup) (ha : a ∈ l) : l.count a = 1 := by
  induction l with
  | nil => cases ha
  | cons x xs ih =>
    simp only [List.nodup_cons] at hl
    rw [List.count_cons]
    rcases List.mem_cons.mp ha with rfl | hmem
    · have : xs.count a = 0 := List.count_eq_zero.mpr hl.1
      simp [this]
    · have hne : ¬ (x = a) := fun hh => hl.1 (hh ▸ hmem)
      have hne2 : (x == a) = false := by simpa using hne
      rw [ih hl.2 hmem, hne2]
      rfl

theorem mem_firstOccurrences {α : Type} [DecidableEq α] (l : List α) (x : α)
    (h : x ∈ firstOccurrences l) : x ∈ l := by
  induction l with
  | nil => cases h
  | cons y ys ih =>
    simp only [firstOccurrences, List.mem_cons, List.mem_filter] at h
    rcases h with rfl | ⟨h, _⟩
    · exact List.mem_cons_self _ _
    · exact List.mem_cons_of_mem _ (ih h)

theorem firstOccurrences_replicate_append {α : Type} [DecidableEq α] (n : Nat) (k : α)
    (r : List α) :
    (firstOccurrences (List.replicate n k ++ r)).filter (fun y => y ≠ k) =
      (firstOccurrences r).filter (fun y => y ≠ k) := by
  induction n with
  | zero => rfl
  | succ n ih =>
    rw [List.replicate_succ, List.cons_append]
    simp only [firstOccurrences]
    rw [List.filter_cons]
    simp only [ne_eq, not_true_eq_false, decide_False, Bool.false_eq_true, if_false]
    rw [List.filter_filter]
    simp only [Bool.and_self]
    exact ih

/-- The first occurrences of a list made of runs of pairwise distinct elements are the
elements of the non-empty runs. -/
theorem firstOccurrences_runs {α : Type} [DecidableEq α] (l : List (α × Nat))
    (hl : (l.map Prod.fst).Nodup) :
    firstOccurrences (l.flatMap (fun p => List.replicate p.2 p.1)) =
      (l.filter (fun p => p.2 ≠ 0)).map Prod.fst := by
  induction l with
  | nil => rfl
  | cons p ps ih =>
    simp only [List.map_cons, List.nodup_cons] at hl
    rw [List.flatMap_cons]
    obtain ⟨k, n⟩ := p
    cases n with
    | zero =>
      simp only [List.replicate_zero, List.nil_append, ih hl.2]
      simp [List.filter_cons]
    | succ n =>
      rw [List.replicate_succ, List.cons_append]
      simp only [firstOccurrences]
      rw [firstOccurrences_replicate_append, ih hl.2]
      have hk : ∀ y ∈ (ps.filter (fun p => p.2 ≠ 0)).map Prod.fst, y ≠ k := by
        intro y hy hyk
        apply hl.1
        rw [← hyk]
        obtain ⟨q, hq, rfl⟩ := List.mem_map.mp hy
        exact List.mem_map.mpr ⟨q, (List.mem_filter.mp hq).1, rfl⟩
      rw [List.filter_eq_self.mpr (fun y hy => by simpa using hk y hy)]
      simp [List.filter_cons]

theorem map_eq_replicate {α β : Type} (l : List α) (f : α → β) (b : β)
    (h : ∀ x ∈ l, f x = b) : l.map f = List.replicate l.length b := by
  induction l with
  | nil => rfl
  | cons x xs ih =>
    rw [List.map_cons, h x (List.mem_cons_self _ _),
      ih (fun y hy => h y (List.mem_cons_of_mem _ hy))]
    rfl

/-- In a well-formed catalog the groups of `read` come in the order in which their
database and table first occur among the rows left by the second filter. -/
theorem groupsFormed_firstOccurrences (context : Context) (query : Query)
    (hwf : context.WellFormed) :
    (groupsFormed context query).map (fun g => (Field.str g.database, Field.str g.table)) =
      firstOccurrences
        ((survivingCandidates context query).map (fun c => (c.database, c.table))) := by
  have hK : (survivingCandidates context query).map (fun c => (c.database, c.table)) =
      ((expandedTables context query).map (fun e =>
        ((Field.str e.1, Field.str e.2.1), (runOf query e).2.length))).flatMap
          (fun p => List.replicate p.2 p.1) := by
    have hl : (survivingCandidates context query).map (fun c => (c.database, c.table)) =
        (survivingDatabases context query).flatMap (fun n =>
          (supportedTables (context.databases.tablesOf n)).flatMap (fun t =>
            ((fourRows n t).filter (fun c => query c.toRow)).map
              (fun c => (c.database, c.table)))) := by
      unfold survivingCandidates candidateRows
      rw [List.filter_flatMap, List.map_flatMap]
      apply List.flatMap_congr
      intro n _
      rw [List.filter_flatMap, List.map_flatMap]
    have hr : ((expandedTables context query).map (fun e =>
          ((Field.str e.1, Field.str e.2.1), (runOf query e).2.length))).flatMap
            (fun p => List.replicate p.2 p.1) =
        (survivingDatabases context query).flatMap (fun n =>
          (supportedTables (context.databases.tablesOf n)).flatMap (fun t =>
            List.replicate (runOf query (n, t)).2.length (Field.str n, Field.str t.1))) := by
      unfold expandedTables
      rw [List.flatMap_map, List.flatMap_assoc]
      apply List.flatMap_congr
      intro n _
      rw [List.flatMap_map]
    rw [hl, hr]
    apply List.flatMap_congr
    intro n _
    apply List.flatMap_congr
    intro t _
    simp only [runOf, List.length_map]
    apply map_eq_replicate
    intro c hc
    obtain ⟨k1, k2, _⟩ := mem_fourRows _ _ _ (List.mem_filter.mp hc).1
    rw [k1, k2]
  have hnd : (((expandedTables context query).map (fun e =>
      ((Field.str e.1, Field.str e.2.1), (runOf query e).2.length))).map Prod.fst).Nodup := by
    rw [List.map_map]
    have h0 := nodup_expandedTables context query hwf
    have : ((expandedTables context query).map
        (Prod.fst ∘ fun e => ((Field.str e.1, Field.str e.2.1), (runOf query e).2.length))) =
        ((expandedTables context query).map (fun e => (e.1, e.2.1))).map
          (fun k => (Field.str k.1, Field.str k.2)) := by
      rw [List.map_map]
      rfl
    rw [this]
    apply List.Nodup.map _ h0
    intro a b hab
    simp only [Prod.mk.injEq, Field.str.injEq] at hab
    exact Prod.ext hab.1 hab.2
  rw [hK, firstOccurrences_runs _ hnd, groupsFormed_eq context query hwf]
  clear hK hnd
  generalize expandedTables context query = E
  induction E with
  | nil => rfl
  | cons e es ih =>
    simp only [List.map_cons, List.filter_cons]
    cases hrun : (runOf query e).2 with
    | nil =>
      simp only [List.isEmpty_nil, Bool.not_true, Bool.false_eq_true, if_false, List.length_nil,
        ne_eq, not_true_eq_false, decide_False]
      exact ih
    | cons x xs =>
      simp only [List.isEmpty_cons, Bool.not_false, if_true, List.length_cons, ne_eq,
        Nat.add_one_ne_zero, not_false_eq_true, decide_True, List.map_cons]
      rw [ih]
      rfl

theorem nodup_pairwise_indexOf {α : Type} [BEq α] [LawfulBEq α] (l : List α) (hl : l.Nodup) :
    l.Pairwise (fun x y => l.indexOf x < l.indexOf y) := by
  induction l with
  | nil => exact List.Pairwise.nil
  | cons a as ih =>
    simp only [List.nodup_cons] at hl
    rw [List.pairwise_cons]
    have hne : ∀ y ∈ as, (a == y) = false := by
      intro y hy
      apply beq_false_of_ne
      exact fun h => hl.1 (h ▸ hy)
    refine ⟨?_, ?_⟩
    · intro y hy
      rw [List.indexOf_cons, List.indexOf_cons, beq_self_eq_true, hne y hy]
      exact Nat.succ_pos _
    · apply List.Pairwise.imp_of_mem _ (ih hl.2)
      intro x y hx hy hxy
      rw [List.indexOf_cons, List.indexOf_cons, hne x hx, hne y hy]
      exact Nat.succ_lt_succ hxy

theorem rows_assemble (rs : List ResultRow) :
    (assemble (ResultColumns.ofRows rs)).rows = rs.length := by
  rw [assemble_ofRows, rows_ofRows _ (by simp)]

/-- The streams of a completed `read`: none when no candidate row passed the filters,
otherwise the one block assembled from the rows of the groups. -/
theorem read_ok_streams (context : Context) (query : Query) (res : ReadResult)
    (h : StorageSystemParts.read context query = Except.ok res) :
    res.streams = [] ∨
      res.streams =
        [assemble (ResultColumns.ofRows
          ((groupsFormed context query).flatMap (rowsOfGroup (storagesOf context query))))] := by
  rw [read_eq] at h
  split at h
  · cases h
    exact Or.inl rfl
  · cases ho : groupsOutcome (storagesOf context query)
        (groupsOf ((survivingCandidates context query).map CandidateRow.toFiltered)) []
        [Event.lockContext, Event.unlockContext] with
    | error e => simp [ho, Except.map] at h
    | ok p =>
      rw [ho] at h
      simp only [Except.map, Except.ok.injEq] at h
      obtain ⟨h1, _⟩ := groupsOutcome_ok _ _ _ _ _ ho
      subst h
      right
      simp [h1, groupsFormed]

theorem insertedRowCount_append (a b : List Event) :
    insertedRowCount (a ++ b) = insertedRowCount a + insertedRowCount b := by
  simp [insertedRowCount, List.filter_append]

theorem insertedRowCount_flagEvents (database table engine : String)
    (data : Option MergeTreeData × Option MergeTreeData) (need : Need) (r : Nat) :
    insertedRowCount (flagEvents database table data need r) =
      (flagRows database table engine data need r).length := by
  have hmap : ∀ parts : DataParts,
      insertedRowCount (parts.map (fun part => Event.insertRow database table r part.name)) =
        parts.length := by
    intro parts
    induction parts with
    | nil => rfl
    | cons p ps ih =>
      simp only [insertedRowCount, List.map_cons, List.filter_cons, Event.isInsertRow, if_true,
        List.length_cons] at ih ⊢
      rw [ih]
  unfold flagEvents flagRows
  split
  · cases dataAt data r with
    | none => rfl
    | some d =>
      have e1 : insertedRowCount [Event.getDataParts database table r] = 0 := rfl
      have e2 : insertedRowCount [Event.getAllDataParts database table r] = 0 := rfl
      have e3 : insertedRowCount [] = 0 := rfl
      simp only [insertedRowCount_append, hmap, List.length_map]
      split <;> simp only [e1, e2, e3, Nat.zero_add]
  · rfl

theorem insertedRowCount_eventsOfGroup (storages : Storages) (g : Group) :
    insertedRowCount (eventsOfGroup storages g) = (rowsOfGroup storages g).length := by
  unfold eventsOfGroup rowsOfGroup
  cases storages.lookup (g.database, g.table) with
  | none => rfl
  | some storage =>
    have e1 : insertedRowCount [Event.lockStructure g.database g.table] = 0 := rfl
    have e2 : insertedRowCount [Event.unlockStructure g.database g.table] = 0 := rfl
    simp only [tableEvents, tableRows, insertedRowCount_append, List.length_append,
      insertedRowCount_flagEvents _ _ storage.getName, e1, e2, Nat.zero_add, Nat.add_zero]

theorem insertedRowCount_flatMap (storages : Storages) (gs : List Group) :
    insertedRowCount (gs.flatMap (eventsOfGroup storages)) =
      (gs.flatMap (rowsOfGroup storages)).length := by
  induction gs with
  | nil => rfl
  | cons g gs ih =>
    rw [List.flatMap_cons, List.flatMap_cons, insertedRowCount_append, List.length_append, ih,
      insertedRowCount_eventsOfGroup]

/-- The rows of the candidate block that the second filter leaves are the surviving
candidate rows. -/
theorem filtered_rowList (context : Context) (query : Query) :
    (filterBlockWithQuery query
        (Block.ofRows CandidateRow.schema
          (candidateRows context.databases (survivingDatabases context query)))).rowList =
      (survivingCandidates context query).map CandidateRow.toRow := by
  rw [filterBlockWithQuery_ofRows _ (by simp [CandidateRow.schema]),
    rowList_ofRows _ (by simp [CandidateRow.schema])]
  rfl

theorem databaseBlock_column (context : Context) (query : Query) :
    (databaseBlock context query).getByName "database" =
      Except.ok ⟨(survivingDatabases context query).map Field.str, DataType.DataTypeString,
        "database"⟩ := by
  rw [databaseBlock_eq, getByName_ofRows]
  rfl

/-- The storage recorded for the pair of a surviving candidate row is a table of the
catalog under that database and table name, with a supported engine. -/
theorem survivingCandidates_storage (context : Context) (query : Query) (c : CandidateRow)
    (hc : c ∈ survivingCandidates context query) :
    ∃ (d t : String) (storage : StoragePtr) (tables : Tables),
      c.database = Field.str d ∧ c.table = Field.str t ∧
      (storagesOf context query).atKey (d, t) = Except.ok storage ∧
      (d, tables) ∈ context.databases ∧ (t, storage) ∈ tables ∧
      storage.isSupported = true := by
  have hc1 : c ∈ candidateRows context.databases (survivingDatabases context query) :=
    (List.mem_filter.mp hc).1
  obtain ⟨n, hn, tb, _, hct⟩ := mem_candidateRows _ _ _ hc1
  obtain ⟨k1, k2, _⟩ := mem_fourRows _ _ _ hct
  have hsome := survivingCandidates_recorded context query c hc
  simp only [CandidateRow.toFiltered, k1, k2, Field.getString] at hsome
  cases hl : (storagesOf context query).lookup (n, tb.1) with
  | none => simp [hl] at hsome
  | some storage =>
    obtain ⟨_, h2⟩ := storagesOf_lookup context query n tb.1 storage hl
    have h3 := List.mem_filter.mp h2
    have hlk := surviving_lookup context query n hn
    cases hdb : context.databases.lookup n with
    | none => simp [hdb] at hlk
    | some tables =>
      refine ⟨n, tb.1, storage, tables, k1, k2, ?_, mem_of_lookup _ _ _ hdb, ?_, h3.2⟩
      · simp [Storages.atKey, hl]
      · have := h3.1
        simp only [Databases.tablesOf, hdb, Option.getD_some] at this
        exact this

theorem length_offsetsFrom (prev : Nat) (cs : List Nat) :
    (offsetsFrom prev cs).length = cs.length := by
  induction cs generalizing prev with
  | nil => rfl
  | cons c cs ih => simp [offsetsFrom, ih]

theorem getElem?_offsetsFrom (prev : Nat) (cs : List Nat) (i : Nat) (hi : i < cs.length) :
    (offsetsFrom prev cs)[i]? = some (prev + (cs.take (i + 1)).sum) := by
  induction cs generalizing prev i with
  | nil => simp at hi
  | cons c cs ih =>
    cases i with
    | zero => simp [offsetsFrom]
    | succ k =>
      simp only [List.length_cons, Nat.add_lt_add_iff_right] at hi
      simp only [offsetsFrom, List.getElem?_cons_succ, ih (prev + c) k hi, List.take_succ_cons,
        List.sum_cons, Nat.add_assoc]

theorem lastOffset_offsetsFrom (prev : Nat) (cs : List Nat) :
    (offsetsFrom prev cs).getLast?.getD prev = prev + cs.sum := by
  induction cs generalizing prev with
  | nil => simp [offsetsFrom]
  | cons c cs ih =>
    simp only [offsetsFrom, List.getLast?_cons, Option.getD_some, ih (prev + c), List.sum_cons,
      Nat.add_assoc]

theorem lastOffset_eq_sum (cs : List Nat) : lastOffset (offsetsFrom 0 cs) = cs.sum := by
  have h := lastOffset_offsetsFrom 0 cs
  unfold lastOffset
  cases hl : (offsetsFrom 0 cs).getLast? with
  | none => simpa [hl] using h
  | some o => simpa [hl] using h

theorem offsetBefore_offsetsFrom (cs : List Nat) (i : Nat) (hi : i ≤ cs.length) :
    offsetBefore (offsetsFrom 0 cs) i = (cs.take i).sum := by
  unfold offsetBefore
  cases i with
  | zero => simp
  | succ k =>
    have hk : k < cs.length := hi
    simp [List.getD, getElem?_offsetsFrom 0 cs k hk]

theorem length_flatMap_fourRows (n : String) (tables : Tables) :
    (tables.flatMap (fourRows n)).length = 4 * tables.length := by
  have h := congrArg List.length (fourRows_database n tables)
  simpa using h

theorem length_candidateRows (databases : Databases) (names : List String) :
    (candidateRows databases names).length = (candidateCounts databases names).sum := by
  unfold candidateRows candidateCounts
  induction names with
  | nil => rfl
  | cons n ns ih =>
    simp only [List.flatMap_cons, List.length_append, ih, length_flatMap_fourRows,
      List.map_cons, List.sum_cons]

/-- A position in a concatenation lies in the segment of exactly one of the pieces. -/
theorem flatMap_segment {α β : Type} (f : α → List β) (xs : List α) (j : Nat) (y : β)
    (h : (xs.flatMap f)[j]? = some y) :
    ∃ i x, xs[i]? = some x ∧
      ((xs.take i).map (fun a => (f a).length)).sum ≤ j ∧
      j < ((xs.take (i + 1)).map (fun a => (f a).length)).sum ∧ y ∈ f x := by
  induction xs generalizing j with
  | nil => simp at h
  | cons x xs ih =>
    rw [List.flatMap_cons] at h
    by_cases hj : j < (f x).length
    · rw [List.getElem?_append_left hj] at h
      exact ⟨0, x, by simp, by simp, by simpa using hj, List.getElem?_mem h⟩
    · have hge : (f x).length ≤ j := Nat.le_of_not_lt hj
      rw [List.getElem?_append_right hge] at h
      obtain ⟨i, x2, h1, h2, h3, h4⟩ := ih (j - (f x).length) h
      refine ⟨i + 1, x2, by simpa using h1, ?_, ?_, h4⟩
      · simp only [List.take_succ_cons, List.map_cons, List.sum_cons]
        omega
      · simp only [List.take_succ_cons, List.map_cons, List.sum_cons]
        omega

theorem take_candidateCounts (databases : Databases) (names : List String) (i : Nat) :
    ((names.take i).map (fun n =>
        ((supportedTables (databases.tablesOf n)).flatMap (fourRows n)).length)).sum =
      ((candidateCounts databases names).take i).sum := by
  unfold candidateCounts
  rw [← List.map_take]
  simp only [length_flatMap_fourRows]

theorem take_supportedCount (databases : Databases) (names : List String) (i : Nat) :
    ((candidateCounts databases names).take i).sum =
      4 * (((names.map Field.str).take i).map (supportedCount databases)).sum := by
  unfold candidateCounts
  rw [← List.map_take, ← List.map_take, List.map_map]
  generalize names.take i = l
  induction l with
  | nil => rfl
  | cons n ns ih =>
    simp only [List.map_cons, List.sum_cons, ih, Function.comp, supportedCount, Field.getString]
    omega

theorem expand_eq (context : Context) (query : Query) :
    expand context.getDatabases ((survivingDatabases context query).map Field.str) =
      Except.ok
        { storages := storagesOf context query,
          offsets :=
            offsetsFrom 0 (candidateCounts context.databases (survivingDatabases context query)),
          table_column :=
            (candidateRows context.databases (survivingDatabases context query)).map
              CandidateRow.table,
          engine_column :=
            (candidateRows context.databases (survivingDatabases context query)).map
              CandidateRow.engine,
          replicated_column :=
            (candidateRows context.databases (survivingDatabases context query)).map
              CandidateRow.replicated,
          active_column :=
            (candidateRows context.databases (survivingDatabases context query)).map
              CandidateRow.active } := by
  unfold expand
  have h := foldlM_expandDatabase context.databases (survivingDatabases context query)
    (surviving_lookup context query) Expansion.empty
  simp only [Context.getDatabases]
  rw [h]
  simp [Expansion.empty, lastOffset, storagesOf]

theorem count_eraseCount (s : DataParts) (p : DataPartPtr) :
    DataParts.count (s.map DataPartPtr.eraseCount) p.eraseCount = DataParts.count s p := by
  unfold DataParts.count
  rw [List.any_map]
  rfl

theorem partRow_eraseCount (database table engine : String) (replicated : Nat) (need0 : Bool)
    (active_parts : DataParts) (part : DataPartPtr) :
    (partRow database table engine replicated need0
        (active_parts.map DataPartPtr.eraseCount) part.eraseCount).eraseRefcount =
      (partRow database table engine replicated need0 active_parts part).eraseRefcount := by
  simp only [partRow, ResultRow.eraseRefcount, activeValue, count_eraseCount]
  rfl

theorem dataAt_eraseCounts (storage : StoragePtr) (replicated : Nat) :
    dataAt (backingData storage.eraseCounts) replicated =
      (dataAt (backingData storage) replicated).map MergeTreeData.eraseCounts := by
  obtain ⟨name, dropped, impl⟩ := storage
  cases impl with
  | StorageMergeTree data =>
    match replicated with
    | 0 => rfl
    | 1 => rfl
    | _ + 2 => rfl
  | StorageReplicatedMergeTree data unreplicated_data =>
    match replicated with
    | 0 => rfl
    | 1 => rfl
    | _ + 2 => rfl
  | Other =>
    match replicated with
    | 0 => rfl
    | 1 => rfl
    | _ + 2 => rfl

theorem traversedParts_eraseCounts (d : MergeTreeData) (need0 : Bool) :
    traversedParts d.eraseCounts need0 =
      (traversedParts d need0).map DataPartPtr.eraseCount := by
  cases need0 <;> rfl

theorem flagRows_eraseCounts (database table engine : String) (storage : StoragePtr)
    (need : Need) (replicated : Nat) :
    (flagRows database table engine (backingData storage.eraseCounts) need replicated).map
        ResultRow.eraseRefcount =
      (flagRows database table engine (backingData storage) need replicated).map
        ResultRow.eraseRefcount := by
  unfold flagRows
  rw [dataAt_eraseCounts]
  split
  · cases dataAt (backingData storage) replicated with
    | none => rfl
    | some d =>
      simp only [Option.map, traversedParts_eraseCounts, List.map_map]
      apply List.map_congr_left
      intro part _
      exact partRow_eraseCount _ _ _ _ _ _ _
  · rfl

theorem flagEvents_eraseCounts (database table : String) (storage : StoragePtr)
    (need : Need) (replicated : Nat) :
    flagEvents database table (backingData storage.eraseCounts) need replicated =
      flagEvents database table (backingData storage) need replicated := by
  unfold flagEvents
  rw [dataAt_eraseCounts]
  split
  · cases dataAt (backingData storage) replicated with
    | none => rfl
    | some d =>
      simp only [Option.map, traversedParts_eraseCounts, List.map_map]
      rfl
  · rfl

theorem tableRows_eraseCounts (storage : StoragePtr) (g : Group) :
    (tableRows storage.eraseCounts g).map ResultRow.eraseRefcount =
      (tableRows storage g).map ResultRow.eraseRefcount := by
  unfold tableRows
  rw [List.map_append, List.map_append]
  have hn : storage.eraseCounts.getName = storage.getName := rfl
  rw [hn, flagRows_eraseCounts, flagRows_eraseCounts]

theorem tableEvents_eraseCounts (storage : StoragePtr) (g : Group) :
    tableEvents storage.eraseCounts g = tableEvents storage g := by
  unfold tableEvents
  rw [flagEvents_eraseCounts, flagEvents_eraseCounts]

theorem isSupported_eraseCounts (storage : StoragePtr) :
    storage.eraseCounts.isSupported = storage.isSupported := by
  obtain ⟨name, dropped, impl⟩ := storage
  cases impl <;> rfl

theorem tablesOf_eraseCounts (context : Context) (n : String) :
    context.eraseCounts.databases.tablesOf n =
      (context.databases.tablesOf n).map (fun t => (t.1, t.2.eraseCounts)) := by
  unfold Databases.tablesOf Context.eraseCounts
  rw [lookup_map_value context.databases (fun _ ts => ts.map (fun t => (t.1, t.2.eraseCounts)))]
  cases context.databases.lookup n <;> rfl

theorem supportedTables_eraseCounts (tables : Tables) :
    supportedTables (tables.map (fun t => (t.1, t.2.eraseCounts))) =
      (supportedTables tables).map (fun t => (t.1, t.2.eraseCounts)) := by
  unfold supportedTables
  rw [List.filter_map]
  congr 1
  apply List.filter_congr
  intro t _
  exact isSupported_eraseCounts t.2

theorem survivingDatabases_eraseCounts (context : Context) (query : Query) :
    survivingDatabases context.eraseCounts query = survivingDatabases context query := by
  unfold survivingDatabases Context.eraseCounts
  rw [List.map_map]
  rfl

theorem candidateRows_eraseCounts (context : Context) (names : List String) :
    candidateRows context.eraseCounts.databases names = candidateRows context.databases names := by
  unfold candidateRows
  apply List.flatMap_congr
  intro n _
  rw [tablesOf_eraseCounts, supportedTables_eraseCounts, List.flatMap_map]
  rfl

theorem survivingCandidates_eraseCounts (context : Context) (query : Query) :
    survivingCandidates context.eraseCounts query = survivingCandidates context query := by
  unfold survivingCandidates
  rw [survivingDatabases_eraseCounts, candidateRows_eraseCounts]

theorem storagesOf_eraseCounts (context : Context) (query : Query) :
    storagesOf context.eraseCounts query =
      (storagesOf context query).map (fun e => (e.1, e.2.eraseCounts)) := by
  unfold storagesOf recordedStorages
  rw [survivingDatabases_eraseCounts, List.map_reverse]
  congr 1
  rw [List.map_flatMap]
  apply List.flatMap_congr
  intro n _
  rw [tablesOf_eraseCounts, supportedTables_eraseCounts, List.map_map, List.map_map]
  rfl

theorem storagesOf_lookup_eraseCounts (context : Context) (query : Query)
    (key : String × String) :
    (storagesOf context.eraseCounts query).lookup key =
      ((storagesOf context query).lookup key).map IStorage.eraseCounts := by
  rw [storagesOf_eraseCounts]
  exact lookup_map_value (storagesOf context query) (fun _ s => s.eraseCounts) key

/-- The outcome of the groups on the catalog without counts is the outcome on the catalog
itself, as far as the blanked rows and the events go. -/
theorem groupsOutcome_eraseCounts (context : Context) (query : Query) (gs : List Group)
    (rs rs2 : List ResultRow) (tr : List Event)
    (hrs : rs2.map ResultRow.eraseRefcount = rs.map ResultRow.eraseRefcount) :
    (groupsOutcome (storagesOf context.eraseCounts query) gs rs2 tr).map
        (fun p => (p.1.map ResultRow.eraseRefcount, p.2)) =
      (groupsOutcome (storagesOf context query) gs rs tr).map
        (fun p => (p.1.map ResultRow.eraseRefcount, p.2)) := by
  induction gs generalizing rs rs2 tr with
  | nil => simp [groupsOutcome, Except.map, hrs]
  | cons g gs ih =>
    unfold groupsOutcome
    rw [storagesOf_lookup_eraseCounts]
    cases (storagesOf context query).lookup (g.database, g.table) with
    | none => rfl
    | some storage =>
      simp only [Option.map]
      have hd : storage.eraseCounts.is_dropped = storage.is_dropped := rfl
      rw [hd]
      cases storage.is_dropped with
      | true => rfl
      | false =>
        simp only [Bool.false_eq_true, if_false]
        rw [tableEvents_eraseCounts]
        apply ih
        rw [List.map_append, List.map_append, hrs, tableRows_eraseCounts]

theorem withoutColumn_toRow (r : ResultRow) :
    Row.withoutColumn "refcount" r.eraseRefcount.toRow =
      Row.withoutColumn "refcount" r.toRow := by
  simp [Row.withoutColumn, ResultRow.toRow, ResultRow.eraseRefcount, List.filter]

theorem withoutColumn_assemble (rs : List ResultRow) :
    Block.withoutColumn "refcount" (assemble (ResultColumns.ofRows (rs.map ResultRow.eraseRefcount))) =
      Block.withoutColumn "refcount" (assemble (ResultColumns.ofRows rs)) := by
  simp [Block.withoutColumn, assemble, ResultColumns.ofRows, List.filter, Block.insert,
    ResultRow.eraseRefcount, List.map_map, Function.comp]

theorem exceptRefcount_assemble (rs : List ResultRow) (tr : List Event) :
    ReadResult.exceptRefcount ⟨[assemble (ResultColumns.ofRows rs)], tr⟩ =
      (tr, [Block.withoutColumn "refcount"
          (assemble (ResultColumns.ofRows (rs.map ResultRow.eraseRefcount)))],
        (rs.map ResultRow.eraseRefcount).map
          (fun r => Row.withoutColumn "refcount" r.toRow),
        [(rs.map ResultRow.eraseRefcount).length]) := by
  unfold ReadResult.exceptRefcount
  simp only [ReadResult.rows, List.flatMap_cons, List.flatMap_nil, List.append_nil,
    rowList_assemble, List.map_cons, List.map_nil, List.map_map, withoutColumn_assemble,
    rows_assemble, List.length_map, Prod.mk.injEq, true_and, and_true]
  apply List.map_congr_left
  intro r _
  exact (withoutColumn_toRow r).symm

/-- What a read shows apart from the refcount column is decided by the catalog without
its ownership counts. -/
theorem read_eraseCounts (context : Context) (query : Query) :
    (StorageSystemParts.read context.eraseCounts query).map ReadResult.exceptRefcount =
      (StorageSystemParts.read context query).map ReadResult.exceptRefcount := by
  rw [read_eq, read_eq, survivingCandidates_eraseCounts]
  by_cases h0 : (survivingCandidates context query).length = 0
  · rw [if_pos h0, if_pos h0]
  · rw [if_neg h0, if_neg h0]
    have h := groupsOutcome_eraseCounts context query
      (groupsOf ((survivingCandidates context query).map CandidateRow.toFiltered)) [] []
      [Event.lockContext, Event.unlockContext] rfl
    cases h1 : groupsOutcome (storagesOf context.eraseCounts query)
        (groupsOf ((survivingCandidates context query).map CandidateRow.toFiltered)) []
        [Event.lockContext, Event.unlockContext] with
    | error e1 =>
      cases h2 : groupsOutcome (storagesOf context query)
          (groupsOf ((survivingCandidates context query).map CandidateRow.toFiltered)) []
          [Event.lockContext, Event.unlockContext] with
      | error e2 =>
        rw [h1, h2] at h
        simp only [Except.map, Except.error.injEq] at h
        simp [Except.map, h]
      | ok p2 =>
        rw [h1, h2] at h
        simp [Except.map] at h
    | ok p1 =>
      cases h2 : groupsOutcome (storagesOf context query)
          (groupsOf ((survivingCandidates context query).map CandidateRow.toFiltered)) []
          [Event.lockContext, Event.unlockContext] with
      | error e2 =>
        rw [h1, h2] at h
        simp [Except.map] at h
      | ok p2 =>
        rw [h1, h2] at h
        simp only [Except.map, Except.ok.injEq, Prod.mk.injEq] at h
        simp only [Except.map, exceptRefcount_assemble, h.1, h.2]

theorem lookup_withoutColumn (row : Row) (name other : String) (h : name ≠ other) :
    (Row.withoutColumn other row).lookup name = row.lookup name := by
  unfold Row.withoutColumn
  induction row with
  | nil => rfl
  | cons c cs ih =>
    obtain ⟨k, v⟩ := c
    by_cases hk : k = other
    · subst hk
      have hne : (name == k) = false := by simpa using h
      simp [List.filter, List.lookup, hne, ih]
    · have hk2 : (k != other) = true := by simpa using hk
      simp only [List.filter, hk2, List.lookup_cons]
      cases name == k
      · simpa [List.filter] using ih
      · rfl

theorem disciplined_append (held : List HeldLock) (a b : List Event) :
    disciplined held (a ++ b) = (disciplined held a && disciplined (a.foldl heldAfter held) b) := by
  induction a generalizing held with
  | nil => simp [disciplined]
  | cons e es ih => simp [disciplined, ih, Bool.and_assoc]

/-- A sequence that keeps the discipline keeps it at every event. -/
theorem disciplined_split (held : List HeldLock) (trace pre post : List Event) (e : Event)
    (h : disciplined held trace = true) (hs : trace = pre ++ e :: post) :
    e.allowed (pre.foldl heldAfter held) = true := by
  subst hs
  rw [disciplined_append] at h
  simp only [disciplined, Bool.and_eq_true] at h
  exact h.2.1

theorem heldAfter_work (held : List HeldLock) (e : Event) (key : String × String)
    (he : e.workedTable = some key) : heldAfter held e = held := by
  cases e <;> simp [Event.workedTable] at he <;> rfl

theorem allowed_work (e : Event) (key : String × String)
    (he : e.workedTable = some key) :
    e.allowed [HeldLock.table key.1 key.2] = true := by
  cases e <;> simp [Event.workedTable] at he <;> subst he <;> simp [Event.allowed]

theorem disciplined_work (key : String × String) (body : List Event)
    (hb : ∀ e ∈ body, e.workedTable = some key) :
    disciplined [HeldLock.table key.1 key.2] body = true ∧
      body.foldl heldAfter [HeldLock.table key.1 key.2] = [HeldLock.table key.1 key.2] := by
  induction body with
  | nil => exact ⟨rfl, rfl⟩
  | cons e es ih =>
    have he := hb e (List.mem_cons_self _ _)
    have ih2 := ih (fun x hx => hb x (List.mem_cons_of_mem _ hx))
    simp only [disciplined, List.foldl_cons, heldAfter_work _ e key he, allowed_work e key he,
      ih2.1, ih2.2, Bool.and_self, and_self]

theorem workedTable_eventsFor (storages : Storages) (g : Group) (r : Nat) (e : Event)
    (he : e ∈ eventsFor storages g r) : e.workedTable = some (g.database, g.table) := by
  rcases mem_eventsFor storages g r e he with h | h | ⟨name, h⟩ <;> subst h <;> rfl

theorem disciplined_segment (database table : String) (body : List Event)
    (hb : ∀ e ∈ body, e.workedTable = some (database, table)) :
    disciplined [] (Event.lockStructure database table ::
        (body ++ [Event.unlockStructure database table])) = true ∧
      (Event.lockStructure database table ::
        (body ++ [Event.unlockStructure database table])).foldl heldAfter [] = [] := by
  have hw : disciplined [HeldLock.table database table] body = true ∧
      body.foldl heldAfter [HeldLock.table database table] = [HeldLock.table database table] :=
    disciplined_work (database, table) body hb
  show (decide (([] : List HeldLock) = []) &&
      disciplined [HeldLock.table database table]
        (body ++ [Event.unlockStructure database table])) = true ∧
    (body ++ [Event.unlockStructure database table]).foldl heldAfter
      [HeldLock.table database table] = []
  rw [disciplined_append, List.foldl_append, hw.1, hw.2]
  simp [disciplined, Event.allowed, heldAfter]

/-- The events of one group keep the discipline from no lock held and end with no lock
held. -/
theorem disciplined_eventsOfGroup (storages : Storages) (g : Group) :
    disciplined [] (eventsOfGroup storages g) = true ∧
      (eventsOfGroup storages g).foldl heldAfter [] = [] := by
  rw [eventsOfGroup_eq]
  cases hl : storages.lookup (g.database, g.table) with
  | none => exact ⟨rfl, rfl⟩
  | some storage =>
    have hb : ∀ e ∈ eventsFor storages g 0 ++ eventsFor storages g 1,
        e.workedTable = some (g.database, g.table) := by
      intro e he
      rcases List.mem_append.mp he with h | h
      · exact workedTable_eventsFor storages g 0 e h
      · exact workedTable_eventsFor storages g 1 e h
    have hform : [Event.lockStructure g.database g.table] ++ eventsFor storages g 0 ++
          eventsFor storages g 1 ++ [Event.unlockStructure g.database g.table] =
        Event.lockStructure g.database g.table ::
          ((eventsFor storages g 0 ++ eventsFor storages g 1) ++
            [Event.unlockStructure g.database g.table]) := by
      simp only [List.append_assoc, List.singleton_append, List.cons_append, List.nil_append]
    show disciplined [] ([Event.lockStructure g.database g.table] ++ eventsFor storages g 0 ++
          eventsFor storages g 1 ++ [Event.unlockStructure g.database g.table]) = true ∧
      ([Event.lockStructure g.database g.table] ++ eventsFor storages g 0 ++
          eventsFor storages g 1 ++ [Event.unlockStructure g.database g.table]).foldl
        heldAfter [] = []
    rw [hform]
    exact disciplined_segment g.database g.table _ hb

theorem disciplined_flatMap (storages : Storages) (gs : List Group) :
    disciplined [] (gs.flatMap (eventsOfGroup storages)) = true ∧
      (gs.flatMap (eventsOfGroup storages)).foldl heldAfter [] = [] := by
  induction gs with
  | nil => exact ⟨rfl, rfl⟩
  | cons g gs ih =>
    have hg := disciplined_eventsOfGroup storages g
    rw [List.flatMap_cons, disciplined_append, List.foldl_append, hg.1, hg.2, ih.1, ih.2]
    exact ⟨rfl, rfl⟩

theorem mem_heldAfter (held : List HeldLock) (e : Event) (database table : String)
    (h : HeldLock.table database table ∈ heldAfter held e) :
    HeldLock.table database table ∈ held ∨ e = Event.lockStructure database table := by
  cases e with
  | lockContext => simpa [heldAfter] using h
  | unlockContext => exact Or.inl (List.mem_of_mem_erase h)
  | lockStructure d t =>
    simp only [heldAfter, List.mem_append, List.mem_singleton, HeldLock.table.injEq] at h
    rcases h with h | ⟨h1, h2⟩
    · exact Or.inl h
    · subst h1
      subst h2
      exact Or.inr rfl
  | unlockStructure d t => exact Or.inl (List.mem_of_mem_erase h)
  | getDataParts d t r => exact Or.inl h
  | getAllDataParts d t r => exact Or.inl h
  | insertRow d t r n => exact Or.inl h

/-- A table lock held after some events was held before them or taken by one of them. -/
theorem mem_foldl_heldAfter (held : List HeldLock) (pre : List Event) (database table : String)
    (h : HeldLock.table database table ∈ pre.foldl heldAfter held) :
    HeldLock.table database table ∈ held ∨ Event.lockStructure database table ∈ pre := by
  induction pre generalizing held with
  | nil => exact Or.inl h
  | cons e es ih =>
    rcases ih (heldAfter held e) h with h1 | h1
    · rcases mem_heldAfter held e database table h1 with h2 | h2
      · exact Or.inl h2
      · exact Or.inr (h2 ▸ List.mem_cons_self _ _)
    · exact Or.inr (List.mem_cons_of_mem _ h1)

theorem mem_heldAfter_of_ne (held : List HeldLock) (e : Event) (database table : String)
    (h : HeldLock.table database table ∈ held)
    (hne : e ≠ Event.unlockStructure database table) :
    HeldLock.table database table ∈ heldAfter held e := by
  cases e with
  | lockContext => exact List.mem_append_left _ h
  | unlockContext => exact (List.mem_erase_of_ne (by simp)).mpr h
  | lockStructure d t => exact List.mem_append_left _ h
  | unlockStructure d t =>
    refine (List.mem_erase_of_ne ?_).mpr h
    intro hc
    simp only [HeldLock.table.injEq] at hc
    exact hne (by rw [hc.1, hc.2])
  | getDataParts d t r => exact h
  | getAllDataParts d t r => exact h
  | insertRow d t r n => exact h

/-- A table lock that is held and is not held after some more events was released by one
of them. -/
theorem unlock_mem_of_released (held : List HeldLock) (post : List Event)
    (database table : String) (h : HeldLock.table database table ∈ held)
    (hend : HeldLock.table database table ∉ post.foldl heldAfter held) :
    Event.unlockStructure database table ∈ post := by
  induction post generalizing held with
  | nil => exact absurd h hend
  | cons e es ih =>
    by_cases he : e = Event.unlockStructure database table
    · exact he ▸ List.mem_cons_self _ _
    · exact List.mem_cons_of_mem _
        (ih (heldAfter held e) (mem_heldAfter_of_ne held e database table h he) hend)

theorem allowed_length (held : List HeldLock) (e : Event) (h : e.allowed held = true) :
    held.length ≤ 1 := by
  cases e <;> simp only [Event.allowed, decide_eq_true_eq] at h <;> subst h <;> simp

theorem allowed_work_iff (held : List HeldLock) (e : Event) (database table : String)
    (he : e.workedTable = some (database, table)) (h : e.allowed held = true) :
    held = [HeldLock.table database table] := by
  cases e <;> simp [Event.workedTable] at he <;>
    (obtain ⟨h1, h2⟩ := he; subst h1; subst h2; simpa [Event.allowed] using h)

theorem eventsOfGroup_no_context (storages : Storages) (g : Group) (e : Event)
    (he : e ∈ eventsOfGroup storages g) :
    e ≠ Event.lockContext ∧ e ≠ Event.unlockContext := by
  rw [eventsOfGroup_eq] at he
  cases hl : storages.lookup (g.database, g.table) with
  | none => simp [hl] at he
  | some storage =>
    simp only [hl, List.mem_append, List.mem_singleton] at he
    rcases he with ((h | h) | h) | h
    · subst h
      exact ⟨by simp, by simp⟩
    · rcases mem_eventsFor storages g 0 e h with k | k | ⟨name, k⟩ <;> subst k <;>
        exact ⟨by simp, by simp⟩
    · rcases mem_eventsFor storages g 1 e h with k | k | ⟨name, k⟩ <;> subst k <;>
        exact ⟨by simp, by simp⟩
    · subst h
      exact ⟨by simp, by simp⟩

theorem tablesLoopEvents_eq (storages : Storages) (fuel : Nat) (rows : List FilteredRow)
    (hf : rows.length ≤ fuel) (rs : List ResultRow) (tr : List Event) :
    tablesLoopEvents storages fuel rows ⟨ResultColumns.ofRows rs, tr⟩ =
      tr ++ (completedGroups storages (groupsLoop fuel rows)).flatMap (eventsOfGroup storages) := by
  induction fuel generalizing rows rs tr with
  | zero =>
    cases rows with
    | nil => simp [tablesLoopEvents, groupsLoop, completedGroups]
    | cons row rest => simp at hf
  | succ fuel ih =>
    cases rows with
    | nil => simp [tablesLoopEvents, groupsLoop, completedGroups]
    | cons row rest =>
      have hlen := needLoop_length_lt row rest Need.empty
      have hf2 : (needLoop row.database row.table (row :: rest) Need.empty).2.length ≤ fuel := by
        simp at hf; omega
      simp only [tablesLoopEvents, groupsLoop, completedGroups]
      have := enumerateTable_eq storages
        ⟨row.database, row.table, (needLoop row.database row.table (row :: rest) Need.empty).1⟩ rs tr
      simp only at this
      rw [this]
      cases hl : storages.lookup (row.database, row.table) with
      | none => simp [List.takeWhile, Group.completes, hl]
      | some storage =>
        cases hd : storage.is_dropped with
        | true => simp [List.takeWhile, Group.completes, hl, hd]
        | false =>
          simp only [Bool.false_eq_true, if_false, ih _ hf2, List.takeWhile, Group.completes,
            hl, hd, Bool.not_false, List.flatMap_cons, eventsOfGroup, completedGroups,
            List.append_assoc]

theorem enumerateEvents_eq (storages : Storages) (kept : List CandidateRow)
    (trace : List Event) :
    enumerateEvents storages (Block.ofRows CandidateRow.schema kept) trace =
      trace ++ (completedGroups storages (groupsOf (kept.map CandidateRow.toFiltered))).flatMap
        (eventsOfGroup storages) := by
  unfold enumerateEvents
  simp only [getByName_ofRows, CandidateRow.schema, List.find?_cons, beq_self_eq_true, bind,
    Except.bind, String.reduceBEq, filteredRows_map, pure, Except.pure]
  exact tablesLoopEvents_eq storages _ _ (Nat.le_refl _) [] trace

/-- The events of `read` in closed form: the catalog lock and its release, then the events
of the groups whose turn completes. -/
theorem readEvents_eq (context : Context) (query : Query) :
    StorageSystemParts.readEvents context query =
      [Event.lockContext, Event.unlockContext] ++
        (completedGroups (storagesOf context query) (groupsFormed context query)).flatMap
          (eventsOfGroup (storagesOf context query)) := by
  unfold StorageSystemParts.readEvents
  rw [databaseBlock_eq]
  simp only [rows_ofRows databaseSchema (by simp [databaseSchema])]
  by_cases h1 : (survivingDatabases context query).length = 0
  · have h2 : groupsFormed context query = [] := by
      have : survivingDatabases context query = [] := List.length_eq_zero.mp h1
      simp [groupsFormed, survivingCandidates, this, candidateRows, groupsOf, groupsLoop]
    rw [if_pos h1, h2]
    rfl
  · rw [candidates_eq context _ (surviving_lookup context query), if_neg h1]
    simp only [filterBlockWithQuery_ofRows CandidateRow.schema (by simp [CandidateRow.schema]),
      rows_ofRows CandidateRow.schema (by simp [CandidateRow.schema])]
    by_cases h2 : (survivingCandidates context query).length = 0
    · have h3 : (List.filter (fun x => query (namedRow CandidateRow.schema x))
          (candidateRows context.databases (survivingDatabases context query))).length = 0 := h2
      have h4 : groupsFormed context query = [] := by
        have : survivingCandidates context query = [] := List.length_eq_zero.mp h2
        simp [groupsFormed, this, groupsOf, groupsLoop]
      rw [if_pos h3, h4]
      rfl
    · have h3 : ¬ (List.filter (fun x => query (namedRow CandidateRow.schema x))
          (candidateRows context.databases (survivingDatabases context query))).length = 0 := h2
      rw [if_neg h3, enumerateEvents_eq]
      rfl

theorem completedGroups_of_all (storages : Storages) (gs : List Group)
    (h : ∀ g ∈ gs, ∃ storage, storages.lookup (g.database, g.table) = some storage ∧
      storage.is_dropped = false) :
    completedGroups storages gs = gs := by
  unfold completedGroups
  rw [List.takeWhile_eq_self_iff]
  intro g hg
  obtain ⟨storage, h1, h2⟩ := h g hg
  simp [Group.completes, h1, h2]

/-- The trace of a completed read is the sequence of events of `read`. -/
theorem readEvents_ok (context : Context) (query : Query) (res : ReadResult)
    (h : StorageSystemParts.read context query = Except.ok res) :
    res.trace = StorageSystemParts.readEvents context query := by
  obtain ⟨_, h2, h3⟩ := read_ok context query res h
  rw [readEvents_eq, completedGroups_of_all _ _ h3, h2]

/-- The events of `read`, completed or aborted, keep the lock discipline and end with no
lock held. -/
theorem disciplined_readEvents (context : Context) (query : Query) :
    disciplined [] (StorageSystemParts.readEvents context query) = true ∧
      heldLocks (StorageSystemParts.readEvents context query) = [] := by
  have hf := disciplined_flatMap (storagesOf context query)
    (completedGroups (storagesOf context query) (groupsFormed context query))
  unfold heldLocks
  rw [readEvents_eq, disciplined_append, List.foldl_append]
  have e1 : disciplined [] [Event.lockContext, Event.unlockContext] = true := by decide
  have e2 : [Event.lockContext, Event.unlockContext].foldl heldAfter [] = [] := by decide
  rw [e1, e2, hf.1, hf.2]
  exact ⟨rfl, rfl⟩

/-! ## The properties -/

/-- C1: for a catalog whose map keys are distinct, a completed `read` returns, group
after group and flag 0 before flag 1, the rows emitted for each group and flag, and
every database and table with a candidate row left by the second filter is a group. For
every group and flag `r` whose matrix row has a bit set and whose dataset is present,
the returned rows of that database, table and `r` are exactly one row per part of `S`,
in the order of `S`, where `S` is the set of all parts when `need[r][0]` is set and the
active set otherwise; each row carries the database, table, engine name, part name, `r`,
marks, bytes, modification time and remove time as the column types store them (the
values themselves when they fit 64 bits, or 32 bits for the two times). In the example
of the spec exactly the rows of `p0` (active 0) and `p1` (active 1) are returned. -/
theorem C1_part_enumeration (context : Context) (query : Query) (res : ReadResult)
    (hwf : context.WellFormed)
    (h : StorageSystemParts.read context query = Except.ok res) :
    res.rows =
        ((groupsFormed context query).flatMap (fun g =>
          emittedFor (storagesOf context query) g 0 ++
            emittedFor (storagesOf context query) g 1)).map ResultRow.toRow ∧
      (∀ c ∈ survivingCandidates context query, ∃ g ∈ groupsFormed context query,
        c.database = Field.str g.database ∧ c.table = Field.str g.table) ∧
      (∀ g ∈ groupsFormed context query, ∀ (r : Nat) (storage : StoragePtr)
          (d : MergeTreeData), (r = 0 ∨ r = 1) →
        (storagesOf context query).lookup (g.database, g.table) = some storage →
        (g.need.get r 0 = true ∨ g.need.get r 1 = true) →
        dataAt (backingData storage) r = some d →
        res.rows.filter (Row.isFor g.database g.table r) =
          (if g.need.get r 0 then d.getAllDataParts else d.getDataParts).map (fun part =>
            [("name", Field.str part.name), ("replicated", Field.uint r),
             ("active", Field.uint (activeValue (g.need.get r 0) d.getDataParts part)),
             ("marks", Field.uint (part.size % 2 ^ 64)),
             ("bytes", Field.uint (part.size_in_bytes % 2 ^ 64)),
             ("modification_time", Field.uint (part.modification_time % 2 ^ 32)),
             ("remove_time", Field.uint (part.remove_time % 2 ^ 32)),
             ("refcount", Field.uint (refcountValue d.getDataParts part % 2 ^ 32).toNat),
             ("database", Field.str g.database), ("table", Field.str g.table),
             ("engine", Field.str storage.getName)]) ∧
        ((∀ part ∈ (if g.need.get r 0 then d.getAllDataParts else d.getDataParts),
            part.size < 2 ^ 64 ∧ part.size_in_bytes < 2 ^ 64 ∧
            part.modification_time < 2 ^ 32 ∧ part.remove_time < 2 ^ 32) →
          (res.rows.filter (Row.isFor g.database g.table r)).map (fun row =>
              (row.lookup "name", row.lookup "marks", row.lookup "bytes",
                row.lookup "modification_time", row.lookup "remove_time")) =
            (if g.need.get r 0 then d.getAllDataParts else d.getDataParts).map (fun part =>
              (some (Field.str part.name), some (Field.uint part.size),
                some (Field.uint part.size_in_bytes),
                some (Field.uint part.modification_time),
                some (Field.uint part.remove_time))))) ∧
      (StorageSystemParts.read Example.catalog Example.query).toOption.map ReadResult.rows =
        some
          [[("name", Field.str "p0"), ("replicated", Field.uint 0), ("active", Field.uint 0),
            ("marks", Field.uint 3), ("bytes", Field.uint 100),
            ("modification_time", Field.uint 1000), ("remove_time", Field.uint 2000),
            ("refcount", Field.uint 0), ("database", Field.str "default"),
            ("table", Field.str "t"), ("engine", Field.str "MergeTree")],
           [("name", Field.str "p1"), ("replicated", Field.uint 0), ("active", Field.uint 1),
            ("marks", Field.uint 5), ("bytes", Field.uint 200),
            ("modification_time", Field.uint 1500), ("remove_time", Field.uint 0),
            ("refcount", Field.uint 2), ("database", Field.str "default"),
            ("table", Field.str "t"), ("engine", Field.str "MergeTree")]] := by
  refine ⟨?_, ?_, ?_, by decide⟩
  · rw [(read_ok context query res h).1]
    congr 1
    apply List.flatMap_congr
    intro g _
    exact rowsOfGroup_eq _ g
  · intro c hc
    have hx : c.toFiltered ∈ (survivingCandidates context query).map CandidateRow.toFiltered :=
      List.mem_map.mpr ⟨c, hc, rfl⟩
    obtain ⟨g, hg, e1, e2⟩ := groupsLoop_cover _ _ (Nat.le_refl _) _ hx
    have hc1 : c ∈ candidateRows context.databases (survivingDatabases context query) :=
      (List.mem_filter.mp hc).1
    obtain ⟨n, _, t, _, hct⟩ := mem_candidateRows _ _ _ hc1
    obtain ⟨k1, k2, _⟩ := mem_fourRows _ _ _ hct
    refine ⟨g, hg, ?_, ?_⟩
    · rw [e1, k1]
      simp [CandidateRow.toFiltered, k1, Field.getString]
    · rw [e2, k2]
      simp [CandidateRow.toFiltered, k2, Field.getString]
  · intro g hg r storage d hr hl hn hd
    have hn2 : (g.need.get r 0 || g.need.get r 1) = true := by simpa using hn
    have hrows : emittedFor (storagesOf context query) g r =
        (traversedParts d (g.need.get r 0)).map
          (partRow g.database g.table storage.getName r (g.need.get r 0) d.data_parts) := by
      simp [emittedFor, hl, flagRows, hn2, hd]
    have hS : (if g.need.get r 0 then d.getAllDataParts else d.getDataParts) =
        traversedParts d (g.need.get r 0) := rfl
    have hr8 : r % 2 ^ 8 = r := by rcases hr with rfl | rfl <;> rfl
    have hmain : res.rows.filter (Row.isFor g.database g.table r) =
        (traversedParts d (g.need.get r 0)).map (fun part =>
          [("name", Field.str part.name), ("replicated", Field.uint r),
           ("active", Field.uint (activeValue (g.need.get r 0) d.getDataParts part)),
           ("marks", Field.uint (part.size % 2 ^ 64)),
           ("bytes", Field.uint (part.size_in_bytes % 2 ^ 64)),
           ("modification_time", Field.uint (part.modification_time % 2 ^ 32)),
           ("remove_time", Field.uint (part.remove_time % 2 ^ 32)),
           ("refcount", Field.uint (refcountValue d.getDataParts part % 2 ^ 32).toNat),
           ("database", Field.str g.database), ("table", Field.str g.table),
           ("engine", Field.str storage.getName)]) := by
      rw [rows_filter_isFor context query hwf res h g hg r hr, hrows, List.map_map]
      apply List.map_congr_left
      intro part _
      have ha8 : activeValue (g.need.get r 0) d.data_parts part % 2 ^ 8 =
          activeValue (g.need.get r 0) d.data_parts part := by
        unfold activeValue
        split <;> rfl
      simp only [Function.comp, ResultRow.toRow, partRow, hr8, ha8, MergeTreeData.getDataParts,
        List.cons.injEq, Prod.mk.injEq, Field.uint.injEq, true_and, and_true]
      refine ⟨?_, ?_⟩ <;> omega
    refine ⟨by rw [hS]; exact hmain, ?_⟩
    intro hfit
    rw [hS] at hfit ⊢
    rw [hmain, List.map_map]
    apply List.map_congr_left
    intro part hp
    obtain ⟨h1, h2, h3, h4⟩ := hfit part hp
    simp only [Function.comp, List.lookup, Nat.mod_eq_of_lt h1, Nat.mod_eq_of_lt h2,
      Nat.mod_eq_of_lt h3, Nat.mod_eq_of_lt h4]
    rfl

/-- C1 applied to the example of the spec. -/
theorem C1_part_enumeration_example :
    Example.catalog.WellFormed ∧
      ∃ res, StorageSystemParts.read Example.catalog Example.query = Except.ok res ∧
        res.rows =
          ((groupsFormed Example.catalog Example.query).flatMap (fun g =>
            emittedFor (storagesOf Example.catalog Example.query) g 0 ++
              emittedFor (storagesOf Example.catalog Example.query) g 1)).map
            ResultRow.toRow :=
  have hwf : Example.catalog.WellFormed := by
    unfold Context.WellFormed
    decide
  ⟨hwf, _, rfl, (C1_part_enumeration Example.catalog Example.query _ hwf rfl).1⟩

/-- C2: for every catalog (database names distinct, as the keys of a `std::map` are) and
every query, the expansion succeeds and the block handed to the second filter holds, for
each database that passed the first filter and each of its tables whose engine is Plain
or Replicated, in catalog order, the four rows with that database, table and engine name
and flags (0,0), (0,1), (1,0), (1,1); it holds no other row. -/
theorem C2_candidate_expansion (context : Context) (query : Query)
    (hwf : (context.databases.map Prod.fst).Nodup) :
    ∃ storages block,
      candidates context (databaseBlock context query) = Except.ok (storages, block) ∧
      block.rowList =
        (context.databases.filter (fun d => query [("database", Field.str d.1)])).flatMap
          (fun d =>
            (d.2.filter (fun t =>
                t.2.isStorageMergeTree || t.2.isStorageReplicatedMergeTree)).flatMap
              (fun t =>
                [[("database", Field.str d.1), ("table", Field.str t.1),
                  ("engine", Field.str t.2.getName), ("replicated", Field.uint 0),
                  ("active", Field.uint 0)],
                 [("database", Field.str d.1), ("table", Field.str t.1),
                  ("engine", Field.str t.2.getName), ("replicated", Field.uint 0),
                  ("active", Field.uint 1)],
                 [("database", Field.str d.1), ("table", Field.str t.1),
                  ("engine", Field.str t.2.getName), ("replicated", Field.uint 1),
                  ("active", Field.uint 0)],
                 [("database", Field.str d.1), ("table", Field.str t.1),
                  ("engine", Field.str t.2.getName), ("replicated", Field.uint 1),
                  ("active", Field.uint 1)]])) := by
  refine ⟨_, _, candidateBlock_eq context query, ?_⟩
  rw [rowList_ofRows _ (by simp [CandidateRow.schema]), survivingDatabases_eq]
  unfold candidateRows
  rw [List.flatMap_map, List.map_flatMap]
  apply List.flatMap_congr
  intro d hd
  rw [tablesOf_of_mem _ hwf d (List.mem_filter.mp hd).1, List.map_flatMap]
  rfl

/-- C2 applied to the example of the spec. -/
theorem C2_candidate_expansion_example :
    (Example.catalog.databases.map Prod.fst).Nodup ∧
      ∃ storages block,
        candidates Example.catalog (databaseBlock Example.catalog Example.query) =
          Except.ok (storages, block) ∧
        block.rowList =
          [[("database", Field.str "default"), ("table", Field.str "t"),
            ("engine", Field.str "MergeTree"), ("replicated", Field.uint 0),
            ("active", Field.uint 0)],
           [("database", Field.str "default"), ("table", Field.str "t"),
            ("engine", Field.str "MergeTree"), ("replicated", Field.uint 0),
            ("active", Field.uint 1)],
           [("database", Field.str "default"), ("table", Field.str "t"),
            ("engine", Field.str "MergeTree"), ("replicated", Field.uint 1),
            ("active", Field.uint 0)],
           [("database", Field.str "default"), ("table", Field.str "t"),
            ("engine", Field.str "MergeTree"), ("replicated", Field.uint 1),
            ("active", Field.uint 1)]] :=
  ⟨by decide, C2_candidate_expansion Example.catalog Example.query (by decide)⟩

/-- C3: when no database passes the first filter, or the query is false for every row of
the candidate block, `read` completes with no stream and no row and acquires no
structural lock: its only events are taking and releasing the catalog mutex. -/
theorem C3_empty_result_no_lock (context : Context) (query : Query)
    (hq : (databaseBlock context query).rows = 0 ∨
      ∀ storages block,
        candidates context (databaseBlock context query) = Except.ok (storages, block) →
        ∀ row ∈ block.rowList, query row = false) :
    ∃ res, StorageSystemParts.read context query = Except.ok res ∧
      res.streams = [] ∧ res.rows = [] ∧
      res.trace = [Event.lockContext, Event.unlockContext] ∧
      lockStructureCount res.trace = 0 := by
  have hk : (survivingCandidates context query).length = 0 := by
    rcases hq with h0 | hq
    · rw [databaseBlock_eq, rows_ofRows _ (by simp [databaseSchema])] at h0
      have : survivingDatabases context query = [] := List.length_eq_zero.mp h0
      simp [survivingCandidates, this, candidateRows]
    · have h1 := hq _ _ (candidateBlock_eq context query)
      rw [rowList_ofRows _ (by simp [CandidateRow.schema])] at h1
      rw [List.length_eq_zero]
      unfold survivingCandidates
      rw [List.filter_eq_nil_iff]
      intro c hc
      have := h1 (namedRow CandidateRow.schema c) (List.mem_map.mpr ⟨c, hc, rfl⟩)
      simp [CandidateRow.toRow, this]
  refine ⟨⟨[], [Event.lockContext, Event.unlockContext]⟩, ?_, rfl, rfl, rfl, rfl⟩
  rw [read_eq, if_pos hk]

/-- C3 applied to the example catalog and a query that no candidate row satisfies. -/
theorem C3_empty_result_no_lock_example :
    (∀ storages block,
      candidates Example.catalog (databaseBlock Example.catalog Example.queryNowhere) =
        Except.ok (storages, block) →
      ∀ row ∈ block.rowList, Example.queryNowhere row = false) ∧
      ∃ res, StorageSystemParts.read Example.catalog Example.queryNowhere = Except.ok res ∧
        res.streams = [] ∧ res.rows = [] ∧
        res.trace = [Event.lockContext, Event.unlockContext] ∧
        lockStructureCount res.trace = 0 :=
  have hq : ∀ storages block,
      candidates Example.catalog (databaseBlock Example.catalog Example.queryNowhere) =
        Except.ok (storages, block) →
      ∀ row ∈ block.rowList, Example.queryNowhere row = false := by
    intro storages block hcb
    have h2 := (candidateBlock_eq Example.catalog Example.queryNowhere).symm.trans hcb
    cases h2
    decide
  ⟨hq, C3_empty_result_no_lock Example.catalog Example.queryNowhere (Or.inr hq)⟩

/-- C4: in a catalog whose map keys are distinct, a table whose engine is neither Plain
nor Replicated has no row in the candidate block and no entry in `storages`, so that the
one place that locks, the body of the grouping loop, would raise on the lookup before
`lockStructure` if it were asked for that table; a completed `read` has no
`lockStructure` event and no row for it; and `read` does exactly what it does on the
catalog without that table, so the table never makes it fail. -/
theorem C4_unsupported_engine (context : Context) (query : Query) (hwf : context.WellFormed)
    (d : String) (tables : Tables) (t : String) (storage : StoragePtr)
    (hd : (d, tables) ∈ context.databases) (ht : (t, storage) ∈ tables)
    (hs : storage.isStorageMergeTree = false ∧ storage.isStorageReplicatedMergeTree = false) :
    (∃ storages block,
      candidates context (databaseBlock context query) = Except.ok (storages, block) ∧
      (∀ row ∈ block.rowList,
        ¬ (row.lookup "database" = some (Field.str d) ∧
          row.lookup "table" = some (Field.str t))) ∧
      storages.lookup (d, t) = none ∧
      ∀ need st, enumerateTable storages d t need st = Except.error Exception.out_of_range) ∧
    (∀ res, StorageSystemParts.read context query = Except.ok res →
      Event.lockStructure d t ∉ res.trace ∧
      ∀ row ∈ res.rows,
        ¬ (row.lookup "database" = some (Field.str d) ∧
          row.lookup "table" = some (Field.str t))) ∧
    StorageSystemParts.read context query =
      StorageSystemParts.read (context.eraseTable d t) query := by
  have hsup : storage.isSupported = false := by simp [IStorage.isSupported, hs.1, hs.2]
  have hu := no_supported_of_unsupported context hwf d tables t storage hd ht hsup
  have hnone := storagesOf_unsupported context query d t hu
  have hraise : ∀ need st, enumerateTable (storagesOf context query) d t need st =
      Except.error Exception.out_of_range := by
    intro need st
    simp [enumerateTable, Storages.atKey, hnone, bind, Except.bind]
  refine ⟨⟨_, _, candidateBlock_eq context query, ?_, hnone, hraise⟩, ?_,
    (read_eraseTable context query d t hu).symm⟩
  · rw [rowList_ofRows _ (by simp [CandidateRow.schema])]
    intro row hrow hrow2
    obtain ⟨c, hc, rfl⟩ := List.mem_map.mp hrow
    obtain ⟨n, _, tb, htb, hctb⟩ := mem_candidateRows _ _ _ hc
    obtain ⟨h1, h2, _⟩ := mem_fourRows _ _ _ hctb
    have e1 := candidate_lookup_database c
    have e2 := candidate_lookup_table c
    unfold CandidateRow.toRow at e1 e2
    rw [e1, h1] at hrow2
    rw [e2, h2] at hrow2
    simp only [Option.some.injEq, Field.str.injEq] at hrow2
    obtain ⟨rfl, h4⟩ := hrow2
    have h5 := List.mem_filter.mp htb
    have := hu tb h5.1 h4
    simp [this] at h5
  · intro res hres
    obtain ⟨_, h2, _⟩ := read_ok context query res hres
    refine ⟨?_, ?_⟩
    · intro hmem
      rw [h2] at hmem
      simp only [List.mem_append, List.mem_cons, List.mem_singleton, List.not_mem_nil,
        or_false, List.mem_flatMap] at hmem
      rcases hmem with (h | h) | ⟨g, _, hg⟩
      · cases h
      · cases h
      · unfold eventsOfGroup at hg
        cases hl : (storagesOf context query).lookup (g.database, g.table) with
        | none => simp [hl] at hg
        | some s =>
          rw [hl] at hg
          obtain ⟨e1, e2⟩ := mem_tableEvents_lock s g d t hg
          rw [e1, e2, hnone] at hl
          cases hl
    · intro row hrow hrow2
      obtain ⟨g, _, s, r, ds, part, hl, _, _, _, _, rfl⟩ :=
        row_provenance context query res hres row hrow
      rw [toRow_lookup_database, toRow_lookup_table] at hrow2
      simp only [partRow, Option.some.injEq, Field.str.injEq] at hrow2
      rw [hrow2.1, hrow2.2, hnone] at hl
      cases hl

/-- C4 applied to the table `log` of the example catalog, under the query that keeps
every row. -/
theorem C4_unsupported_engine_example :
    Example.catalogWithLog.WellFormed ∧
      (∃ storages block,
        candidates Example.catalogWithLog (databaseBlock Example.catalogWithLog Example.queryAll) =
          Except.ok (storages, block) ∧
        (∀ row ∈ block.rowList,
          ¬ (row.lookup "database" = some (Field.str "default") ∧
            row.lookup "table" = some (Field.str "log"))) ∧
        storages.lookup ("default", "log") = none ∧
        ∀ need st,
          enumerateTable storages "default" "log" need st =
            Except.error Exception.out_of_range) ∧
      (∀ res, StorageSystemParts.read Example.catalogWithLog Example.queryAll = Except.ok res →
        Event.lockStructure "default" "log" ∉ res.trace ∧
        ∀ row ∈ res.rows,
          ¬ (row.lookup "database" = some (Field.str "default") ∧
            row.lookup "table" = some (Field.str "log"))) ∧
      StorageSystemParts.read Example.catalogWithLog Example.queryAll =
        StorageSystemParts.read (Example.catalogWithLog.eraseTable "default" "log")
          Example.queryAll :=
  have hwf : Example.catalogWithLog.WellFormed := by
    unfold Context.WellFormed
    decide
  ⟨hwf, C4_unsupported_engine Example.catalogWithLog Example.queryAll hwf "default" _ "log"
    { name := "Log", is_dropped := true, impl := StorageImpl.Other }
    (List.mem_cons_self _ _) (List.mem_cons_self _ _) ⟨rfl, rfl⟩⟩

/-- C5: every row of a completed `read` is the row of a part of a dataset of its table,
and its refcount cell is the raw ownership count of the part minus 2 when the fetched
active set contains the part and minus 1 otherwise, narrowed to 32 bits. Hence, when the
raw count is the number of external holders plus the local handles (one, and one more
when the part is active), the subtraction does not go below zero and the cell holds the
number of external holders (as a 32 bit value). In the example, raw counts 2 and 3 of
parts in both sets are reported as 0 and 1. -/
theorem C5_refcount (context : Context) (query : Query) (res : ReadResult)
    (h : StorageSystemParts.read context query = Except.ok res) (row : Row)
    (hrow : row ∈ res.rows) :
    (∃ (database table : String) (storage : StoragePtr) (r : Nat) (d : MergeTreeData)
        (part : DataPartPtr),
      row.lookup "database" = some (Field.str database) ∧
      row.lookup "table" = some (Field.str table) ∧
      row.lookup "replicated" = some (Field.uint r) ∧
      row.lookup "name" = some (Field.str part.name) ∧
      (storagesOf context query).lookup (database, table) = some storage ∧
      dataAt (backingData storage) r = some d ∧
      (part ∈ d.getDataParts ∨ part ∈ d.getAllDataParts) ∧
      row.lookup "refcount" =
        some (Field.uint
          (((part.use_count : Int) - (if d.getDataParts.count part ≠ 0 then 2 else 1)) %
            2 ^ 32).toNat) ∧
      ∀ ext : Nat,
        part.use_count = ext + 1 + (if d.getDataParts.count part ≠ 0 then 1 else 0) →
        (0 : Int) ≤ (part.use_count : Int) - (if d.getDataParts.count part ≠ 0 then 2 else 1) ∧
        row.lookup "refcount" = some (Field.uint (ext % 2 ^ 32)) ∧
        (ext < 2 ^ 32 → row.lookup "refcount" = some (Field.uint ext))) ∧
    (StorageSystemParts.read Example.catalogRefcount Example.queryAll).toOption.map
        (fun res => res.rows.map (fun row => (row.lookup "name", row.lookup "refcount"))) =
      some [(some (Field.str "q2"), some (Field.uint 0)),
        (some (Field.str "q3"), some (Field.uint 1))] := by
  refine ⟨?_, by decide⟩
  obtain ⟨g, _, storage, r, d, part, hl, hr, _, hd, hp, rfl⟩ :=
    row_provenance context query res h row hrow
  have hr8 : r % 2 ^ 8 = r := by rcases hr with rfl | rfl <;> rfl
  have hcell : (partRow g.database g.table storage.getName r (g.need.get r 0) d.data_parts
      part).refcount =
      Field.uint (((part.use_count : Int) -
        (if d.getDataParts.count part ≠ 0 then 2 else 1)) % 2 ^ 32).toNat := by
    simp [partRow, refcountValue, MergeTreeData.getDataParts]
  refine ⟨g.database, g.table, storage, r, d, part, ?_, ?_, ?_, ?_, hl, hd, ?_, ?_, ?_⟩
  · rw [toRow_lookup_database]; rfl
  · rw [toRow_lookup_table]; rfl
  · rw [toRow_lookup_replicated]
    show some (Field.uint (r % 2 ^ 8)) = _
    rw [hr8]
  · rw [toRow_lookup_name]; rfl
  · unfold traversedParts at hp
    split at hp
    · exact Or.inr hp
    · exact Or.inl hp
  · rw [toRow_lookup_refcount, hcell]
  · intro ext hext
    rw [toRow_lookup_refcount, hcell]
    by_cases hc : d.getDataParts.count part ≠ 0
    · simp only [if_pos hc] at hext ⊢
      have e : (part.use_count : Int) - 2 = (ext : Int) := by omega
      rw [e, toNat_emod_cast]
      exact ⟨by omega, rfl, fun hlt => by rw [Nat.mod_eq_of_lt hlt]⟩
    · simp only [if_neg hc] at hext ⊢
      have e : (part.use_count : Int) - 1 = (ext : Int) := by omega
      rw [e, toNat_emod_cast]
      exact ⟨by omega, rfl, fun hlt => by rw [Nat.mod_eq_of_lt hlt]⟩

/-- C5 applied to the first row of the refcount example. -/
theorem C5_refcount_example :
    ∃ res row, StorageSystemParts.read Example.catalogRefcount Example.queryAll = Except.ok res ∧
      row ∈ res.rows ∧
      ∃ (database table : String) (storage : StoragePtr) (r : Nat) (d : MergeTreeData)
          (part : DataPartPtr),
        row.lookup "database" = some (Field.str database) ∧
        row.lookup "table" = some (Field.str table) ∧
        row.lookup "replicated" = some (Field.uint r) ∧
        row.lookup "name" = some (Field.str part.name) ∧
        (storagesOf Example.catalogRefcount Example.queryAll).lookup (database, table) =
          some storage ∧
        dataAt (backingData storage) r = some d ∧
        (part ∈ d.getDataParts ∨ part ∈ d.getAllDataParts) ∧
        row.lookup "refcount" =
          some (Field.uint
            (((part.use_count : Int) - (if d.getDataParts.count part ≠ 0 then 2 else 1)) %
              2 ^ 32).toNat) ∧
        ∀ ext : Nat,
          part.use_count = ext + 1 + (if d.getDataParts.count part ≠ 0 then 1 else 0) →
          (0 : Int) ≤
            (part.use_count : Int) - (if d.getDataParts.count part ≠ 0 then 2 else 1) ∧
          row.lookup "refcount" = some (Field.uint (ext % 2 ^ 32)) ∧
          (ext < 2 ^ 32 → row.lookup "refcount" = some (Field.uint ext)) :=
  ⟨_, _, rfl, List.mem_cons_self _ _,
    (C5_refcount Example.catalogRefcount Example.queryAll _ rfl _ (List.mem_cons_self _ _)).1⟩

/-- C6: every row of a completed `read` is the row of a part of a dataset of its table,
and its active cell is 1 exactly when the fetched active set contains the part (a part
of that name is in it), and 0 otherwise; this holds both when all parts were fetched
and when the active set itself was traversed, where the part is in the active set and
the cell is 1. -/
theorem C6_active_flag (context : Context) (query : Query) (res : ReadResult)
    (h : StorageSystemParts.read context query = Except.ok res) (row : Row)
    (hrow : row ∈ res.rows) :
    ∃ g ∈ groupsFormed context query,
      ∃ (storage : StoragePtr) (r : Nat) (d : MergeTreeData) (part : DataPartPtr),
      row.lookup "database" = some (Field.str g.database) ∧
      row.lookup "table" = some (Field.str g.table) ∧
      row.lookup "replicated" = some (Field.uint r) ∧
      row.lookup "name" = some (Field.str part.name) ∧
      (storagesOf context query).lookup (g.database, g.table) = some storage ∧
      dataAt (backingData storage) r = some d ∧
      part ∈ (if g.need.get r 0 then d.getAllDataParts else d.getDataParts) ∧
      (row.lookup "active" = some (Field.uint 1) ∨ row.lookup "active" = some (Field.uint 0)) ∧
      (row.lookup "active" = some (Field.uint 1) ↔ d.getDataParts.count part ≠ 0) ∧
      (d.getDataParts.count part ≠ 0 ↔ ∃ p ∈ d.getDataParts, p.name = part.name) ∧
      (g.need.get r 0 = false →
        part ∈ d.getDataParts ∧ row.lookup "active" = some (Field.uint 1)) := by
  obtain ⟨g, hg, storage, r, d, part, hl, hr, _, hd, hp, rfl⟩ :=
    row_provenance context query res h row hrow
  have hr8 : r % 2 ^ 8 = r := by rcases hr with rfl | rfl <;> rfl
  have hcount : g.need.get r 0 = false → d.getDataParts.count part ≠ 0 := by
    intro hn
    rw [hn] at hp
    exact count_ne_zero_of_mem _ _ hp
  have hcell : (partRow g.database g.table storage.getName r (g.need.get r 0) d.data_parts
      part).active = Field.uint (if d.getDataParts.count part ≠ 0 then 1 else 0) := by
    cases hn : g.need.get r 0 with
    | false =>
      have := hcount hn
      simp [partRow, activeValue, this]
    | true =>
      by_cases hc : d.getDataParts.count part ≠ 0
      · have hc2 : d.data_parts.count part ≠ 0 := hc
        simp [partRow, activeValue, hc, hc2]
      · have hc2 : ¬ d.data_parts.count part ≠ 0 := hc
        simp only [ne_eq, not_not] at hc2
        simp [partRow, activeValue, hc, hc2]
  refine ⟨g, hg, storage, r, d, part, ?_, ?_, ?_, ?_, hl, hd, hp, ?_, ?_,
    count_ne_zero_iff _ _, ?_⟩
  · rw [toRow_lookup_database]; rfl
  · rw [toRow_lookup_table]; rfl
  · rw [toRow_lookup_replicated]
    show some (Field.uint (r % 2 ^ 8)) = _
    rw [hr8]
  · rw [toRow_lookup_name]; rfl
  · rw [toRow_lookup_active, hcell]
    by_cases hc : d.getDataParts.count part ≠ 0
    · left; rw [if_pos hc]
    · right; rw [if_neg hc]
  · rw [toRow_lookup_active, hcell]
    by_cases hc : d.getDataParts.count part ≠ 0
    · rw [if_pos hc]; exact ⟨fun _ => hc, fun _ => rfl⟩
    · rw [if_neg hc]
      constructor
      · intro h1
        simp at h1
      · intro h1
        exact absurd h1 hc
  · intro hn
    refine ⟨?_, ?_⟩
    · rw [hn] at hp
      exact hp
    · rw [toRow_lookup_active, hcell, if_pos (hcount hn)]

/-- C6 applied to the first row of the example of the spec. -/
theorem C6_active_flag_example :
    ∃ res row, StorageSystemParts.read Example.catalog Example.query = Except.ok res ∧
      row ∈ res.rows ∧
      ∃ g ∈ groupsFormed Example.catalog Example.query,
        ∃ (storage : StoragePtr) (r : Nat) (d : MergeTreeData) (part : DataPartPtr),
        row.lookup "database" = some (Field.str g.database) ∧
        row.lookup "table" = some (Field.str g.table) ∧
        row.lookup "replicated" = some (Field.uint r) ∧
        row.lookup "name" = some (Field.str part.name) ∧
        (storagesOf Example.catalog Example.query).lookup (g.database, g.table) =
          some storage ∧
        dataAt (backingData storage) r = some d ∧
        part ∈ (if g.need.get r 0 then d.getAllDataParts else d.getDataParts) ∧
        (row.lookup "active" = some (Field.uint 1) ∨
          row.lookup "active" = some (Field.uint 0)) ∧
        (row.lookup "active" = some (Field.uint 1) ↔ d.getDataParts.count part ≠ 0) ∧
        (d.getDataParts.count part ≠ 0 ↔ ∃ p ∈ d.getDataParts, p.name = part.name) ∧
        (g.need.get r 0 = false →
          part ∈ d.getDataParts ∧ row.lookup "active" = some (Field.uint 1)) :=
  ⟨_, _, rfl, List.mem_cons_self _ _,
    C6_active_flag Example.catalog Example.query _ rfl _ (List.mem_cons_self _ _)⟩

/-- C7: for a catalog whose map keys are distinct, the trace of a completed `read` is,
group after group, the lock, the events of flag 0, the events of flag 1 and the unlock.
For every group and flag `r`, all parts of the dataset are fetched (`getAllDataParts`)
once in the whole read when the dataset is present and `need[r][0]` is set, and never
otherwise. When `need[r][1]` is set and `need[r][0]` is not, all parts are never
fetched, the active set is fetched exactly once, and the returned rows of that table and
flag are the parts of the active set in order, each with active 1. -/
theorem C7_all_parts_fetch (context : Context) (query : Query) (res : ReadResult)
    (hwf : context.WellFormed)
    (h : StorageSystemParts.read context query = Except.ok res) :
    res.trace = [Event.lockContext, Event.unlockContext] ++
        (groupsFormed context query).flatMap (fun g =>
          [Event.lockStructure g.database g.table] ++
            eventsFor (storagesOf context query) g 0 ++
            eventsFor (storagesOf context query) g 1 ++
            [Event.unlockStructure g.database g.table]) ∧
      ∀ g ∈ groupsFormed context query, ∀ (r : Nat) (storage : StoragePtr), (r = 0 ∨ r = 1) →
        (storagesOf context query).lookup (g.database, g.table) = some storage →
        (res.trace.count (Event.getAllDataParts g.database g.table r) =
          if (dataAt (backingData storage) r).isSome ∧ g.need.get r 0 = true then 1 else 0) ∧
        ∀ d, dataAt (backingData storage) r = some d →
          g.need.get r 1 = true → g.need.get r 0 = false →
          res.trace.count (Event.getAllDataParts g.database g.table r) = 0 ∧
            res.trace.count (Event.getDataParts g.database g.table r) = 1 ∧
            (res.rows.filter (Row.isFor g.database g.table r)).map
                (fun row => (row.lookup "name", row.lookup "active")) =
              d.getDataParts.map (fun part =>
                (some (Field.str part.name), some (Field.uint 1))) := by
  obtain ⟨_, h2, h3⟩ := read_ok context query res h
  refine ⟨?_, ?_⟩
  · rw [h2]
    congr 1
    apply List.flatMap_congr
    intro g hg
    obtain ⟨s, hs, _⟩ := h3 g hg
    rw [eventsOfGroup_eq, hs]
  · intro g hg r storage hr hl
    have hcountI : ∀ (parts : DataParts) (e : Event),
        (∀ name, e ≠ Event.insertRow g.database g.table r name) →
        (parts.map (fun part => Event.insertRow g.database g.table r part.name)).count e = 0 := by
      intro parts e he
      rw [List.count_eq_zero]
      intro hmem
      obtain ⟨p, _, hpe⟩ := List.mem_map.mp hmem
      exact he _ hpe.symm
    have hA := fun parts => hcountI parts (Event.getAllDataParts g.database g.table r)
      (fun _ hh => by cases hh)
    have hD := fun parts => hcountI parts (Event.getDataParts g.database g.table r)
      (fun _ hh => by cases hh)
    rw [trace_count_fetch context query hwf res h g hg r hr _ (Or.inr rfl),
      trace_count_fetch context query hwf res h g hg r hr _ (Or.inl rfl)]
    refine ⟨?_, ?_⟩
    · unfold eventsFor flagEvents
      rw [hl]
      cases h0 : g.need.get r 0 <;> cases h1 : g.need.get r 1 <;>
        cases hd : dataAt (backingData storage) r <;>
        simp [h0, h1, hd, List.count_cons, List.count_append, hA]
    · intro d hd h1 h0
      refine ⟨?_, ?_, ?_⟩
      · unfold eventsFor flagEvents
        rw [hl]
        simp [h0, h1, hd, List.count_cons, List.count_append, hA]
      · unfold eventsFor flagEvents
        rw [hl]
        simp [h0, h1, hd, List.count_cons, List.count_append, hD]
      · rw [rows_filter_isFor context query hwf res h g hg r hr]
        unfold emittedFor flagRows
        rw [hl]
        simp only [h0, h1, Bool.or_true, if_true, hd, traversedParts, Bool.false_eq_true,
          if_false, List.map_map, MergeTreeData.getDataParts]
        apply List.map_congr_left
        intro part hp
        have := count_ne_zero_of_mem _ _ hp
        simp only [Function.comp, toRow_lookup_name, toRow_lookup_active]
        simp [partRow, activeValue]

/-- C7 applied to the example catalog under the predicate `active = 1`. -/
theorem C7_all_parts_fetch_example :
    Example.catalog.WellFormed ∧
    ∃ res, StorageSystemParts.read Example.catalog Example.queryActive = Except.ok res ∧
      res.trace = [Event.lockContext, Event.unlockContext, Event.lockStructure "default" "t",
        Event.getDataParts "default" "t" 0, Event.insertRow "default" "t" 0 "p1",
        Event.unlockStructure "default" "t"] ∧
      res.trace = [Event.lockContext, Event.unlockContext] ++
        (groupsFormed Example.catalog Example.queryActive).flatMap (fun g =>
          [Event.lockStructure g.database g.table] ++
            eventsFor (storagesOf Example.catalog Example.queryActive) g 0 ++
            eventsFor (storagesOf Example.catalog Example.queryActive) g 1 ++
            [Event.unlockStructure g.database g.table]) :=
  have hwf : Example.catalog.WellFormed := by
    unfold Context.WellFormed
    decide
  ⟨hwf, _, rfl, rfl, (C7_all_parts_fetch Example.catalog Example.queryActive _ hwf rfl).1⟩

/-- C8: when the storage recorded for a database and table has no dataset for the flag
`r`, a completed `read` returns no row with that database, table and `replicated = r`,
whatever the matrix says. A Plain table has no dataset for flag 1, and a Replicated
table without an unreplicated dataset has none for flag 0; in the example such a
Replicated table under the predicate `replicated = 0` yields no row although its
replicated dataset holds parts, which `read` returns when every row is asked for. -/
theorem C8_absent_dataset (context : Context) (query : Query) (res : ReadResult)
    (h : StorageSystemParts.read context query = Except.ok res) (database table : String)
    (storage : StoragePtr) (r : Nat)
    (hl : (storagesOf context query).lookup (database, table) = some storage)
    (hd : dataAt (backingData storage) r = none) :
    (∀ row ∈ res.rows,
      ¬ (row.lookup "database" = some (Field.str database) ∧
        row.lookup "table" = some (Field.str table) ∧
        row.lookup "replicated" = some (Field.uint r))) ∧
    (∀ (name : String) (dropped : Bool) (data : MergeTreeData),
      dataAt (backingData ⟨name, dropped, StorageImpl.StorageMergeTree data⟩) 1 = none) ∧
    (∀ (name : String) (dropped : Bool) (data : MergeTreeData),
      dataAt (backingData ⟨name, dropped, StorageImpl.StorageReplicatedMergeTree data none⟩) 0 =
        none) ∧
    (StorageSystemParts.read Example.catalogReplicated Example.queryUnreplicated).toOption.map
        ReadResult.rows = some [] ∧
    (StorageSystemParts.read Example.catalogReplicated Example.queryAll).toOption.map
        (fun res => res.rows.map (fun row =>
          (row.lookup "table", row.lookup "name", row.lookup "replicated"))) =
      some [(some (Field.str "r"), some (Field.str "p0"), some (Field.uint 1)),
        (some (Field.str "r"), some (Field.str "p1"), some (Field.uint 1))] := by
  refine ⟨?_, fun _ _ _ => rfl, fun _ _ _ => rfl, by decide, by decide⟩
  intro row hrow hrow2
  obtain ⟨g, _, s, r2, ds, part, hl2, hr2, _, hd2, _, rfl⟩ :=
    row_provenance context query res h row hrow
  rw [toRow_lookup_database, toRow_lookup_table, toRow_lookup_replicated] at hrow2
  have hr8 : r2 % 2 ^ 8 = r2 := by rcases hr2 with rfl | rfl <;> rfl
  simp only [partRow, Option.some.injEq, Field.str.injEq, Field.uint.injEq, hr8] at hrow2
  obtain ⟨e1, e2, e3⟩ := hrow2
  rw [e1, e2, hl] at hl2
  cases hl2
  rw [e3, hd] at hd2
  cases hd2

/-- C8 applied to the Replicated table of the example, flag 0. -/
theorem C8_absent_dataset_example :
    ∃ res storage,
      StorageSystemParts.read Example.catalogReplicated Example.queryAll = Except.ok res ∧
      (storagesOf Example.catalogReplicated Example.queryAll).lookup ("default", "r") =
        some storage ∧
      dataAt (backingData storage) 0 = none ∧
      ∀ row ∈ res.rows,
        ¬ (row.lookup "database" = some (Field.str "default") ∧
          row.lookup "table" = some (Field.str "r") ∧
          row.lookup "replicated" = some (Field.uint 0)) :=
  ⟨_, _, rfl, rfl, rfl,
    (C8_absent_dataset Example.catalogReplicated Example.queryAll _ rfl "default" "r" _ 0 rfl
      rfl).1⟩

/-- C9, as stated, fails: under the predicate `active = 0` the example returns the row
of the active part `p1` with flags (replicated 0, active 1), while the matrix of its
group has `need[0][1]` unset and no candidate row with those flags passed the filter. -/
theorem C9_counterexample :
    ∃ res, StorageSystemParts.read Example.catalog Example.queryInactive = Except.ok res ∧
      (∃ row ∈ res.rows,
        row.lookup "database" = some (Field.str "default") ∧
        row.lookup "table" = some (Field.str "t") ∧
        row.lookup "name" = some (Field.str "p1") ∧
        row.lookup "replicated" = some (Field.uint 0) ∧
        row.lookup "active" = some (Field.uint 1)) ∧
      (∀ g ∈ groupsFormed Example.catalog Example.queryInactive, g.need.get 0 1 = false) ∧
      ∀ c ∈ survivingCandidates Example.catalog Example.queryInactive,
        ¬ (c.replicated = Field.uint 0 ∧ c.active = Field.uint 1) := by
  refine ⟨_, rfl, ?_, by decide, by decide⟩
  decide

/-- C9, amended: every row of a completed `read`, with flags `r` and `a`, belongs to a
group whose matrix has `need[r][a]` set, or has `a = 1` and `need[r][0]` set (an active
part listed because all parts were asked for); so the candidate row with the row's
database, table and `r` passed the second filter with active `a` or with active 0. -/
theorem C9_required_combinations (context : Context) (query : Query) (res : ReadResult)
    (h : StorageSystemParts.read context query = Except.ok res) (row : Row)
    (hrow : row ∈ res.rows) :
    ∃ g ∈ groupsFormed context query, ∃ r a : Nat,
      row.lookup "database" = some (Field.str g.database) ∧
      row.lookup "table" = some (Field.str g.table) ∧
      row.lookup "replicated" = some (Field.uint r) ∧
      row.lookup "active" = some (Field.uint a) ∧
      (g.need.get r a = true ∨ (a = 1 ∧ g.need.get r 0 = true)) ∧
      ∃ c ∈ survivingCandidates context query,
        c.database = Field.str g.database ∧ c.table = Field.str g.table ∧
        c.replicated = Field.uint r ∧ (c.active = Field.uint a ∨ c.active = Field.uint 0) := by
  obtain ⟨g, hg, storage, r, d, part, _, hr, hn, _, hp, rfl⟩ :=
    row_provenance context query res h row hrow
  have hr8 : r % 2 ^ 8 = r := by rcases hr with rfl | rfl <;> rfl
  have hneed : g.need.get r (activeValue (g.need.get r 0) d.data_parts part) = true ∨
      (activeValue (g.need.get r 0) d.data_parts part = 1 ∧ g.need.get r 0 = true) := by
    cases h0 : g.need.get r 0 with
    | false =>
      left
      rw [h0] at hn
      simpa [activeValue] using hn
    | true =>
      by_cases hc : d.data_parts.count part != 0
      · right
        simp [activeValue, hc]
      · left
        simp [activeValue, hc, h0]
  have ha8 : activeValue (g.need.get r 0) d.data_parts part % 2 ^ 8 =
      activeValue (g.need.get r 0) d.data_parts part := by
    unfold activeValue
    split <;> rfl
  refine ⟨g, hg, r, activeValue (g.need.get r 0) d.data_parts part, ?_, ?_, ?_, ?_, hneed, ?_⟩
  · rw [toRow_lookup_database]; rfl
  · rw [toRow_lookup_table]; rfl
  · rw [toRow_lookup_replicated]
    show some (Field.uint (r % 2 ^ 8)) = _
    rw [hr8]
  · rw [toRow_lookup_active]
    show some (Field.uint (activeValue (g.need.get r 0) d.data_parts part % 2 ^ 8)) = _
    rw [ha8]
  · rcases hneed with h1 | ⟨_, h1⟩
    · obtain ⟨c, hc, e1, e2, e3, e4⟩ := need_get_candidate context query g hg _ _ h1
      exact ⟨c, hc, e1, e2, e3, Or.inl e4⟩
    · obtain ⟨c, hc, e1, e2, e3, e4⟩ := need_get_candidate context query g hg _ _ h1
      exact ⟨c, hc, e1, e2, e3, Or.inr e4⟩

/-- C9 amended, applied to the second row of the counterexample. -/
theorem C9_required_combinations_example :
    ∃ res row, StorageSystemParts.read Example.catalog Example.queryInactive = Except.ok res ∧
      row ∈ res.rows ∧ row.lookup "name" = some (Field.str "p1") ∧
      ∃ g ∈ groupsFormed Example.catalog Example.queryInactive, ∃ r a : Nat,
        row.lookup "database" = some (Field.str g.database) ∧
        row.lookup "table" = some (Field.str g.table) ∧
        row.lookup "replicated" = some (Field.uint r) ∧
        row.lookup "active" = some (Field.uint a) ∧
        (g.need.get r a = true ∨ (a = 1 ∧ g.need.get r 0 = true)) ∧
        ∃ c ∈ survivingCandidates Example.catalog Example.queryInactive,
          c.database = Field.str g.database ∧ c.table = Field.str g.table ∧
          c.replicated = Field.uint r ∧
          (c.active = Field.uint a ∨ c.active = Field.uint 0) :=
  ⟨_, _, rfl, List.mem_cons_of_mem _ (List.mem_cons_self _ _), rfl,
    C9_required_combinations Example.catalog Example.queryInactive _ rfl _
      (List.mem_cons_of_mem _ (List.mem_cons_self _ _))⟩

/-- C10: when a candidate row passed the second filter and the storage recorded for its
database and table was dropped, so that `lockStructure` fails, `read` as a whole fails
with that error: it returns no result, neither the rows of the tables before nor those
of the tables after. -/
theorem C10_lock_failure_aborts (context : Context) (query : Query) (c : CandidateRow)
    (hc : c ∈ survivingCandidates context query) (storage : StoragePtr)
    (hl : (storagesOf context query).lookup (c.database.getString, c.table.getString) =
      some storage)
    (hdrop : storage.is_dropped = true) :
    storage.lockStructure = Except.error Exception.TABLE_IS_DROPPED ∧
      StorageSystemParts.read context query = Except.error Exception.TABLE_IS_DROPPED := by
  refine ⟨by simp [IStorage.lockStructure, hdrop], ?_⟩
  have hne : ¬ (survivingCandidates context query).length = 0 := by
    intro h0
    rw [List.length_eq_zero.mp h0] at hc
    cases hc
  rw [read_eq, if_neg hne]
  have hx : c.toFiltered ∈ (survivingCandidates context query).map CandidateRow.toFiltered :=
    List.mem_map.mpr ⟨c, hc, rfl⟩
  obtain ⟨g, hg, e1, e2⟩ := groupsLoop_cover _ _ (Nat.le_refl _) _ hx
  have hdr := groupsOutcome_dropped (storagesOf context query) _ []
    [Event.lockContext, Event.unlockContext]
    (fun g2 hg2 => groupsFormed_recorded context query g2 hg2)
    ⟨g, hg, storage, by rw [e1, e2]; exact hl, hdrop⟩
  unfold groupsFormed at hdr
  rw [hdr]
  rfl

/-- C10 applied to the example with a sound table `a` and a dropped table `b`. -/
theorem C10_lock_failure_aborts_example :
    (⟨Field.str "default", Field.str "b", Field.str "MergeTree", Field.uint 0,
        Field.uint 0⟩ : CandidateRow) ∈
        survivingCandidates Example.catalogDropped Example.queryAll ∧
      (∃ storage,
        (storagesOf Example.catalogDropped Example.queryAll).lookup ("default", "b") =
          some storage ∧ storage.is_dropped = true ∧
        storage.lockStructure = Except.error Exception.TABLE_IS_DROPPED) ∧
      StorageSystemParts.read Example.catalogDropped Example.queryAll =
        Except.error Exception.TABLE_IS_DROPPED :=
  have hc : (⟨Field.str "default", Field.str "b", Field.str "MergeTree", Field.uint 0,
      Field.uint 0⟩ : CandidateRow) ∈
      survivingCandidates Example.catalogDropped Example.queryAll := by decide
  have hthm := C10_lock_failure_aborts Example.catalogDropped Example.queryAll _ hc
    { name := "MergeTree", is_dropped := true,
      impl := StorageImpl.StorageMergeTree
        { data_parts := [Example.p1], all_data_parts := [Example.p1] } } rfl rfl
  ⟨hc, ⟨_, rfl, rfl, hthm.1⟩, hthm.2⟩

/-- C11: for a catalog whose map keys are distinct, the rows left by the second filter
are a subsequence of the candidate rows, and in a completed `read` the structural locks
acquired are those of the groups, in order; no pair is locked twice; a pair is locked
exactly when a candidate row of that database and table passed the second filter, and
then exactly once; and the returned rows of a group and flag are the rows emitted in the
one turn for that group and flag: one row per part of the traversed set, in its order,
or none when the matrix asks for nothing or the dataset is absent. -/
theorem C11_locked_once (context : Context) (query : Query) (res : ReadResult)
    (hwf : context.WellFormed)
    (h : StorageSystemParts.read context query = Except.ok res) :
    (survivingCandidates context query).Sublist
        (candidateRows context.databases (survivingDatabases context query)) ∧
      lockedTables res.trace =
        (groupsFormed context query).map (fun g => (g.database, g.table)) ∧
      (lockedTables res.trace).Nodup ∧
      (∀ d t : String,
        (d, t) ∈ lockedTables res.trace ↔
          ∃ c ∈ survivingCandidates context query,
            c.database = Field.str d ∧ c.table = Field.str t) ∧
      (∀ d t : String,
        res.trace.count (Event.lockStructure d t) =
          if ∃ c ∈ survivingCandidates context query,
            c.database = Field.str d ∧ c.table = Field.str t then 1 else 0) ∧
      ∀ g ∈ groupsFormed context query, ∀ (r : Nat) (storage : StoragePtr), (r = 0 ∨ r = 1) →
        (storagesOf context query).lookup (g.database, g.table) = some storage →
        (res.rows.filter (Row.isFor g.database g.table r)).map (fun row => row.lookup "name") =
          if g.need.get r 0 = true ∨ g.need.get r 1 = true then
            match dataAt (backingData storage) r with
            | some d =>
              (if g.need.get r 0 then d.getAllDataParts else d.getDataParts).map
                (fun part => some (Field.str part.name))
            | none => []
          else [] := by
  have hlocked := lockedTables_read context query res h
  have hnd := groupsFormed_nodup context query hwf
  have hmem : ∀ d t : String,
      (d, t) ∈ lockedTables res.trace ↔
        ∃ c ∈ survivingCandidates context query,
          c.database = Field.str d ∧ c.table = Field.str t := by
    intro d t
    rw [hlocked, ← groupsFormed_key_iff]
    simp only [List.mem_map, Prod.mk.injEq]
  refine ⟨List.filter_sublist _, hlocked, by rw [hlocked]; exact hnd, hmem, ?_, ?_⟩
  · intro d t
    rw [count_lockStructure]
    by_cases hc : ∃ c ∈ survivingCandidates context query,
        c.database = Field.str d ∧ c.table = Field.str t
    · rw [if_pos hc]
      exact count_eq_one_of_nodup _ _ (by rw [hlocked]; exact hnd) ((hmem d t).mpr hc)
    · rw [if_neg hc, List.count_eq_zero]
      exact fun hm => hc ((hmem d t).mp hm)
  · intro g hg r storage hr hl
    rw [rows_filter_isFor context query hwf res h g hg r hr, List.map_map]
    simp only [emittedFor, flagRows, hl]
    by_cases hn : g.need.get r 0 = true ∨ g.need.get r 1 = true
    · have hn2 : (g.need.get r 0 || g.need.get r 1) = true := by simpa using hn
      rw [if_pos hn, if_pos hn2]
      cases hd : dataAt (backingData storage) r with
      | none => rfl
      | some d =>
        simp only [List.map_map]
        apply List.map_congr_left
        intro part _
        simp only [Function.comp, toRow_lookup_name]
        rfl
    · have hn2 : ¬ (g.need.get r 0 || g.need.get r 1) = true := by simpa using hn
      rw [if_neg hn, if_neg hn2]
      rfl

/-- C11 applied to the example with the tables `log` and `t` under the query that keeps
every row. -/
theorem C11_locked_once_example :
    Example.catalogWithLog.WellFormed ∧
      ∃ res, StorageSystemParts.read Example.catalogWithLog Example.queryAll = Except.ok res ∧
        lockedTables res.trace = [("default", "t")] ∧
        lockedTables res.trace =
          (groupsFormed Example.catalogWithLog Example.queryAll).map
            (fun g => (g.database, g.table)) ∧
        (lockedTables res.trace).Nodup :=
  have hwf : Example.catalogWithLog.WellFormed := by
    unfold Context.WellFormed
    decide
  have hthm := C11_locked_once Example.catalogWithLog Example.queryAll _ hwf rfl
  ⟨hwf, _, rfl, rfl, hthm.2.1, hthm.2.2.1⟩

/-- C12: for a catalog whose map keys are distinct, the rows of a completed `read` are
the rows `rs` emitted group after group, flag 0 before flag 1; the groups come in the
order in which their database and table first occur among the rows left by the second
filter; every row emitted for a group and flag carries that database, table and flag;
and the rows emitted for a group and flag are the parts of the traversed set in its
iteration order. Hence, for two rows of `rs` with the first before the second, either
the pair of the first occurs first among the filtered rows before the pair of the
second, or they are of the same pair and the first has `replicated = 0` or the second
has `replicated = 1`. -/
theorem C12_row_order (context : Context) (query : Query) (res : ReadResult)
    (hwf : context.WellFormed)
    (h : StorageSystemParts.read context query = Except.ok res) :
    ∃ rs : List ResultRow,
      res.rows = rs.map ResultRow.toRow ∧
      rs = (groupsFormed context query).flatMap (fun g =>
        emittedFor (storagesOf context query) g 0 ++
          emittedFor (storagesOf context query) g 1) ∧
      (groupsFormed context query).map (fun g => (Field.str g.database, Field.str g.table)) =
        firstOccurrences
          ((survivingCandidates context query).map (fun c => (c.database, c.table))) ∧
      (∀ g ∈ groupsFormed context query, ∀ r : Nat, (r = 0 ∨ r = 1) →
        ∀ row ∈ emittedFor (storagesOf context query) g r,
          row.database = Field.str g.database ∧ row.table = Field.str g.table ∧
            row.replicated = Field.uint r) ∧
      (∀ g ∈ groupsFormed context query, ∀ (r : Nat) (storage : StoragePtr)
          (d : MergeTreeData),
        (storagesOf context query).lookup (g.database, g.table) = some storage →
        (g.need.get r 0 = true ∨ g.need.get r 1 = true) →
        dataAt (backingData storage) r = some d →
        (emittedFor (storagesOf context query) g r).map (fun row => row.name) =
          (if g.need.get r 0 then d.getAllDataParts else d.getDataParts).map
            (fun part => Field.str part.name)) ∧
      rs.Pairwise (fun a b =>
        (firstOccurrences
            ((survivingCandidates context query).map (fun c => (c.database, c.table)))).indexOf
              (a.database, a.table) <
          (firstOccurrences
            ((survivingCandidates context query).map (fun c => (c.database, c.table)))).indexOf
              (b.database, b.table) ∨
        ((a.database, a.table) = (b.database, b.table) ∧
          (a.replicated = Field.uint 0 ∨ b.replicated = Field.uint 1))) := by
  have hfirst := groupsFormed_firstOccurrences context query hwf
  have hcells := fun g r hr => emittedFor_cells (storagesOf context query) g r hr
  refine ⟨_, ?_, rfl, hfirst, fun g _ r hr => hcells g r hr, ?_, ?_⟩
  · rw [(read_ok context query res h).1]
    congr 1
    apply List.flatMap_congr
    intro g _
    exact rowsOfGroup_eq _ g
  · intro g _ r storage d hl hn hd
    have hn2 : (g.need.get r 0 || g.need.get r 1) = true := by simpa using hn
    simp only [emittedFor, hl, flagRows, hn2, if_true, hd, List.map_map]
    rfl
  · rw [← hfirst]
    have hnd : ((groupsFormed context query).map
        (fun g => (Field.str g.database, Field.str g.table))).Nodup := by
      have h0 := groupsFormed_nodup context query hwf
      have : (groupsFormed context query).map
          (fun g => (Field.str g.database, Field.str g.table)) =
          ((groupsFormed context query).map (fun g => (g.database, g.table))).map
            (fun k => (Field.str k.1, Field.str k.2)) := by
        rw [List.map_map]
        rfl
      rw [this]
      apply List.Nodup.map _ h0
      intro a b hab
      simp only [Prod.mk.injEq, Field.str.injEq] at hab
      exact Prod.ext hab.1 hab.2
    have hidx := nodup_pairwise_indexOf _ hnd
    rw [List.pairwise_map] at hidx
    rw [List.pairwise_flatMap]
    refine ⟨?_, ?_⟩
    · intro g _
      rw [List.pairwise_append]
      have hp : ∀ r, (r = 0 ∨ r = 1) →
          (emittedFor (storagesOf context query) g r).Pairwise (fun a b =>
            (List.indexOf (a.database, a.table) ((groupsFormed context query).map
                (fun g => (Field.str g.database, Field.str g.table))) <
              List.indexOf (b.database, b.table) ((groupsFormed context query).map
                (fun g => (Field.str g.database, Field.str g.table)))) ∨
            ((a.database, a.table) = (b.database, b.table) ∧
              (a.replicated = Field.uint 0 ∨ b.replicated = Field.uint 1))) := by
        intro r hr
        apply List.Pairwise.imp_of_mem _ (List.pairwise_of_forall (fun _ _ => trivial) :
          (emittedFor (storagesOf context query) g r).Pairwise (fun _ _ => True))
        intro a b ha hb _
        obtain ⟨a1, a2, a3⟩ := hcells g r hr a ha
        obtain ⟨b1, b2, b3⟩ := hcells g r hr b hb
        right
        refine ⟨by rw [a1, a2, b1, b2], ?_⟩
        rcases hr with rfl | rfl
        · exact Or.inl a3
        · exact Or.inr b3
      refine ⟨hp 0 (Or.inl rfl), hp 1 (Or.inr rfl), ?_⟩
      intro a ha b hb
      obtain ⟨a1, a2, a3⟩ := hcells g 0 (Or.inl rfl) a ha
      obtain ⟨b1, b2, _⟩ := hcells g 1 (Or.inr rfl) b hb
      exact Or.inr ⟨by rw [a1, a2, b1, b2], Or.inl a3⟩
    · apply List.Pairwise.imp_of_mem _ hidx
      intro g1 g2 _ _ hlt a ha b hb
      left
      have hkey : ∀ (g : Group) (x : ResultRow),
          x ∈ emittedFor (storagesOf context query) g 0 ++
            emittedFor (storagesOf context query) g 1 →
          (x.database, x.table) = (Field.str g.database, Field.str g.table) := by
        intro g x hx
        rcases List.mem_append.mp hx with hx | hx
        · obtain ⟨x1, x2, _⟩ := hcells g 0 (Or.inl rfl) x hx
          rw [x1, x2]
        · obtain ⟨x1, x2, _⟩ := hcells g 1 (Or.inr rfl) x hx
          rw [x1, x2]
      rw [hkey g1 a ha, hkey g2 b hb]
      exact hlt

/-- C12 applied to the example with a Replicated table under the query that keeps every
row. -/
theorem C12_row_order_example :
    Example.catalogReplicated.WellFormed ∧
      ∃ res, StorageSystemParts.read Example.catalogReplicated Example.queryAll = Except.ok res ∧
        res.rows.map (fun row => (row.lookup "table", row.lookup "replicated",
            row.lookup "name")) =
          [(some (Field.str "r"), some (Field.uint 1), some (Field.str "p0")),
           (some (Field.str "r"), some (Field.uint 1), some (Field.str "p1"))] ∧
        ∃ rs : List ResultRow,
          res.rows = rs.map ResultRow.toRow ∧
          rs = (groupsFormed Example.catalogReplicated Example.queryAll).flatMap (fun g =>
            emittedFor (storagesOf Example.catalogReplicated Example.queryAll) g 0 ++
              emittedFor (storagesOf Example.catalogReplicated Example.queryAll) g 1) :=
  have hwf : Example.catalogReplicated.WellFormed := by
    unfold Context.WellFormed
    decide
  match C12_row_order Example.catalogReplicated Example.queryAll _ hwf rfl with
  | ⟨rs, h1, h2, _⟩ => ⟨hwf, _, rfl, by decide, rs, h1, h2⟩

/-- C13: every block a completed `read` returns is assembled from the eleven result
columns: its columns are, in position order and with their types, the schema declared by
the constructor, that is name, replicated, active, marks, bytes, modification_time,
remove_time, refcount, database, table, engine, and nothing else; the eleven columns
all have as many cells as the block has rows, and that number is the number of rows
inserted, one per emitted part. -/
theorem C13_result_schema (context : Context) (query : Query) (res : ReadResult)
    (h : StorageSystemParts.read context query = Except.ok res) (block : Block)
    (hb : block ∈ res.streams) :
    block.map (fun c => (c.name, c.type)) = StorageSystemParts.columns ∧
      block.map (fun c => c.name) =
        ["name", "replicated", "active", "marks", "bytes", "modification_time", "remove_time",
          "refcount", "database", "table", "engine"] ∧
      block.length = 11 ∧
      (∃ cols : ResultColumns, block = assemble cols) ∧
      (∀ c ∈ block, c.column.length = block.rows) ∧
      block.rows = insertedRowCount res.trace ∧
      res.streams = [block] := by
  obtain ⟨_, h2, _⟩ := read_ok context query res h
  rcases read_ok_streams context query res h with hs | hs
  · rw [hs] at hb
    cases hb
  · rw [hs] at hb
    simp only [List.mem_singleton] at hb
    subst hb
    refine ⟨rfl, rfl, rfl, ⟨_, rfl⟩, ?_, ?_, hs⟩
    · intro c hc
      rw [rows_assemble]
      simp only [assemble, Block.insert, List.nil_append, List.cons_append, List.mem_cons,
        List.mem_singleton, List.not_mem_nil, or_false] at hc
      rcases hc with rfl | rfl | rfl | rfl | rfl | rfl | rfl | rfl | rfl | rfl | rfl <;>
        simp [ResultColumns.ofRows]
    · have e0 : insertedRowCount [Event.lockContext, Event.unlockContext] = 0 := rfl
      rw [rows_assemble, h2, insertedRowCount_append, insertedRowCount_flatMap, e0,
        Nat.zero_add]

/-- C13 applied to the block of the example of the spec. -/
theorem C13_result_schema_example :
    ∃ res block, StorageSystemParts.read Example.catalog Example.query = Except.ok res ∧
      block ∈ res.streams ∧
      block.map (fun c => (c.name, c.type)) = StorageSystemParts.columns ∧
      block.map (fun c => c.name) =
        ["name", "replicated", "active", "marks", "bytes", "modification_time", "remove_time",
          "refcount", "database", "table", "engine"] ∧
      block.length = 11 ∧
      (∃ cols : ResultColumns, block = assemble cols) ∧
      (∀ c ∈ block, c.column.length = block.rows) ∧
      block.rows = insertedRowCount res.trace ∧
      res.streams = [block] ∧ block.rows = 2 :=
  match C13_result_schema Example.catalog Example.query _ rfl _ (List.mem_singleton.mpr rfl) with
  | ⟨h1, h2, h3, h4, h5, h6, h7⟩ =>
    ⟨_, _, rfl, List.mem_singleton.mpr rfl, h1, h2, h3, h4, h5, h6, h7, rfl⟩

/-- C14: for every predicate and any two catalog states that are equal except for the
ownership counts of their parts, `read` fails on one exactly when it fails on the other,
with the same error, and when it completes on both the two results have the same events,
as many blocks and rows, the same blocks and the same rows in the same order once the
refcount column is left out, and so the same cell under every column name other than
`refcount` in every row: part names, sizes and timestamps among them. -/
theorem C14_refcount_only (context1 context2 : Context) (query : Query)
    (h : context1.eraseCounts = context2.eraseCounts) :
    (∀ e, StorageSystemParts.read context1 query = Except.error e ↔
      StorageSystemParts.read context2 query = Except.error e) ∧
    (∀ res1, StorageSystemParts.read context1 query = Except.ok res1 →
      ∃ res2, StorageSystemParts.read context2 query = Except.ok res2) ∧
    ∀ res1 res2, StorageSystemParts.read context1 query = Except.ok res1 →
      StorageSystemParts.read context2 query = Except.ok res2 →
      res1.trace = res2.trace ∧
      res1.streams.length = res2.streams.length ∧
      res1.streams.map Block.rows = res2.streams.map Block.rows ∧
      res1.rows.length = res2.rows.length ∧
      res1.streams.map (Block.withoutColumn "refcount") =
        res2.streams.map (Block.withoutColumn "refcount") ∧
      res1.rows.map (Row.withoutColumn "refcount") =
        res2.rows.map (Row.withoutColumn "refcount") ∧
      ∀ name, name ≠ "refcount" →
        res1.rows.map (List.lookup name) = res2.rows.map (List.lookup name) := by
  have key : (StorageSystemParts.read context1 query).map ReadResult.exceptRefcount =
      (StorageSystemParts.read context2 query).map ReadResult.exceptRefcount := by
    rw [← read_eraseCounts context1, ← read_eraseCounts context2, h]
  cases h1 : StorageSystemParts.read context1 query with
  | error e1 =>
    cases h2 : StorageSystemParts.read context2 query with
    | error e2 =>
      rw [h1, h2] at key
      simp only [Except.map, Except.error.injEq] at key
      subst key
      exact ⟨fun e => Iff.rfl, fun res1 hres => (by cases hres),
        fun res1 res2 hres => (by cases hres)⟩
    | ok r2 =>
      rw [h1, h2] at key
      simp [Except.map] at key
  | ok r1 =>
    cases h2 : StorageSystemParts.read context2 query with
    | error e2 =>
      rw [h1, h2] at key
      simp [Except.map] at key
    | ok r2 =>
      rw [h1, h2] at key
      simp only [Except.map, Except.ok.injEq, ReadResult.exceptRefcount, Prod.mk.injEq] at key
      obtain ⟨k1, k2, k3, k4⟩ := key
      refine ⟨fun e => ⟨fun he => (by cases he), fun he => (by cases he)⟩,
        fun res1 _ => ⟨r2, rfl⟩, ?_⟩
      intro res1 res2 e1 e2
      simp only [Except.ok.injEq] at e1 e2
      subst e1
      subst e2
      refine ⟨k1, ?_, k4, ?_, k2, k3, ?_⟩
      · simpa using congrArg List.length k4
      · simpa using congrArg List.length k3
      · intro name hname
        have hl : ∀ rows : List Row, rows.map (List.lookup name) =
            (rows.map (Row.withoutColumn "refcount")).map (List.lookup name) := by
          intro rows
          rw [List.map_map]
          apply List.map_congr_left
          intro row _
          exact (lookup_withoutColumn row name "refcount" hname).symm
        rw [hl r1.rows, hl r2.rows, k3]

/-- C14 applied to the example catalog at two moments that differ in the ownership
counts of `p0` and `p1`: the events and all cells but refcount agree, refcount differs. -/
theorem C14_refcount_only_example :
    Example.catalog.eraseCounts = Example.catalogRecounted.eraseCounts ∧
      ∃ res1 res2,
        StorageSystemParts.read Example.catalog Example.queryAll = Except.ok res1 ∧
        StorageSystemParts.read Example.catalogRecounted Example.queryAll = Except.ok res2 ∧
        res1.trace = res2.trace ∧
        res1.rows.map (Row.withoutColumn "refcount") =
          res2.rows.map (Row.withoutColumn "refcount") ∧
        res1.rows.map (List.lookup "refcount") ≠ res2.rows.map (List.lookup "refcount") :=
  ⟨rfl, _, _, rfl, rfl,
    ((C14_refcount_only Example.catalog Example.catalogRecounted Example.queryAll rfl).2.2
      _ _ rfl rfl).1,
    ((C14_refcount_only Example.catalog Example.catalogRecounted Example.queryAll rfl).2.2
      _ _ rfl rfl).2.2.2.2.2.1,
    by decide⟩

/-- C15: with `readEvents` the events of one call of `read` up to its return or its
exception (the trace of the result when the call completes): the events start with the
catalog lock and its release, and these are the only catalog events. With `heldLocks pre`
the locks held after a part `pre` of the events: never more than one lock is held and none
at the end; a fetch of the active set or of all parts and the emission of a row for a
table happen while the lock of that table is the one lock held, after its `lockStructure`
and before its `unlockStructure`; a table lock is taken while no lock is held, so after
the release of the catalog lock and of the table lock before it, and is released later. -/
theorem C15_lock_discipline (context : Context) (query : Query) :
    (∀ res, StorageSystemParts.read context query = Except.ok res →
      res.trace = StorageSystemParts.readEvents context query) ∧
    (∃ rest, StorageSystemParts.readEvents context query =
        Event.lockContext :: Event.unlockContext :: rest ∧
      Event.lockContext ∉ rest ∧ Event.unlockContext ∉ rest) ∧
    disciplined [] (StorageSystemParts.readEvents context query) = true ∧
    heldLocks (StorageSystemParts.readEvents context query) = [] ∧
    (∀ pre post, StorageSystemParts.readEvents context query = pre ++ post →
      (heldLocks pre).length ≤ 1) ∧
    ∀ pre e post, StorageSystemParts.readEvents context query = pre ++ e :: post →
      (∀ database table, e.workedTable = some (database, table) →
        heldLocks pre = [HeldLock.table database table] ∧
        Event.lockStructure database table ∈ pre ∧
        Event.unlockStructure database table ∈ post) ∧
      (∀ database table, e = Event.lockStructure database table →
        heldLocks pre = [] ∧ Event.unlockContext ∈ pre ∧
        Event.unlockStructure database table ∈ post) ∧
      (∀ database table, e = Event.unlockStructure database table →
        heldLocks pre = [HeldLock.table database table]) := by
  obtain ⟨hd, hend⟩ := disciplined_readEvents context query
  have ht := readEvents_eq context query
  have hrest : ∃ rest, StorageSystemParts.readEvents context query =
      Event.lockContext :: Event.unlockContext :: rest ∧
      Event.lockContext ∉ rest ∧ Event.unlockContext ∉ rest := by
    refine ⟨_, ht, ?_, ?_⟩
    · intro hc
      obtain ⟨g, _, hg⟩ := List.mem_flatMap.mp hc
      exact (eventsOfGroup_no_context _ g _ hg).1 rfl
    · intro hc
      obtain ⟨g, _, hg⟩ := List.mem_flatMap.mp hc
      exact (eventsOfGroup_no_context _ g _ hg).2 rfl
  refine ⟨readEvents_ok context query, hrest, hd, hend, ?_, ?_⟩
  · intro pre post hs
    cases post with
    | nil =>
      rw [List.append_nil] at hs
      rw [← hs, hend]
      exact Nat.zero_le _
    | cons e es => exact allowed_length _ e (disciplined_split [] _ pre es e hd hs)
  · intro pre e post hs
    have hal : e.allowed (heldLocks pre) = true := disciplined_split [] _ pre post e hd hs
    have hfold : (e :: post).foldl heldAfter (heldLocks pre) = [] := by
      have := hend
      unfold heldLocks at this ⊢
      rw [hs, List.foldl_append] at this
      exact this
    refine ⟨?_, ?_, ?_⟩
    · intro database table he
      have hheld := allowed_work_iff _ e database table he hal
      refine ⟨hheld, ?_, ?_⟩
      · have hm : HeldLock.table database table ∈ pre.foldl heldAfter [] := by
          have := hheld
          unfold heldLocks at this
          rw [this]
          exact List.mem_singleton_self _
        rcases mem_foldl_heldAfter [] pre database table hm with k | k
        · simp at k
        · exact k
      · have hm := unlock_mem_of_released (heldLocks pre) (e :: post) database table
          (by rw [hheld]; exact List.mem_singleton_self _) (by rw [hfold]; simp)
        rcases List.mem_cons.mp hm with k | k
        · rw [← k] at he
          simp [Event.workedTable] at he
        · exact k
    · intro database table he
      subst he
      have hheld : heldLocks pre = [] := by
        simpa [Event.allowed] using hal
      refine ⟨hheld, ?_, ?_⟩
      · obtain ⟨rest, hr, _, _⟩ := hrest
        rw [hr] at hs
        cases pre with
        | nil => simp at hs
        | cons x pre1 =>
          cases pre1 with
          | nil => simp at hs
          | cons y pre2 =>
            simp only [List.cons_append, List.cons.injEq] at hs
            rw [← hs.2.1]
            simp
      · rw [List.foldl_cons, hheld] at hfold
        exact unlock_mem_of_released (heldAfter [] (Event.lockStructure database table)) post
          database table (by simp [heldAfter]) (by rw [hfold]; simp)
    · intro database table he
      subst he
      simpa [Event.allowed] using hal

/-- C15 applied to the example with a sound and a dropped table: the read raises at the
dropped table `b` after the turn of table `a`, whose events are bracketed by its lock. -/
theorem C15_lock_discipline_example :
    StorageSystemParts.read Example.catalogDropped Example.queryAll =
        Except.error Exception.TABLE_IS_DROPPED ∧
      StorageSystemParts.readEvents Example.catalogDropped Example.queryAll =
        [Event.lockContext, Event.unlockContext, Event.lockStructure "default" "a",
         Event.getDataParts "default" "a" 0, Event.getAllDataParts "default" "a" 0,
         Event.insertRow "default" "a" 0 "p0", Event.insertRow "default" "a" 0 "p1",
         Event.unlockStructure "default" "a"] ∧
      disciplined [] (StorageSystemParts.readEvents Example.catalogDropped Example.queryAll) =
        true ∧
      heldLocks (StorageSystemParts.readEvents Example.catalogDropped Example.queryAll) = [] :=
  ⟨rfl, rfl,
    (C15_lock_discipline Example.catalogDropped Example.queryAll).2.2.1,
    (C15_lock_discipline Example.catalogDropped Example.queryAll).2.2.2.1⟩

/-- C16: for a catalog whose map keys are distinct, the rows left by the second filter
are a subsequence of the candidate rows, and for every group formed by the loop and all
`r`, `a` in {0,1}, `need[r][a]` is set if and only if the candidate row with the group's
database and table and the flags `r`, `a` is among the rows that passed the second
filter. The matrix of a group is the fold of the flags of the group's own rows starting
from the all-false matrix, so nothing of the group before is carried over. -/
theorem C16_need_matrix (context : Context) (query : Query) (hwf : context.WellFormed)
    (g : Group) (hg : g ∈ groupsFormed context query) :
    (survivingCandidates context query).Sublist
        (candidateRows context.databases (survivingDatabases context query)) ∧
      (∀ r a : Nat, (r = 0 ∨ r = 1) → (a = 0 ∨ a = 1) →
        (g.need.get r a = true ↔
          ∃ c ∈ survivingCandidates context query,
            c.database = Field.str g.database ∧ c.table = Field.str g.table ∧
            c.replicated = Field.uint r ∧ c.active = Field.uint a)) ∧
      (∀ r a : Nat, Need.empty.get r a = false) ∧
      g.need =
        (((survivingCandidates context query).map CandidateRow.toFiltered).filter
          (fun x => x.database = g.database ∧ x.table = g.table)).foldl
          (fun need x => need.set (x.replicated != 0) (x.active != 0)) Need.empty := by
  obtain ⟨e, he, hd, ht, _, hneed⟩ := groupsFormed_table context query hwf g hg
  have hrun : ((survivingCandidates context query).map CandidateRow.toFiltered).filter
      (fun x => x.database = g.database ∧ x.table = g.table) = (runOf query e).2 := by
    rw [survivingRows_runs]
    have := filter_flatMap_unique ((expandedTables context query).map (runOf query)) Prod.snd
      (fun x => decide (x.database = g.database ∧ x.table = g.table)) (runOf query e)
      (List.mem_map.mpr ⟨e, he, rfl⟩)
      (List.Nodup.of_map Prod.fst (by
        rw [List.map_map]
        exact nodup_expandedTables context query hwf))
      (by
        intro s hs hne
        obtain ⟨e2, he2, rfl⟩ := List.mem_map.mp hs
        rw [List.filter_eq_nil_iff]
        intro x hx hkey
        have hxk := runOf_key query e2 x hx
        simp only [decide_eq_true_eq] at hkey
        apply hne
        have : e2 = e := by
          apply expandedTables_key_inj context query hwf e2 e he2 he
          · have := congrArg Prod.fst hxk
            simp only [FilteredRow.key, runOf] at this
            rw [← this, hkey.1, hd]
          · have := congrArg Prod.snd hxk
            simp only [FilteredRow.key, runOf] at this
            rw [← this, hkey.2, ht]
        rw [this])
    rw [this, List.filter_eq_self]
    intro x hx
    have hxk := runOf_key query e x hx
    have h1 := congrArg Prod.fst hxk
    have h2 := congrArg Prod.snd hxk
    simp only [FilteredRow.key, runOf] at h1 h2
    simp [h1, h2, hd, ht]
  refine ⟨List.filter_sublist _, ?_, Need.get_empty, ?_⟩
  · intro r a hr ha
    constructor
    · exact need_get_candidate context query g hg r a
    · rintro ⟨c, hc, e1, e2, e3, e4⟩
      obtain ⟨e2', he2', hc4, hq⟩ := (mem_survivingCandidates context query c).mp hc
      obtain ⟨k1, k2, _⟩ := mem_fourRows _ _ _ hc4
      have hsame : e2' = e := by
        apply expandedTables_key_inj context query hwf e2' e he2' he
        · rw [k1] at e1
          rw [← hd]
          exact Field.str.inj e1
        · rw [k2] at e2
          rw [← ht]
          exact Field.str.inj e2
      subst hsame
      rw [hneed, foldl_needStep_get]
      right
      refine ⟨c.toFiltered, ?_, ?_, ?_⟩
      · simp only [runOf, List.mem_map, List.mem_filter]
        exact ⟨c, ⟨hc4, hq⟩, rfl⟩
      · simp [CandidateRow.toFiltered, e3, Field.getUInt64, flag_toNat r hr]
      · simp [CandidateRow.toFiltered, e4, Field.getUInt64, flag_toNat a ha]
  · rw [hneed, hrun]
    rfl

/-- C16 applied to the group of the example of the spec under `active = 0`. -/
theorem C16_need_matrix_example :
    Example.catalog.WellFormed ∧
      (⟨"default", "t", ⟨true, false, true, false⟩⟩ : Group) ∈
        groupsFormed Example.catalog Example.queryInactive ∧
      ∀ r a : Nat, (r = 0 ∨ r = 1) → (a = 0 ∨ a = 1) →
        ((⟨true, false, true, false⟩ : Need).get r a = true ↔
          ∃ c ∈ survivingCandidates Example.catalog Example.queryInactive,
            c.database = Field.str "default" ∧ c.table = Field.str "t" ∧
            c.replicated = Field.uint r ∧ c.active = Field.uint a) :=
  have hwf : Example.catalog.WellFormed := by
    unfold Context.WellFormed
    decide
  have hg : (⟨"default", "t", ⟨true, false, true, false⟩⟩ : Group) ∈
      groupsFormed Example.catalog Example.queryInactive := by decide
  ⟨hwf, hg, (C16_need_matrix Example.catalog Example.queryInactive hwf _ hg).2.1⟩

/-- C17: the expansion of the filtered database column succeeds. `offsets` has one entry
per database row, entry `i` is four times the number of supported tables in database rows
`0..i` and is the entry before it plus four per supported table of row `i`. After
`replicate` the database column is as long as the table, engine, replicated and active
columns, all five columns of the block have `offsets.back()` rows, and row `j` of the
block lies in the segment of a database row `i` whose name is the database cell of row
`j` and whose table map, as `databases.at` returns it, has a supported table named by the
table cell of row `j`. A database row without a supported table leaves the offset
unchanged and no row of the block carries its name. -/
theorem C17_block_alignment (context : Context) (query : Query) :
    ∃ column e storages block,
      (databaseBlock context query).getByName "database" = Except.ok column ∧
      expand context.getDatabases column.column = Except.ok e ∧
      candidates context (databaseBlock context query) = Except.ok (storages, block) ∧
      e.offsets.length = column.column.length ∧
      (∀ i cell, column.column[i]? = some cell →
        e.offsets[i]? =
          some (4 * ((column.column.take (i + 1)).map (supportedCount context.databases)).sum) ∧
        e.offsets[i]? =
          some (offsetBefore e.offsets i + 4 * supportedCount context.databases cell)) ∧
      (column.column.replicate e.offsets).length = e.table_column.length ∧
      (column.column.replicate e.offsets).length = e.engine_column.length ∧
      (column.column.replicate e.offsets).length = e.replicated_column.length ∧
      (column.column.replicate e.offsets).length = e.active_column.length ∧
      block.map ColumnWithNameAndType.name =
        ["database", "table", "engine", "replicated", "active"] ∧
      (∀ c ∈ block, c.column.length = lastOffset e.offsets) ∧
      block.rows = lastOffset e.offsets ∧
      (∀ j row, block.rowList[j]? = some row →
        ∃ i cell o tables t storage,
          column.column[i]? = some cell ∧ e.offsets[i]? = some o ∧
          offsetBefore e.offsets i ≤ j ∧ j < o ∧
          row.lookup "database" = some cell ∧
          context.getDatabases.atKey cell.getString = Except.ok tables ∧
          (t, storage) ∈ tables ∧
          (storage.isStorageMergeTree = true ∨ storage.isStorageReplicatedMergeTree = true) ∧
          row.lookup "table" = some (Field.str t)) ∧
      ∀ i cell tables, column.column[i]? = some cell →
        context.getDatabases.atKey cell.getString = Except.ok tables →
        (∀ t ∈ tables, t.2.isStorageMergeTree = false ∧
          t.2.isStorageReplicatedMergeTree = false) →
        e.offsets[i]? = some (offsetBefore e.offsets i) ∧
          ∀ row ∈ block.rowList, row.lookup "database" ≠ some cell := by
  have hlenC : (candidateCounts context.databases (survivingDatabases context query)).length =
      (survivingDatabases context query).length := by simp [candidateCounts]
  have hoff : ∀ i cell, ((survivingDatabases context query).map Field.str)[i]? = some cell →
      (offsetsFrom 0 (candidateCounts context.databases (survivingDatabases context query)))[i]? =
          some (4 * ((((survivingDatabases context query).map Field.str).take (i + 1)).map
            (supportedCount context.databases)).sum) ∧
      (offsetsFrom 0 (candidateCounts context.databases (survivingDatabases context query)))[i]? =
          some (offsetBefore (offsetsFrom 0
            (candidateCounts context.databases (survivingDatabases context query))) i +
              4 * supportedCount context.databases cell) := by
    intro i cell hi
    have hlt : i < ((survivingDatabases context query).map Field.str).length :=
      (List.getElem?_eq_some_iff.mp hi).1
    have hi2 : i < (candidateCounts context.databases (survivingDatabases context query)).length := by
      rw [hlenC]
      simpa using hlt
    have h1 := getElem?_offsetsFrom 0 _ i hi2
    rw [Nat.zero_add, take_supportedCount] at h1
    refine ⟨h1, ?_⟩
    rw [h1, offsetBefore_offsetsFrom _ i (Nat.le_of_lt hi2), take_supportedCount,
      List.take_succ, hi]
    simp [Nat.mul_add]
  have hlast : lastOffset (offsetsFrom 0
      (candidateCounts context.databases (survivingDatabases context query))) =
      (candidateRows context.databases (survivingDatabases context query)).length := by
    rw [lastOffset_eq_sum, length_candidateRows]
  refine ⟨_, _, _, _, databaseBlock_column context query, expand_eq context query,
    candidateBlock_eq context query, ?_, hoff, ?_, ?_, ?_, ?_, rfl, ?_, ?_, ?_, ?_⟩
  · simp [length_offsetsFrom, hlenC]
  · simp only [replicate_database_column, List.length_map]
  · simp only [replicate_database_column, List.length_map]
  · simp only [replicate_database_column, List.length_map]
  · simp only [replicate_database_column, List.length_map]
  · intro c hc
    simp only [hlast]
    simp only [Block.ofRows, CandidateRow.schema, List.map_cons, List.map_nil, List.mem_cons,
      List.mem_singleton, List.not_mem_nil, or_false] at hc
    rcases hc with rfl | rfl | rfl | rfl | rfl <;> simp
  · simp only [hlast]
    exact rows_ofRows _ (by simp [CandidateRow.schema]) _
  · intro j row hrow
    rw [rowList_ofRows _ (by simp [CandidateRow.schema]), List.getElem?_map] at hrow
    cases hc : (candidateRows context.databases (survivingDatabases context query))[j]? with
    | none => simp [hc] at hrow
    | some c =>
      rw [hc] at hrow
      simp only [Option.map, Option.some.injEq] at hrow
      subst hrow
      obtain ⟨i, n, h1, h2, h3, h4⟩ := flatMap_segment _ _ j c hc
      rw [take_candidateCounts] at h2 h3
      have hn : n ∈ survivingDatabases context query := List.getElem?_mem h1
      have hlt : i < (survivingDatabases context query).length :=
        (List.getElem?_eq_some_iff.mp h1).1
      have hi2 : i < (candidateCounts context.databases
          (survivingDatabases context query)).length := by
        rw [hlenC]
        exact hlt
      obtain ⟨t, ht, hct⟩ := List.mem_flatMap.mp h4
      obtain ⟨k1, k2, _⟩ := mem_fourRows _ _ _ hct
      have hlk := surviving_lookup context query n hn
      cases hdb : context.databases.lookup n with
      | none => simp [hdb] at hlk
      | some tables =>
        have h5 := List.mem_filter.mp ht
        simp only [Databases.tablesOf, hdb, Option.getD_some] at h5
        refine ⟨i, Field.str n, _, tables, t.1, t.2, by simp [List.getElem?_map, h1],
          getElem?_offsetsFrom 0 _ i hi2, ?_, ?_, ?_, ?_, h5.1, ?_, ?_⟩
        · rw [offsetBefore_offsetsFrom _ i (Nat.le_of_lt hi2)]
          exact h2
        · rw [Nat.zero_add]
          exact h3
        · exact (candidate_lookup_database c).trans (congrArg some k1)
        · simp [Databases.atKey, Context.getDatabases, Field.getString, hdb]
        · simpa [IStorage.isSupported] using h5.2
        · exact (candidate_lookup_table c).trans (congrArg some k2)
  · intro i cell tables hi hat hnone
    have hlt : i < ((survivingDatabases context query).map Field.str).length :=
      (List.getElem?_eq_some_iff.mp hi).1
    rw [List.getElem?_map] at hi
    cases hn : (survivingDatabases context query)[i]? with
    | none => simp [hn] at hi
    | some n =>
      rw [hn] at hi
      simp only [Option.map, Option.some.injEq] at hi
      subst hi
      have hlk : context.databases.lookup n = some tables := by
        simp only [Databases.atKey, Context.getDatabases, Field.getString] at hat
        cases hdb : context.databases.lookup n with
        | none => simp [hdb] at hat
        | some tb =>
          simp only [hdb, Except.ok.injEq] at hat
          rw [hat]
      have hsup : supportedTables (context.databases.tablesOf n) = [] := by
        simp only [Databases.tablesOf, hlk, Option.getD_some, supportedTables]
        rw [List.filter_eq_nil_iff]
        intro t ht
        have := hnone t ht
        simp [IStorage.isSupported, this.1, this.2]
      refine ⟨?_, ?_⟩
      · have := (hoff i (Field.str n) (by simp [List.getElem?_map, hn])).2
        rw [this]
        simp [supportedCount, Field.getString, hsup]
      · intro row hrow hdbrow
        rw [rowList_ofRows _ (by simp [CandidateRow.schema])] at hrow
        obtain ⟨c, hc, rfl⟩ := List.mem_map.mp hrow
        obtain ⟨m, _, t, ht, hct⟩ := mem_candidateRows _ _ _ hc
        obtain ⟨k1, _⟩ := mem_fourRows _ _ _ hct
        have h6 := (candidate_lookup_database c).symm.trans hdbrow
        rw [k1] at h6
        simp only [Option.some.injEq, Field.str.injEq] at h6
        subst h6
        rw [hsup] at ht
        simp at ht

/-- C17 applied to the example catalog with a log table next to a merge tree table: the
offsets are `[4]` and the block has four rows, all of database `default`. -/
theorem C17_block_alignment_example :
    ∃ column e storages block,
      (databaseBlock Example.catalogWithLog Example.queryAll).getByName "database" =
        Except.ok column ∧
      expand Example.catalogWithLog.getDatabases column.column = Except.ok e ∧
      candidates Example.catalogWithLog (databaseBlock Example.catalogWithLog Example.queryAll) =
        Except.ok (storages, block) ∧
      e.offsets.length = column.column.length ∧ block.rows = lastOffset e.offsets :=
  match C17_block_alignment Example.catalogWithLog Example.queryAll with
  | ⟨column, e, storages, block, h1, h2, h3, h4, _, _, _, _, _, _, _, h5, _⟩ =>
    ⟨column, e, storages, block, h1, h2, h3, h4, h5⟩

/-- C18: both filters only remove rows. Every database name left by the first filter is
a key of the catalog, so `databases.at` returns its tables; the expansion succeeds, and
every row left by the second filter names a database and table for which `storages.at`
returns a storage that is a table of that name in that database of the catalog and
passes one of the two casts; in a catalog whose map keys are distinct it is the only
table of that name. The same holds for every group of the loop, and `read` never fails
with `out_of_range`: its only error is that of a dropped table. -/
theorem C18_lookups_never_fail (context : Context) (query : Query) :
    (∃ column, (databaseBlock context query).getByName "database" = Except.ok column ∧
      (column.column.map Field.getString).Sublist (context.databases.map Prod.fst) ∧
      ∀ cell ∈ column.column, ∃ tables,
        context.getDatabases.atKey cell.getString = Except.ok tables ∧
          (cell.getString, tables) ∈ context.databases) ∧
    (∃ storages block,
      candidates context (databaseBlock context query) = Except.ok (storages, block) ∧
      (filterBlockWithQuery query block).rowList.Sublist block.rowList ∧
      (∀ row ∈ (filterBlockWithQuery query block).rowList,
        ∃ (d t : String) (storage : StoragePtr) (tables : Tables),
          row.lookup "database" = some (Field.str d) ∧
          row.lookup "table" = some (Field.str t) ∧
          storages.atKey (d, t) = Except.ok storage ∧
          (d, tables) ∈ context.databases ∧ (t, storage) ∈ tables ∧
          (storage.isStorageMergeTree = true ∨ storage.isStorageReplicatedMergeTree = true) ∧
          (context.WellFormed → ∀ tables2 storage2,
            (d, tables2) ∈ context.databases → (t, storage2) ∈ tables2 →
            storage2 = storage)) ∧
      ∀ g ∈ groupsFormed context query, ∃ storage,
        storages.atKey (g.database, g.table) = Except.ok storage) ∧
    ∀ e, StorageSystemParts.read context query = Except.error e →
      e = Exception.TABLE_IS_DROPPED := by
  refine ⟨⟨_, databaseBlock_column context query, ?_, ?_⟩,
    ⟨_, _, candidateBlock_eq context query, ?_, ?_, ?_⟩, read_error context query⟩
  · have : ((survivingDatabases context query).map Field.str).map Field.getString =
        survivingDatabases context query := by
      rw [List.map_map]
      exact List.map_id _
    simp only [this]
    exact List.filter_sublist _
  · intro cell hcell
    simp only [List.mem_map] at hcell
    obtain ⟨n, hn, rfl⟩ := hcell
    have hlk := surviving_lookup context query n hn
    cases hdb : context.databases.lookup n with
    | none => simp [hdb] at hlk
    | some tables =>
      exact ⟨tables, by simp [Databases.atKey, Context.getDatabases, Field.getString, hdb],
        mem_of_lookup _ _ _ hdb⟩
  · rw [filtered_rowList, rowList_ofRows _ (by simp [CandidateRow.schema])]
    exact (List.filter_sublist _).map _
  · rw [filtered_rowList]
    intro row hrow
    obtain ⟨c, hc, rfl⟩ := List.mem_map.mp hrow
    obtain ⟨d, t, storage, tables, k1, k2, hat, hd, ht, hs⟩ :=
      survivingCandidates_storage context query c hc
    refine ⟨d, t, storage, tables, ?_, ?_, hat, hd, ht, ?_, ?_⟩
    · rw [candidate_lookup_database, k1]
    · rw [candidate_lookup_table, k2]
    · simpa [IStorage.isSupported] using hs
    · intro hwf tables2 storage2 hd2 ht2
      have e1 := value_unique_of_nodup _ hwf.1 d tables2 tables hd2 hd
      subst e1
      exact value_unique_of_nodup _ (hwf.2 _ hd) t storage2 storage ht2 ht
  · intro g hg
    have := groupsFormed_recorded context query g hg
    cases hl : (storagesOf context query).lookup (g.database, g.table) with
    | none => simp [hl] at this
    | some storage => exact ⟨storage, by simp [Storages.atKey, hl]⟩

/-- C18 applied to the example with a sound and a dropped table: the lookups succeed and
the read fails with the error of the dropped table only. -/
theorem C18_lookups_never_fail_example :
    Example.catalogDropped.WellFormed ∧
      StorageSystemParts.read Example.catalogDropped Example.queryAll =
        Except.error Exception.TABLE_IS_DROPPED ∧
      (∃ storages block,
        candidates Example.catalogDropped (databaseBlock Example.catalogDropped Example.queryAll) =
          Except.ok (storages, block) ∧
        (storages.atKey ("default", "b")).toOption.map IStorage.is_dropped = some true) ∧
      ∀ e, StorageSystemParts.read Example.catalogDropped Example.queryAll = Except.error e →
        e = Exception.TABLE_IS_DROPPED :=
  have hwf : Example.catalogDropped.WellFormed := by
    unfold Context.WellFormed
    decide
  ⟨hwf, rfl, ⟨_, _, rfl, rfl⟩,
    (C18_lookups_never_fail Example.catalogDropped Example.queryAll).2.2⟩

end DB
